import Mathlib

/-!
# TheBeckoningMU character generator: point-budget validation

A shallow embedding of `beckonmu/web/static/chargen/codex-chargen.js`.
The module-level mutable objects of the script (`traitValues`,
`disciplineValues`, `advantageValues`, `flawValues`, `attributePriorities`,
`skillPriorities`) and the form fields the validator reads (`clan`,
`full_name`, `concept`) are gathered in one explicit `State`.

JavaScript objects are association lists in insertion order, ratings are
integers, and the three kinds of value the validator compares with `===`
(an integer, `NaN`, `null`) are the constructors of `JSVal`.
-/

namespace Chargen

/-! ## JavaScript values -/

/-- The values that reach a `===` or a string concatenation in the validator:
an integer, `NaN` (a sum over an undefined rating) or `null` (no pool). -/
inductive JSVal where
  | num (n : Int)
  | nan
  | null
  deriving DecidableEq, Repr

/-- Strict equality `a === b`: `NaN` equals nothing, `null` only `null`. -/
def JSVal.strictEq : JSVal → JSVal → Bool
  | .num a, .num b => a == b
  | .null, .null => true
  | _, _ => false

/-- Strict inequality `a !== b`. -/
def JSVal.strictNe (a b : JSVal) : Bool := !(a.strictEq b)

/-- Addition `a + b` of a running numeric sum and a rating that may be
`undefined` (which makes the sum `NaN`). -/
def JSVal.add : JSVal → JSVal → JSVal
  | .num a, .num b => .num (a + b)
  | _, _ => .nan

/-- Subtraction `a - k` of an integer constant from a numeric sum. -/
def JSVal.subInt : JSVal → Int → JSVal
  | .num a, k => .num (a - k)
  | _, _ => .nan

/-- The text `'' + v` that string concatenation gives a value. -/
def JSVal.toStr : JSVal → String
  | .num n => toString n
  | .nan => "NaN"
  | .null => "null"

/-- Truthiness of a string-or-null value: `null` and `''` are falsy. -/
def truthy : Option String → Bool
  | none => false
  | some v => v != ""

/-! ## Clan data and skill lists -/

/-- An entry of `CLANS`. -/
structure Clan where
  disciplines : List String
  bane : String
  deriving DecidableEq, Repr

/-- The table `CLANS`, in source order. -/
def CLANS : List (String × Clan) := [
  ("Banu Haqim", ⟨["Blood Sorcery", "Celerity", "Obfuscate"],
    "Judgment: Lose Humanity for witnessing corruption without acting"⟩),
  ("Brujah", ⟨["Celerity", "Potence", "Presence"],
    "Violent Temper: Difficulty +2 to resist fury frenzy"⟩),
  ("Gangrel", ⟨["Animalism", "Fortitude", "Protean"],
    "Bestial Features: Animal features emerge when Hunger 4+"⟩),
  ("Hecata", ⟨["Auspex", "Fortitude", "Oblivion"],
    "Painful Kiss: Feeding causes intense pain to victim"⟩),
  ("Lasombra", ⟨["Dominate", "Oblivion", "Potence"],
    "Callous: Cannot gain Humanity from Remorse"⟩),
  ("Malkavian", ⟨["Auspex", "Dominate", "Obfuscate"],
    "Fractured Perspective: Must have at least one mental derangement"⟩),
  ("Ministry", ⟨["Obfuscate", "Presence", "Protean"],
    "Abhors the Light: Additional damage from sunlight"⟩),
  ("Nosferatu", ⟨["Animalism", "Obfuscate", "Potence"],
    "Repulsive: Appearance 0, automatic fail on Persuasion/Performance vs mortals"⟩),
  ("Ravnos", ⟨["Animalism", "Obfuscate", "Presence"],
    "Doomed: Cannot rest in same place twice in 7 nights"⟩),
  ("Salubri", ⟨["Auspex", "Dominate", "Fortitude"],
    "Third Eye: Visible third eye when using Disciplines"⟩),
  ("Toreador", ⟨["Auspex", "Celerity", "Presence"],
    "Aesthetic Fixation: May become entranced by beauty"⟩),
  ("Tremere", ⟨["Auspex", "Blood Sorcery", "Dominate"],
    "Deficient Blood: Blood bonds form one step stronger"⟩),
  ("Tzimisce", ⟨["Animalism", "Dominate", "Protean"],
    "Grounded: Must rest with homeland soil"⟩),
  ("Ventrue", ⟨["Dominate", "Fortitude", "Presence"],
    "Rarefied Taste: Can only feed from specific type of mortal"⟩),
  ("Caitiff", ⟨[], "Suspect Blood: Ostracized by Camarilla"⟩)]

/-- The constant array `PHYSICAL_SKILLS`. -/
def PHYSICAL_SKILLS : List String :=
  ["athletics", "brawl", "craft", "drive", "firearms", "melee", "larceny", "stealth", "survival"]

/-- The constant array `SOCIAL_SKILLS`. -/
def SOCIAL_SKILLS : List String :=
  ["animal_ken", "etiquette", "insight", "intimidation", "leadership", "performance",
   "persuasion", "streetwise", "subterfuge"]

/-- The constant array `MENTAL_SKILLS`. -/
def MENTAL_SKILLS : List String :=
  ["academics", "awareness", "finance", "investigation", "medicine", "occult", "politics",
   "science", "technology"]

/-- The array literal `['strength', 'dexterity', 'stamina']` of the validator. -/
def PHYSICAL_ATTRIBUTES : List String := ["strength", "dexterity", "stamina"]

/-- The array literal `['charisma', 'manipulation', 'composure']`. -/
def SOCIAL_ATTRIBUTES : List String := ["charisma", "manipulation", "composure"]

/-- The array literal `['intelligence', 'wits', 'resolve']`. -/
def MENTAL_ATTRIBUTES : List String := ["intelligence", "wits", "resolve"]

/-! ## State -/

/-- The object `{ primary, secondary, tertiary }`, each a category name or `null`. -/
structure Priorities where
  primary : Option String
  secondary : Option String
  tertiary : Option String
  deriving DecidableEq, Repr

/-- An entry of `advantageValues` or `flawValues`: the `value` and whatever
other fields the object carries. -/
structure Entry where
  value : Int
  fields : List (String × String)
  deriving DecidableEq, Repr

/-- The wizard state the validator and the completion tracker read: the module-level
objects and the values of the form fields (`clan`, `generation` and `predator_type` are
selects, the others free-text inputs). -/
structure State where
  traitValues : List (String × Int)
  disciplineValues : List (String × Int)
  advantageValues : List (String × Entry)
  flawValues : List (String × Entry)
  attributePriorities : Priorities
  skillPriorities : Priorities
  clan : String
  full_name : String
  concept : String
  sire : String := ""
  generation : String := ""
  predator_type : String := ""
  ambition : String := ""
  desire : String := ""
  background : String := ""
  deriving DecidableEq, Repr

/-- Property read `obj[key]`: the value stored under `key`, `none` for `undefined`. -/
def getProp {α : Type} (obj : List (String × α)) (key : String) : Option α :=
  (obj.find? (fun e => e.1 == key)).map Prod.snd

/-- The operand `traitValues[trait]` of an attribute sum (`undefined` adds as `NaN`). -/
def traitOperand (tv : List (String × Int)) (trait : String) : JSVal :=
  match getProp tv trait with
  | some v => .num v
  | none => .nan

/-- The value of `names.reduce(function (s, t) { return s + traitValues[t]; }, 0) - 3`. -/
def attributeSpent (tv : List (String × Int)) (names : List String) : JSVal :=
  (names.foldl (fun (s : JSVal) t => s.add (traitOperand tv t)) (JSVal.num 0)).subInt 3

/-- The value of `names.reduce(function (s, t) { return s + (traitValues[t] || 0); }, 0)`. -/
def skillSpent (tv : List (String × Int)) (names : List String) : Int :=
  names.foldl (fun s t => s + (getProp tv t).getD 0) 0

/-- The value of `Object.values(disciplineValues).reduce((sum, val) => sum + val, 0)`. -/
def disciplinesSpent (dv : List (String × Int)) : Int :=
  dv.foldl (fun sum e => sum + e.2) 0

/-- The value of `Object.values(obj).reduce((sum, x) => sum + x.value, 0)` for
`advantageValues` and `flawValues`. -/
def entriesSpent (ev : List (String × Entry)) : Int :=
  ev.foldl (fun sum e => sum + e.2.value) 0

/-- The value of `Object.entries(disciplineValues).filter(e => inClan.includes(e[0]) && e[1] > 0)
.reduce((sum, e) => sum + e[1], 0)`. -/
def inClanSpent (inClan : List String) (dv : List (String × Int)) : Int :=
  (dv.filter (fun e => inClan.contains e.1 && decide (0 < e.2))).foldl (fun sum e => sum + e.2) 0

/-! ## Pool resolver -/

/-- The function `getAttributePoolForCategory`. -/
def getAttributePoolForCategory (attributePriorities : Priorities) (category : String) : JSVal :=
  if attributePriorities.primary == some category then .num 7
  else if attributePriorities.secondary == some category then .num 5
  else if attributePriorities.tertiary == some category then .num 3
  else .null

/-- The function `getSkillPoolForCategory`. -/
def getSkillPoolForCategory (skillPriorities : Priorities) (category : String) : JSVal :=
  if skillPriorities.primary == some category then .num 13
  else if skillPriorities.secondary == some category then .num 9
  else if skillPriorities.tertiary == some category then .num 5
  else .null

/-! ## Budget validator -/

/-- The message `label + ': Must spend exactly ' + max + ' dots (currently ' + spent + ')'`
pushed for an attribute or skill category (`label` is e.g. `Physical Attributes`). -/
def spendMessage (label : String) (max spent : JSVal) : String :=
  label ++ ": Must spend exactly " ++ max.toStr ++ " dots (currently " ++ spent.toStr ++ ")"

/-- The block `// Validate attribute priorities` of `validateForm`, as a function of the
array `errors` it pushes to. -/
def validateAttributePriorities (s : State) (errors : List String) : List String :=
  if !truthy s.attributePriorities.primary || !truthy s.attributePriorities.secondary
      || !truthy s.attributePriorities.tertiary then
    errors ++ ["You must assign all attribute priorities (Primary, Secondary, Tertiary)"]
  else
    let physicalSpent := attributeSpent s.traitValues PHYSICAL_ATTRIBUTES
    let socialSpent := attributeSpent s.traitValues SOCIAL_ATTRIBUTES
    let mentalSpent := attributeSpent s.traitValues MENTAL_ATTRIBUTES
    let physicalMax := getAttributePoolForCategory s.attributePriorities "physical"
    let socialMax := getAttributePoolForCategory s.attributePriorities "social"
    let mentalMax := getAttributePoolForCategory s.attributePriorities "mental"
    let errors :=
      if physicalSpent.strictNe physicalMax then
        errors ++ [spendMessage "Physical Attributes" physicalMax physicalSpent]
      else errors
    let errors :=
      if socialSpent.strictNe socialMax then
        errors ++ [spendMessage "Social Attributes" socialMax socialSpent]
      else errors
    let errors :=
      if mentalSpent.strictNe mentalMax then
        errors ++ [spendMessage "Mental Attributes" mentalMax mentalSpent]
      else errors
    errors

/-- The block `// Validate skill priorities` of `validateForm`. -/
def validateSkillPriorities (s : State) (errors : List String) : List String :=
  if !truthy s.skillPriorities.primary || !truthy s.skillPriorities.secondary
      || !truthy s.skillPriorities.tertiary then
    errors ++ ["You must assign all skill priorities (Primary, Secondary, Tertiary)"]
  else
    let physicalSkillsSpent := JSVal.num (skillSpent s.traitValues PHYSICAL_SKILLS)
    let socialSkillsSpent := JSVal.num (skillSpent s.traitValues SOCIAL_SKILLS)
    let mentalSkillsSpent := JSVal.num (skillSpent s.traitValues MENTAL_SKILLS)
    let physicalSkillMax := getSkillPoolForCategory s.skillPriorities "physical"
    let socialSkillMax := getSkillPoolForCategory s.skillPriorities "social"
    let mentalSkillMax := getSkillPoolForCategory s.skillPriorities "mental"
    let errors :=
      if physicalSkillsSpent.strictNe physicalSkillMax then
        errors ++ [spendMessage "Physical Skills" physicalSkillMax physicalSkillsSpent]
      else errors
    let errors :=
      if socialSkillsSpent.strictNe socialSkillMax then
        errors ++ [spendMessage "Social Skills" socialSkillMax socialSkillsSpent]
      else errors
    let errors :=
      if mentalSkillsSpent.strictNe mentalSkillMax then
        errors ++ [spendMessage "Mental Skills" mentalSkillMax mentalSkillsSpent]
      else errors
    errors

/-- The value of `selectedClan && CLANS[selectedClan]`: the entry of a non-empty clan name
that is a key of `CLANS`, `none` when the conjunction is falsy. (The clan field is a
select over the keys of `CLANS`; names inherited from `Object.prototype` are not
modelled.) -/
def selectedClanEntry (selectedClan : String) : Option Clan :=
  if selectedClan != "" then getProp CLANS selectedClan else none

/-- The block `// Validate disciplines` of `validateForm`. -/
def validateDisciplines (s : State) (errors : List String) : List String :=
  let selectedClan := s.clan
  let disciplinesSpent := disciplinesSpent s.disciplineValues
  if disciplinesSpent != 3 then
    errors ++ ["Disciplines: Must spend exactly 3 dots (currently "
      ++ toString disciplinesSpent ++ ")"]
  else
    match selectedClanEntry selectedClan with
    | some clan =>
      let inClanDisciplines := clan.disciplines
      if inClanDisciplines.length > 0 then
        let inClanSpent := inClanSpent inClanDisciplines s.disciplineValues
        if inClanSpent < 2 then
          errors ++ ["Disciplines: Must spend at least 2 dots in in-clan disciplines (currently "
            ++ toString inClanSpent ++ ")"]
        else errors
      else errors
    | none => errors

/-- The block `// Validate advantages` of `validateForm`. -/
def validateAdvantages (s : State) (errors : List String) : List String :=
  let advantagesSpent := entriesSpent s.advantageValues
  if advantagesSpent != 7 then
    errors ++ ["Advantages: Must spend exactly 7 points (currently "
      ++ toString advantagesSpent ++ ")"]
  else errors

/-- The block `// Validate flaws` of `validateForm`. -/
def validateFlaws (s : State) (errors : List String) : List String :=
  let flawsSpent := entriesSpent s.flawValues
  if flawsSpent > 2 then
    errors ++ ["Flaws: Cannot exceed 2 points (currently " ++ toString flawsSpent ++ ")"]
  else errors

/-- The array `errors` that `validateForm` has built when it reaches its `return`: the five
validation blocks run in source order on the empty array. -/
def validateFormErrors (s : State) : List String :=
  let errors : List String := []
  let errors := validateAttributePriorities s errors
  let errors := validateSkillPriorities s errors
  let errors := validateDisciplines s errors
  let errors := validateAdvantages s errors
  let errors := validateFlaws s errors
  errors

/-- The function `validateForm`: its return value `errors.length === 0`. -/
def validateForm (s : State) : Bool :=
  (validateFormErrors s).length == 0

/-! ## Completion tracker -/

/-- The characters `String.prototype.trim` strips: ECMAScript white space and
line terminators. -/
def isTrimmed (c : Char) : Bool :=
  c.val ∈ [0x09, 0x0A, 0x0B, 0x0C, 0x0D, 0x20, 0xA0, 0x1680, 0x2000, 0x2001, 0x2002, 0x2003,
    0x2004, 0x2005, 0x2006, 0x2007, 0x2008, 0x2009, 0x200A, 0x2028, 0x2029, 0x202F, 0x205F,
    0x3000, 0xFEFF]

/-- The method `trim`. -/
def trim (v : String) : String :=
  String.mk ((v.data.dropWhile isTrimmed).reverse.dropWhile isTrimmed).reverse

/-- The cases 0 to 5 of `checkTabComplete`, which do not call the function again. -/
def checkStepComplete (s : State) (tabIndex : Nat) : Bool :=
  match tabIndex with
  | 0 => -- Identity
    trim s.full_name != "" && trim s.concept != "" && s.clan != ""
  | 1 => -- Attributes
    if !truthy s.attributePriorities.primary || !truthy s.attributePriorities.secondary
        || !truthy s.attributePriorities.tertiary then
      false
    else
      let physSpent := attributeSpent s.traitValues PHYSICAL_ATTRIBUTES
      let socSpent := attributeSpent s.traitValues SOCIAL_ATTRIBUTES
      let menSpent := attributeSpent s.traitValues MENTAL_ATTRIBUTES
      physSpent.strictEq (getAttributePoolForCategory s.attributePriorities "physical") &&
      socSpent.strictEq (getAttributePoolForCategory s.attributePriorities "social") &&
      menSpent.strictEq (getAttributePoolForCategory s.attributePriorities "mental")
  | 2 => -- Skills
    if !truthy s.skillPriorities.primary || !truthy s.skillPriorities.secondary
        || !truthy s.skillPriorities.tertiary then
      false
    else
      let pSkill := JSVal.num (skillSpent s.traitValues PHYSICAL_SKILLS)
      let sSkill := JSVal.num (skillSpent s.traitValues SOCIAL_SKILLS)
      let mSkill := JSVal.num (skillSpent s.traitValues MENTAL_SKILLS)
      pSkill.strictEq (getSkillPoolForCategory s.skillPriorities "physical") &&
      sSkill.strictEq (getSkillPoolForCategory s.skillPriorities "social") &&
      mSkill.strictEq (getSkillPoolForCategory s.skillPriorities "mental")
  | 3 => -- Disciplines
    let discSpent := disciplinesSpent s.disciplineValues
    if discSpent != 3 then false
    else
      let selectedClan := s.clan
      match selectedClanEntry selectedClan with
      | some clan =>
        if clan.disciplines.length > 0 then
          let inClanDiscs := clan.disciplines
          let inClanSpent := inClanSpent inClanDiscs s.disciplineValues
          decide (inClanSpent ≥ 2)
        else true
      | none => true
  | 4 => -- Advantages
    let advSpent := entriesSpent s.advantageValues
    advSpent == 7
  | 5 => -- Flaws
    let flawSpent := entriesSpent s.flawValues
    decide (flawSpent ≤ 2)
  | _ => false

/-- The array `TAB_CONFIG`: the `id`, `label` and `numeral` of the seven tabs. -/
def TAB_CONFIG : List (String × String × String) :=
  [("tab-identity", "Identity", "I"), ("tab-attributes", "Attributes", "II"),
   ("tab-skills", "Skills", "III"), ("tab-disciplines", "Disciplines", "IV"),
   ("tab-advantages", "Advantages", "V"), ("tab-flaws", "Flaws", "VI"),
   ("tab-chronicle", "Submit", "VII")]

/-- The function `checkTabComplete`; case 6 runs
`for (let i = 0; i < TAB_CONFIG.length - 1; i++) if (!checkTabComplete(i)) return false;`
and the tabs it visits are the cases 0 to 5. -/
def checkTabComplete (s : State) (tabIndex : Nat) : Bool :=
  if tabIndex = 6 then
    (List.range (TAB_CONFIG.length - 1)).all (fun i => checkStepComplete s i)
  else checkStepComplete s tabIndex

/-! ## Ledger initialisation -/

/-- Assignment `obj[key] = v`: an existing key keeps its place, a new key is appended. -/
def setProp {α : Type} (obj : List (String × α)) (key : String) (v : α) : List (String × α) :=
  if obj.any (fun e => e.1 == key) then obj.map (fun e => if e.1 == key then (key, v) else e)
  else obj ++ [(key, v)]

/-- The test `pre.isPrefixOf text` on the characters of two strings, as in
`category.startsWith('skills')`. -/
def startsWith (pre text : String) : Bool := pre.data.isPrefixOf text.data

/-- The ledger part of `initializeDots`: every container `(trait, category)` of the page
gets `traitValues[trait] = category.startsWith('skills') ? 0 : 1`. -/
def initializeDots (containers : List (String × String)) (traitValues : List (String × Int)) :
    List (String × Int) :=
  containers.foldl (fun tv c => setProp tv c.1 (if startsWith "skills" c.2 then 0 else 1))
    traitValues

/-- Modelled from the spec: the `.trait-dots, .pip-row` containers of the page template, which
is not part of the script. There is one per attribute and one per skill the script names;
the `data-category` of a skill container starts with `skills` (spec §3: attributes have
baseline 1, skills baseline 0). -/
def TRAIT_CONTAINERS : List (String × String) :=
  (PHYSICAL_ATTRIBUTES ++ SOCIAL_ATTRIBUTES ++ MENTAL_ATTRIBUTES).map (fun t => (t, "attributes"))
  ++ (PHYSICAL_SKILLS ++ SOCIAL_SKILLS ++ MENTAL_SKILLS).map (fun t => (t, "skills"))

/-- The state once the page has loaded and the three trait catalogs have been rendered:
`initializeDots` has run, every catalog entry has been given
`disciplineValues[trait] || 0` resp. `{ value: 0 }`, no priority is assigned and the
form fields are empty. -/
def initialState (disciplines advantages flaws : List String) : State where
  traitValues := initializeDots TRAIT_CONTAINERS []
  disciplineValues := disciplines.foldl (fun dv t => setProp dv t ((getProp dv t).getD 0)) []
  advantageValues := advantages.foldl (fun av t => setProp av t ((getProp av t).getD ⟨0, []⟩)) []
  flawValues := flaws.foldl (fun fv t => setProp fv t ((getProp fv t).getD ⟨0, []⟩)) []
  attributePriorities := ⟨none, none, none⟩
  skillPriorities := ⟨none, none, none⟩
  clan := ""
  full_name := ""
  concept := ""

/-! ## The budget groups of the specification

The specification (§4.3) speaks of nine independently budgeted groups, each
classified as satisfied or unsatisfied from a `spent` and a `required` amount.
The definitions below follow its words; the theorems compare them with what
`validateForm` and `checkTabComplete` compute. -/

/-- Spec §3: one of `physical`, `social`, `mental`. -/
inductive Category where
  | physical
  | social
  | mental
  deriving DecidableEq, Repr

/-- The name under which the script refers to a category. -/
def Category.name : Category → String
  | .physical => "physical"
  | .social => "social"
  | .mental => "mental"

/-- The capitalised name a message gives a category. -/
def Category.label : Category → String
  | .physical => "Physical"
  | .social => "Social"
  | .mental => "Mental"

/-- The three attributes of a category. -/
def Category.attributes : Category → List String
  | .physical => PHYSICAL_ATTRIBUTES
  | .social => SOCIAL_ATTRIBUTES
  | .mental => MENTAL_ATTRIBUTES

/-- The nine skills of a category. -/
def Category.skills : Category → List String
  | .physical => PHYSICAL_SKILLS
  | .social => SOCIAL_SKILLS
  | .mental => MENTAL_SKILLS

/-- Spec §4.3: the independently budgeted groups. -/
inductive Group where
  | attr (c : Category)
  | skill (c : Category)
  | disciplines
  | advantages
  | flaws
  deriving DecidableEq, Repr

/-- All nine groups. -/
def Group.all : List Group :=
  [.attr .physical, .attr .social, .attr .mental,
   .skill .physical, .skill .social, .skill .mental, .disciplines, .advantages, .flaws]

/-- The words with which a message names a group. -/
def Group.label : Group → String
  | .attr c => c.label ++ " Attributes"
  | .skill c => c.label ++ " Skills"
  | .disciplines => "Disciplines"
  | .advantages => "Advantages"
  | .flaws => "Flaws"

/-- Spec §4.3 "both priority assignments are fully populated (all three levels assigned)". -/
def Priorities.assigned (p : Priorities) : Bool :=
  truthy p.primary && truthy p.secondary && truthy p.tertiary

/-- Spec §3: the dots a rating contributes: the rating itself when it is positive. -/
def dotsHeld (rating : Int) : Int := max rating 0

/-- Spec §3: how many of the discipline dots spent fall within a lineage's list. -/
def dotsInClan (listed : List String) (ledger : List (String × Int)) : Int :=
  (ledger.map (fun e => if e.1 ∈ listed then dotsHeld e.2 else 0)).sum

/-- Spec §3: the in-lineage minimum, enforced only when the selected lineage lists at
least one discipline: at least 2 of the dots spent fall within the list. -/
def inLineageMinimumMet (s : State) : Bool :=
  CLANS.all (fun e =>
    e.1 != s.clan || e.2.disciplines.isEmpty ||
      decide (2 ≤ dotsInClan e.2.disciplines s.disciplineValues))

/-- Spec §4.3: a group is satisfied when its spend equals its requirement (attributes: the
category's resolved pool against the sum of its ratings minus the baseline 3; skills: the
pool against the sum; disciplines: exactly 3 and the in-lineage minimum; advantages:
exactly 7), and for flaws when the total is at most the ceiling 2. -/
def groupSatisfied (s : State) : Group → Bool
  | .attr c =>
    (attributeSpent s.traitValues c.attributes).strictEq
      (getAttributePoolForCategory s.attributePriorities c.name)
  | .skill c =>
    (JSVal.num (skillSpent s.traitValues c.skills)).strictEq
      (getSkillPoolForCategory s.skillPriorities c.name)
  | .disciplines => disciplinesSpent s.disciplineValues == 3 && inLineageMinimumMet s
  | .advantages => entriesSpent s.advantageValues == 7
  | .flaws => decide (entriesSpent s.flawValues ≤ 2)

/-- The groups of a state that are not satisfied. -/
def violatedGroups (s : State) : List Group :=
  Group.all.filter (fun g => !groupSatisfied s g)

/-- The text with which `validateForm` reports a violated group: the group's label, the
required amount and the amount currently spent. -/
def violationMessage (s : State) : Group → String
  | .attr c =>
    spendMessage (Group.label (.attr c))
      (getAttributePoolForCategory s.attributePriorities c.name)
      (attributeSpent s.traitValues c.attributes)
  | .skill c =>
    spendMessage (Group.label (.skill c))
      (getSkillPoolForCategory s.skillPriorities c.name)
      (JSVal.num (skillSpent s.traitValues c.skills))
  | .disciplines =>
    if disciplinesSpent s.disciplineValues = 3 then
      "Disciplines: Must spend at least 2 dots in in-clan disciplines (currently "
        ++ toString (inClanSpent (((selectedClanEntry s.clan).map Clan.disciplines).getD [])
            s.disciplineValues) ++ ")"
    else
      "Disciplines: Must spend exactly 3 dots (currently "
        ++ toString (disciplinesSpent s.disciplineValues) ++ ")"
  | .advantages =>
    "Advantages: Must spend exactly 7 points (currently "
      ++ toString (entriesSpent s.advantageValues) ++ ")"
  | .flaws =>
    "Flaws: Cannot exceed 2 points (currently " ++ toString (entriesSpent s.flawValues) ++ ")"

/-- What a group contributes to the message list once its priorities are assigned:
nothing when it is satisfied, its violation message otherwise. -/
def groupErrors (s : State) (g : Group) : List String :=
  if groupSatisfied s g then [] else [violationMessage s g]

/-- The messages of an error list that name a group. -/
def errorsFor (g : Group) (errors : List String) : List String :=
  errors.filter (fun m => startsWith g.label m)

/-! ## Concrete wizard states -/

/-- A ledger of attributes and skills that spends 7/5/3 attribute dots and 13/9/5 skill dots
on the physical, social and mental categories. -/
def legalTraits : List (String × Int) :=
  [("strength", 4), ("dexterity", 3), ("stamina", 3),
   ("charisma", 3), ("manipulation", 3), ("composure", 2),
   ("intelligence", 2), ("wits", 2), ("resolve", 2),
   ("athletics", 5), ("brawl", 5), ("craft", 3), ("drive", 0), ("firearms", 0), ("melee", 0),
   ("larceny", 0), ("stealth", 0), ("survival", 0),
   ("animal_ken", 5), ("etiquette", 4), ("insight", 0), ("intimidation", 0), ("leadership", 0),
   ("performance", 0), ("persuasion", 0), ("streetwise", 0), ("subterfuge", 0),
   ("academics", 5), ("awareness", 0), ("finance", 0), ("investigation", 0), ("medicine", 0),
   ("occult", 0), ("politics", 0), ("science", 0), ("technology", 0)]

/-- A state whose point budgets are all met while the clan field is still empty. -/
def noClanState : State where
  traitValues := legalTraits
  disciplineValues := [("Animalism", 0), ("Potence", 2), ("Presence", 1)]
  advantageValues := [("Allies", ⟨3, []⟩), ("Resources", ⟨4, []⟩)]
  flawValues := [("Enemy", ⟨1, []⟩)]
  attributePriorities := ⟨some "physical", some "social", some "mental"⟩
  skillPriorities := ⟨some "physical", some "social", some "mental"⟩
  clan := ""
  full_name := ""
  concept := ""

/-- The state `noClanState` with clan Brujah chosen and one dot of stamina removed. -/
def staminaTwoState : State :=
  { noClanState with traitValues := setProp legalTraits "stamina" 2, clan := "Brujah" }

/-- A Brujah whose physical skills hold 14 dots and social skills 8, with 4 discipline dots,
5 advantage points and 3 flaw points. -/
def unevenState : State :=
  { noClanState with
    traitValues := setProp (setProp legalTraits "craft" 4) "etiquette" 3
    disciplineValues := [("Animalism", 0), ("Potence", 3), ("Presence", 1)]
    advantageValues := [("Allies", ⟨3, []⟩), ("Resources", ⟨2, []⟩)]
    flawValues := [("Enemy", ⟨2, []⟩), ("Dark Secret", ⟨1, []⟩)]
    clan := "Brujah" }

/-- A Brujah (in-clan: Celerity, Potence, Presence) with all three discipline dots in
Animalism. -/
def outOfClanState : State :=
  { noClanState with
    disciplineValues := [("Animalism", 3), ("Potence", 0), ("Presence", 0)]
    clan := "Brujah" }

/-- A Caitiff with all three discipline dots in Animalism. -/
def caitiffState : State :=
  { noClanState with
    disciplineValues := [("Animalism", 3), ("Potence", 0), ("Presence", 0)]
    clan := "Caitiff" }

/-- The initial state for a catalog of three disciplines, two advantages and one flaw. -/
def freshState : State :=
  initialState ["Animalism", "Celerity", "Potence"] ["Allies", "Resources"] ["Enemy"]

/-- The state `unevenState` before any attribute priority has been chosen. -/
def noAttributePriorityState : State :=
  { unevenState with attributePriorities := ⟨none, none, none⟩ }

/-! ## Dot clicks -/

/-- The click handler that `initializeDots` puts on the dot `clickedValue` of the container
of `trait` whose `data-category` is `category`: its effect on `traitValues`. -/
def clickTraitDot (category trait : String) (clickedValue : Int)
    (traitValues : List (String × Int)) : List (String × Int) :=
  let currentValue := getProp traitValues trait
  let minValue : Int := if startsWith "skills" category then 0 else 1
  -- Toggle: clicking the current value resets to min
  if some clickedValue == currentValue then setProp traitValues trait minValue
  else setProp traitValues trait clickedValue

/-- The click handler that `renderDisciplines` puts on the dot `clickedValue` of the
container of `trait`: its effect on `disciplineValues`. -/
def clickDisciplineDot (trait : String) (clickedValue : Int)
    (disciplineValues : List (String × Int)) : List (String × Int) :=
  let currentValue := getProp disciplineValues trait
  -- Toggle: clicking the current value resets to 0
  if some clickedValue == currentValue then setProp disciplineValues trait 0
  else setProp disciplineValues trait clickedValue

/-- The click handler that `renderAdvantages` and `renderFlaws` put on the dot
`clickedValue` of the container of `trait`: its effect on `advantageValues` resp.
`flawValues`. Reading `.value` of a missing entry throws (`none`); otherwise the `value`
of the entry object is assigned in place. -/
def clickEntryDot (trait : String) (clickedValue : Int) (values : List (String × Entry)) :
    Option (List (String × Entry)) :=
  match getProp values trait with
  | none => none
  | some entry =>
    let currentValue := entry.value
    -- Toggle: clicking the current value resets to 0
    if clickedValue == currentValue then some (setProp values trait { entry with value := 0 })
    else some (setProp values trait { entry with value := clickedValue })

/-- A click on a dot: the container it belongs to and the `data-value` of the dot. -/
inductive Click where
  | trait (trait category : String) (value : Int)
  | discipline (trait : String) (value : Int)
  | advantage (trait : String) (value : Int)
  | flaw (trait : String) (value : Int)
  deriving DecidableEq, Repr

/-- The state after the handler of a click has run; a handler that throws leaves the
state as it was. -/
def Click.apply (s : State) : Click → State
  | .trait t c v => { s with traitValues := clickTraitDot c t v s.traitValues }
  | .discipline t v => { s with disciplineValues := clickDisciplineDot t v s.disciplineValues }
  | .advantage t v =>
    { s with advantageValues := (clickEntryDot t v s.advantageValues).getD s.advantageValues }
  | .flaw t v => { s with flawValues := (clickEntryDot t v s.flawValues).getD s.flawValues }

/-- The dots the page offers for the given catalogs: `initializeDots` creates the dots 1 to 5
in every trait container, `renderDisciplines` the dots 1 to 3 for every catalogued
discipline, `renderAdvantages` and `renderFlaws` the dots 1 to 5. -/
def Click.offered (disciplines advantages flaws : List String) : Click → Bool
  | .trait t c v => decide ((t, c) ∈ TRAIT_CONTAINERS) && decide (1 ≤ v) && decide (v ≤ 5)
  | .discipline t v => decide (t ∈ disciplines) && decide (1 ≤ v) && decide (v ≤ 3)
  | .advantage t v => decide (t ∈ advantages) && decide (1 ≤ v) && decide (v ≤ 5)
  | .flaw t v => decide (t ∈ flaws) && decide (1 ≤ v) && decide (v ≤ 5)

/-- The nine attribute names. -/
def ATTRIBUTE_NAMES : List String := PHYSICAL_ATTRIBUTES ++ SOCIAL_ATTRIBUTES ++ MENTAL_ATTRIBUTES

/-- The twenty-seven skill names. -/
def SKILL_NAMES : List String := PHYSICAL_SKILLS ++ SOCIAL_SKILLS ++ MENTAL_SKILLS

/-- Spec §3, rating domains: attributes in [1,5], skills in [0,5], disciplines in [0,3],
advantage and flaw values in [0,5]. -/
def ratingsInDomain (s : State) : Prop :=
  (∀ e ∈ s.traitValues, (e.1 ∈ ATTRIBUTE_NAMES → 1 ≤ e.2 ∧ e.2 ≤ 5) ∧
    (e.1 ∈ SKILL_NAMES → 0 ≤ e.2 ∧ e.2 ≤ 5)) ∧
  (∀ e ∈ s.disciplineValues, 0 ≤ e.2 ∧ e.2 ≤ 3) ∧
  (∀ e ∈ s.advantageValues, 0 ≤ e.2.value ∧ e.2.value ≤ 5) ∧
  (∀ e ∈ s.flawValues, 0 ≤ e.2.value ∧ e.2.value ≤ 5)

instance (s : State) : Decidable (ratingsInDomain s) := by
  unfold ratingsInDomain
  infer_instance

/-! ## The free-text fields of the form -/

/-- The free-text inputs of the character form (the fields whose `blur` saves a draft). -/
inductive TextField where
  | full_name
  | concept
  | sire
  | ambition
  | desire
  | background
  deriving DecidableEq, Repr

/-- The value `document.getElementById(field).value`. -/
def TextField.value (s : State) : TextField → String
  | .full_name => s.full_name
  | .concept => s.concept
  | .sire => s.sire
  | .ambition => s.ambition
  | .desire => s.desire
  | .background => s.background

/-- A Brujah with a name and a concept and every other text field empty. -/
def namedState : State :=
  { noClanState with full_name := "Ada Moreau", concept := "Scholar", clan := "Brujah" }

/-! ## Loading a stored character and a draft -/

/-- What the page holds beside the ledger: the options of the three selects, which are
part of the page template, and the names of the discipline catalog `disciplinesData`
(empty until `loadTraitData` has answered). -/
structure Page where
  clanOptions : List String
  generationOptions : List String
  predatorTypeOptions : List String
  disciplinesData : List String
  deriving DecidableEq, Repr

/-- Assignment `select.value = v`: the option with that value is selected, and when there
is none the select is left without selection (value `''`). -/
def selectValue (options : List String) (v : String) : String :=
  if v ∈ options then v else ""

/-- The method `toLowerCase` on the letters A to Z; other cased letters, none of which
lowers to a ledger key, are left as they are. -/
def toLowerCase (name : String) : String := String.mk (name.data.map Char.toLower)

/-- The test `obj.hasOwnProperty(key)`. -/
def hasOwnProperty {α : Type} (obj : List (String × α)) (key : String) : Bool :=
  obj.any (fun e => e.1 == key)

/-- The ledger part of `renderDisciplines`: every catalogued discipline gets
`disciplineValues[trait] = disciplineValues[trait] || 0`. -/
def renderDisciplines (disciplinesData : List String) (disciplineValues : List (String × Int)) :
    List (String × Int) :=
  disciplinesData.foldl (fun dv t => setProp dv t ((getProp dv t).getD 0)) disciplineValues

/-- The `change` listener of the clan select (`setupClanSelector`): for a clan of `CLANS`
the disciplines are rendered again once the catalog is loaded. -/
def clanChanged (page : Page) (s : State) : State :=
  match selectedClanEntry s.clan with
  | some _ =>
    if page.disciplinesData.length > 0 then
      { s with disciplineValues := renderDisciplines page.disciplinesData s.disciplineValues }
    else s
  | none => s

/-- The rating of an advantage or flaw in a stored character: a number, an object with
or without a `value`, `null`, or a value of another type. -/
inductive RecordRating where
  | number (n : Int)
  | object (value : Option Int) (fields : List (String × String))
  | null
  | other
  deriving DecidableEq, Repr

/-- The object `data.character_data` that the edit fetch returns. -/
structure CharacterData where
  full_name : Option String := none
  concept : Option String := none
  ambition : Option String := none
  desire : Option String := none
  background : Option String := none
  sire : Option String := none
  clan : Option String := none
  generation : Option Int := none
  predator_type : Option String := none
  attributes : Option (List (String × Int)) := none
  skills : Option (List (String × Int)) := none
  disciplines : Option (List (String × Int)) := none
  advantages : Option (List (String × RecordRating)) := none
  flaws : Option (List (String × RecordRating)) := none
  deriving DecidableEq, Repr

/-- The value `text` when it is truthy, else the field's present value:
`if (data.f) field.value = data.f`. -/
def assignIfTruthy (current : String) (text : Option String) : String :=
  if truthy text then text.getD "" else current

/-- The loops `// Set attributes` and `// Set skills` of `populateFormFromCharacterData`:
a rating is stored under the lower-cased name when the ledger has that name. -/
def populateTraits (map : List (String × Int)) (traitValues : List (String × Int)) :
    List (String × Int) :=
  map.foldl (fun tv e =>
    let lowerName := toLowerCase e.1
    if hasOwnProperty tv lowerName then setProp tv lowerName e.2 else tv) traitValues

/-- The loop `// Set disciplines`: `disciplineValues[discName] = rating`. -/
def populateDisciplines (map : List (String × Int)) (disciplineValues : List (String × Int)) :
    List (String × Int) :=
  map.foldl (fun dv e => setProp dv e.1 e.2) disciplineValues

/-- The loops `// Set advantages` and `// Set flaws`: a number becomes `{ value: rating }`,
an object with a `value` is stored itself, anything else is skipped; reading `.value` of
`null` throws, which ends the function with the entries stored so far (`error`). -/
def populateEntries :
    List (String × RecordRating) → List (String × Entry) →
      Except (List (String × Entry)) (List (String × Entry))
  | [], values => .ok values
  | (name, rating) :: rest, values =>
    match rating with
    | .number n => populateEntries rest (setProp values name ⟨n, []⟩)
    | .object (some v) fields => populateEntries rest (setProp values name ⟨v, fields⟩)
    | .object none _ => populateEntries rest values
    | .null => .error values
    | .other => populateEntries rest values

/-- The block `// Set simple bio fields` of `populateFormFromCharacterData`. -/
def populateBioFields (s : State) (data : CharacterData) : State :=
  { s with
    full_name := assignIfTruthy s.full_name data.full_name
    concept := assignIfTruthy s.concept data.concept
    ambition := assignIfTruthy s.ambition data.ambition
    desire := assignIfTruthy s.desire data.desire
    background := assignIfTruthy s.background data.background
    sire := assignIfTruthy s.sire data.sire }

/-- The block `// Set select fields`: the clan assignment dispatches a `change` event,
the generation is assigned as `String(data.generation)` when it is a non-zero number. -/
def populateSelectFields (page : Page) (s : State) (data : CharacterData) : State :=
  let s :=
    if truthy data.clan then
      clanChanged page { s with clan := selectValue page.clanOptions (data.clan.getD "") }
    else s
  let s :=
    match data.generation with
    | some g =>
      if g != 0 then { s with generation := selectValue page.generationOptions (toString g) }
      else s
    | none => s
  let s :=
    if truthy data.predator_type then
      { s with predator_type :=
          selectValue page.predatorTypeOptions (data.predator_type.getD "") }
    else s
  s

/-- The blocks `// Set attributes`, `// Set skills` and `// Set disciplines`. -/
def populateRatings (s : State) (data : CharacterData) : State :=
  -- Set attributes
  let attrMap := data.attributes.getD []
  let s := { s with traitValues := populateTraits attrMap s.traitValues }
  -- Set skills
  let skillMap := data.skills.getD []
  let s := { s with traitValues := populateTraits skillMap s.traitValues }
  -- Set disciplines
  let discMap := data.disciplines.getD []
  let s := { s with disciplineValues := populateDisciplines discMap s.disciplineValues }
  s

/-- The blocks `// Set advantages` and `// Set flaws`: the state they leave, under `ok`
when both loops finish and under `error` when one of them throws. -/
def populateAdvantagesAndFlaws (s : State) (data : CharacterData) : Except State State :=
  -- Set advantages
  let advMap := data.advantages.getD []
  match populateEntries advMap s.advantageValues with
  | .error av => .error { s with advantageValues := av }
  | .ok av =>
    let s := { s with advantageValues := av }
    -- Set flaws
    let flawMap := data.flaws.getD []
    match populateEntries flawMap s.flawValues with
    | .error fv => .error { s with flawValues := fv }
    | .ok fv => .ok { s with flawValues := fv }

/-- The function `populateFormFromCharacterData`: its blocks in source order; the state
it leaves is under `ok` when it returns and under `error` when it throws. -/
def populateFormFromCharacterData (page : Page) (s : State) (data : CharacterData) :
    Except State State :=
  let s := populateBioFields s data
  let s := populateSelectFields page s data
  let s := populateRatings s data
  populateAdvantagesAndFlaws s data

/-- The state `populateFormFromCharacterData` leaves, whether it returns or throws. -/
def populatedState (page : Page) (s : State) (data : CharacterData) : State :=
  match populateFormFromCharacterData page s data with
  | .ok s2 => s2
  | .error s2 => s2

/-- The object `draft` that `saveDraft` stores and `loadDraft` parses back; `savedAt` is
the time of saving in milliseconds since the epoch (the instant the ISO string denotes). -/
structure Draft where
  full_name : Option String := none
  concept : Option String := none
  clan : Option String := none
  sire : Option String := none
  generation : Option String := none
  predator_type : Option String := none
  ambition : Option String := none
  desire : Option String := none
  background : Option String := none
  traitValues : Option (List (String × Int)) := none
  disciplineValues : Option (List (String × Int)) := none
  advantageValues : Option (List (String × Entry)) := none
  flawValues : Option (List (String × Entry)) := none
  attributePriorities : Option Priorities := none
  skillPriorities : Option Priorities := none
  savedAt : Int
  deriving DecidableEq, Repr

/-- The loop over the three levels that restores one priority assignment: a level is
assigned when the draft's value for it is truthy. -/
def restorePriorities (current saved : Priorities) : Priorities :=
  { primary := if truthy saved.primary then saved.primary else current.primary
    secondary := if truthy saved.secondary then saved.secondary else current.secondary
    tertiary := if truthy saved.tertiary then saved.tertiary else current.tertiary }

/-- The loops `traitValues[trait] = value`, `disciplineValues[disc] = value`,
`advantageValues[adv] = data` and `flawValues[flaw] = data` of `applyDraftToForm`. -/
def restoreValues {α : Type} (saved : List (String × α)) (values : List (String × α)) :
    List (String × α) :=
  saved.foldl (fun o e => setProp o e.1 e.2) values

/-- The block `// Restore simple form fields` of `applyDraftToForm`. -/
def restoreFormFields (s : State) (draft : Draft) : State :=
  { s with
    full_name := assignIfTruthy s.full_name draft.full_name
    concept := assignIfTruthy s.concept draft.concept
    sire := assignIfTruthy s.sire draft.sire
    ambition := assignIfTruthy s.ambition draft.ambition
    desire := assignIfTruthy s.desire draft.desire
    background := assignIfTruthy s.background draft.background }

/-- The block `// Restore selects`: the clan assignment dispatches a `change` event. -/
def restoreSelects (page : Page) (s : State) (draft : Draft) : State :=
  let s :=
    if truthy draft.clan then
      clanChanged page { s with clan := selectValue page.clanOptions (draft.clan.getD "") }
    else s
  let s :=
    if truthy draft.generation then
      { s with generation := selectValue page.generationOptions (draft.generation.getD "") }
    else s
  let s :=
    if truthy draft.predator_type then
      { s with predator_type :=
          selectValue page.predatorTypeOptions (draft.predator_type.getD "") }
    else s
  s

/-- The block `// Restore priorities`. -/
def restoreDraftPriorities (s : State) (draft : Draft) : State :=
  let s :=
    match draft.attributePriorities with
    | some saved => { s with attributePriorities := restorePriorities s.attributePriorities saved }
    | none => s
  let s :=
    match draft.skillPriorities with
    | some saved => { s with skillPriorities := restorePriorities s.skillPriorities saved }
    | none => s
  s

/-- The blocks `// Restore trait values`, `// Restore discipline values`,
`// Restore advantage values` and `// Restore flaw values`. -/
def restoreLedger (s : State) (draft : Draft) : State :=
  { s with
    traitValues := restoreValues (draft.traitValues.getD []) s.traitValues
    disciplineValues := restoreValues (draft.disciplineValues.getD []) s.disciplineValues
    advantageValues := restoreValues (draft.advantageValues.getD []) s.advantageValues
    flawValues := restoreValues (draft.flawValues.getD []) s.flawValues }

/-- The function `applyDraftToForm`: its blocks in source order. -/
def applyDraftToForm (page : Page) (s : State) (draft : Draft) : State :=
  let s := restoreFormFields s draft
  let s := restoreSelects page s draft
  let s := restoreDraftPriorities s draft
  let s := restoreLedger s draft
  s

/-- Modelled from the spec: the page of the wizard, whose template is not part of the
script. The clan select offers the clans of `CLANS` (spec §3: a lineage is chosen from the
fixed lookup); the generation and predator-type selects, which no property here reads, are
left without options; the discipline catalog is the one `freshState` was built from. -/
def examplePage : Page where
  clanOptions := CLANS.map Prod.fst
  generationOptions := []
  predatorTypeOptions := []
  disciplinesData := ["Animalism", "Celerity", "Potence"]

/-- A stored character whose strength is 9 and whose Potence is 5. -/
def overratedRecord : CharacterData :=
  { clan := some "Brujah"
    attributes := some [("Strength", 9), ("Wits", 0)]
    skills := some [("brawl", 7)]
    disciplines := some [("Potence", 5)] }

/-- A draft whose strength is 0 and whose Potence is 4. -/
def overratedDraft : Draft :=
  { traitValues := some [("strength", 0), ("brawl", 6)]
    disciplineValues := some [("Potence", 4)]
    savedAt := 0 }

/-! ## Submission formatter -/

/-- The value of a field of a submitted advantage or flaw: the number `value` or the text
of `instance` and `specialty`. -/
inductive FieldValue where
  | num (n : Int)
  | str (text : String)
  deriving DecidableEq, Repr

/-- A value of the object `character_data`: a text, a number, `null`, the object of the
discipline ratings or the object of the submitted advantages or flaws. -/
inductive PayloadValue where
  | str (text : String)
  | num (n : Int)
  | null
  | ratings (map : List (String × Int))
  | entries (map : List (String × List (String × FieldValue)))
  deriving DecidableEq, Repr

/-- The digit a character stands for in the given radix (10 or 16), if any. -/
def digitValue (radix : Nat) (c : Char) : Option Nat :=
  if '0' ≤ c ∧ c ≤ '9' then some (c.toNat - 48)
  else if radix = 16 ∧ 'a' ≤ c ∧ c ≤ 'f' then some (c.toNat - 87)
  else if radix = 16 ∧ 'A' ≤ c ∧ c ≤ 'F' then some (c.toNat - 55)
  else none

/-- The number the longest run of digits at the head of `cs` denotes, `none` (`NaN`) when
there is no digit. -/
def parseDigits (radix : Nat) (cs : List Char) : Option Nat :=
  match cs.takeWhile (fun c => (digitValue radix c).isSome) with
  | [] => none
  | ds => some (ds.foldl (fun acc c => acc * radix + (digitValue radix c).getD 0) 0)

/-- The function `parseInt` with one argument: leading white space is skipped, a sign is
read, a `0x` or `0X` selects radix 16, and the longest run of digits is converted; `none`
stands for `NaN`. -/
def parseInt (text : String) : Option Int :=
  let cs := text.data.dropWhile isTrimmed
  let (negative, cs) :=
    match cs with
    | '-' :: rest => (true, rest)
    | '+' :: rest => (false, rest)
    | _ => (false, cs)
  let magnitude :=
    match cs with
    | '0' :: 'x' :: rest => parseDigits 16 rest
    | '0' :: 'X' :: rest => parseDigits 16 rest
    | _ => parseDigits 10 cs
  magnitude.map (fun n => if negative then -(n : Int) else (n : Int))

/-- The replacement `name.replace(/\s+/g, '_')` on a list of characters; `inRun` tells
that the character before was white space already replaced. -/
def replaceWhitespaceRuns (inRun : Bool) : List Char → List Char
  | [] => []
  | c :: cs =>
    if isTrimmed c then
      if inRun then replaceWhitespaceRuns true cs else '_' :: replaceWhitespaceRuns true cs
    else c :: replaceWhitespaceRuns false cs

/-- The id `kind + '-' + field + '-' + name.replace(/\s+/g, '_')` of the text input
that goes with an advantage or flaw (`kind` is `advantage` or `flaw`, `field` is
`instance` or `specialty`). -/
def qualifierInputId (kind field name : String) : String :=
  kind ++ "-" ++ field ++ "-" ++ String.mk (replaceWhitespaceRuns false name.data)

/-- The value of the input with the given id when `input && input.value` is truthy: the
input exists and its value is not empty. -/
def filledInput (inputs : List (String × String)) (id : String) : Option String :=
  match getProp inputs id with
  | some v => if v != "" then some v else none
  | none => none

/-- The object `advantageData` resp. `flawData` built for an entry with positive value:
`{ value }`, then `instance` and `specialty` when the input exists and its value is not
empty. `inputs` maps the id of each qualifier input of the page to its value. -/
def submittedEntry (inputs : List (String × String)) (kind name : String) (value : Int) :
    List (String × FieldValue) :=
  let entryData : List (String × FieldValue) := [("value", .num value)]
  let instanceInput := getProp inputs (qualifierInputId kind "instance" name)
  let entryData :=
    match instanceInput with
    | some v => if v != "" then setProp entryData "instance" (.str v) else entryData
    | none => entryData
  let specialtyInput := getProp inputs (qualifierInputId kind "specialty" name)
  let entryData :=
    match specialtyInput with
    | some v => if v != "" then setProp entryData "specialty" (.str v) else entryData
    | none => entryData
  entryData

/-- The loops `// Add advantages with instance/specialty data` and `// Add flaws ...`:
the object of the entries whose value is greater than 0. -/
def submittedEntries (inputs : List (String × String)) (kind : String)
    (values : List (String × Entry)) : List (String × List (String × FieldValue)) :=
  values.foldl (fun out e =>
    if e.2.value > 0 then setProp out e.1 (submittedEntry inputs kind e.1 e.2.value)
    else out) []

/-- The loop `// Add disciplines`: the object of the ratings greater than 0. -/
def submittedDisciplines (disciplineValues : List (String × Int)) : List (String × Int) :=
  disciplineValues.foldl (fun disciplines e =>
    if e.2 > 0 then setProp disciplines e.1 e.2 else disciplines) []

/-- The object `character_data` that the submit handler builds once `validateForm()` has
returned true. -/
def characterData (inputs : List (String × String)) (s : State) :
    List (String × PayloadValue) :=
  let character_data : List (String × PayloadValue) :=
    [("name", .str s.full_name),
     ("concept", .str s.concept),
     ("clan", .str s.clan),
     ("sire", .str s.sire),
     ("generation",
        match parseInt s.generation with
        | some g => if g != 0 then .num g else .null
        | none => .null),
     ("predator_type", .str s.predator_type),
     ("ambition", .str s.ambition),
     ("desire", .str s.desire),
     ("background", .str s.background),
     ("splat", .str "vampire")]
  -- Add basic traits (attributes and skills)
  let character_data :=
    s.traitValues.foldl (fun cd e => setProp cd e.1 (.num e.2)) character_data
  -- Add disciplines
  let character_data :=
    setProp character_data "disciplines" (.ratings (submittedDisciplines s.disciplineValues))
  -- Add advantages with instance/specialty data
  let character_data :=
    setProp character_data "advantages"
      (.entries (submittedEntries inputs "advantage" s.advantageValues))
  -- Add flaws with instance/specialty data
  let character_data :=
    setProp character_data "flaws" (.entries (submittedEntries inputs "flaw" s.flawValues))
  character_data

/-- The qualifier inputs of a page whose advantage Allies is instanced and whose advantage
Haven has specialties: the first is filled in, the second is left empty. -/
def exampleInputs : List (String × String) :=
  [("advantage-instance-Allies", "Police"), ("advantage-specialty-Haven", "")]

/-- A state with one discipline at 0, a skill at 0 and an advantage at 0. -/
def submittingState : State :=
  { namedState with
    advantageValues := [("Allies", ⟨3, [("note", "kept locally")]⟩), ("Haven", ⟨4, []⟩),
      ("Herd", ⟨0, []⟩)] }

/-! ## Draft expiry -/

/-- What a call of `loadDraft` has done: whether it removed the stored draft
(`localStorage.removeItem`), whether it offered the draft (`confirm`), and the state of
the wizard afterwards. -/
structure LoadResult where
  removed : Bool
  offered : Bool
  state : State
  deriving DecidableEq, Repr

/-- The function `loadDraft` for a stored draft that parses (`saved`, `none` when nothing
is stored), the time `now` of `Date.now()` in milliseconds and the user's answer to
`confirm`. The age in minutes is the quotient `(now - savedAt) / 60000`, taken exactly:
both times are whole milliseconds, the bound 10080 is a whole number and floating-point
division rounds monotonically, so the script's comparison agrees with the exact one. -/
def loadDraft (page : Page) (s : State) (saved : Option Draft) (now : Int) (confirm : Bool) :
    LoadResult :=
  match saved with
  | none => { removed := false, offered := false, state := s }
  | some draft =>
    let ageMinutes : ℚ := ((now - draft.savedAt : Int) : ℚ) / 60000
    -- Don't offer drafts older than 7 days
    if ageMinutes > 10080 then { removed := true, offered := false, state := s }
    else if confirm then
      { removed := false, offered := true, state := applyDraftToForm page s draft }
    else { removed := true, offered := true, state := s }

/-! ## Priority selectors -/

/-- The three values of `level` for which `setupPrioritySelectors` installs the change
handlers: the property names of a priority object. -/
inductive Level where
  | primary
  | secondary
  | tertiary
  deriving DecidableEq, Repr

/-- Property read `priorities[level]`. -/
def Priorities.get (p : Priorities) : Level → Option String
  | .primary => p.primary
  | .secondary => p.secondary
  | .tertiary => p.tertiary

/-- The assignment `priorities[level] = value`. -/
def Priorities.set (p : Priorities) (level : Level) (value : Option String) : Priorities :=
  match level with
  | .primary => { p with primary := value }
  | .secondary => { p with secondary := value }
  | .tertiary => { p with tertiary := value }

/-- The value of `category || null` for a string `category`. -/
def orNull (category : String) : Option String :=
  if category != "" then some category else none

/-- The function `handleAttributePriorityChange`: the assignment
`attributePriorities[level] = category || null` (the calls that follow it rewrite the
page and read the state). -/
def handleAttributePriorityChange (s : State) (level : Level) (category : String) : State :=
  { s with attributePriorities := s.attributePriorities.set level (orNull category) }

/-- The function `handleSkillPriorityChange`: the assignment
`skillPriorities[level] = category || null`. -/
def handleSkillPriorityChange (s : State) (level : Level) (category : String) : State :=
  { s with skillPriorities := s.skillPriorities.set level (orNull category) }

/-- The class name that the block `// Disciplines tracker` of `validateForm` gives the
element `tracker-disciplines`. -/
def disciplinesTrackerClass (s : State) : String :=
  let disciplinesSpent := disciplinesSpent s.disciplineValues
  let discValid := disciplinesSpent == 3
  if discValid then "validation-success" else "validation-error"

/-- The three values a priority object holds, in the order primary, secondary, tertiary. -/
def Priorities.levels (p : Priorities) : List (Option String) :=
  [p.primary, p.secondary, p.tertiary]

/-- The sum of the nine attribute ratings (`NaN` when one of them is undefined). -/
def attributeTotal (tv : List (String × Int)) : JSVal :=
  ATTRIBUTE_NAMES.foldl (fun (s : JSVal) t => s.add (traitOperand tv t)) (JSVal.num 0)

/-- The attribute and skill ratings of a stored character under their lower-cased names,
in the order in which the loops `// Set attributes` and `// Set skills` visit them. -/
def recordTraits (data : CharacterData) : List (String × Int) :=
  (data.attributes.getD [] ++ data.skills.getD []).map (fun e => (toLowerCase e.1, e.2))

/-- A stored character with a discipline, an advantage and a flaw that the catalog of
`freshState` does not list. -/
def uncataloguedRecord : CharacterData :=
  { attributes := some [("Strength", 2), ("Cooking", 4)]
    disciplines := some [("Thaumaturgy", 3)]
    advantages := some [("Haven", .number 2)]
    flaws := some [("Hunted", .object (some 1) [])] }

/-! ## Saving a draft -/

/-- The function `saveDraft` at the time `now`: the object it stores, as `JSON.parse` gives
it back from the stored text (the values are texts, integers, `null` and objects of
these, all of which `JSON.stringify` and `JSON.parse` hand through, keys in order). -/
def saveDraft (s : State) (now : Int) : Draft where
  full_name := some s.full_name
  concept := some s.concept
  clan := some s.clan
  sire := some s.sire
  generation := some s.generation
  predator_type := some s.predator_type
  ambition := some s.ambition
  desire := some s.desire
  background := some s.background
  traitValues := some s.traitValues
  disciplineValues := some s.disciplineValues
  advantageValues := some s.advantageValues
  flawValues := some s.flawValues
  attributePriorities := some s.attributePriorities
  skillPriorities := some s.skillPriorities
  savedAt := now

/-- Typing `text` into a free-text input. -/
def TextField.assign (s : State) (text : String) : TextField → State
  | .full_name => { s with full_name := text }
  | .concept => { s with concept := text }
  | .sire => { s with sire := text }
  | .ambition => { s with ambition := text }
  | .desire => { s with desire := text }
  | .background => { s with background := text }

/-- What a user does to the form: a click on a dot, a change of one of the six priority
selects, a change of the clan, generation or predator-type select, or typing into a
free-text input. -/
inductive Interaction where
  | click (c : Click)
  | attributePriority (level : Level) (category : String)
  | skillPriority (level : Level) (category : String)
  | clan (value : String)
  | generation (value : String)
  | predatorType (value : String)
  | text (field : TextField) (value : String)
  deriving DecidableEq, Repr

/-- The state after the listeners of an interaction have run. -/
def Interaction.apply (page : Page) (s : State) : Interaction → State
  | .click c => c.apply s
  | .attributePriority level category => handleAttributePriorityChange s level category
  | .skillPriority level category => handleSkillPriorityChange s level category
  | .clan value => clanChanged page { s with clan := value }
  | .generation value => { s with generation := value }
  | .predatorType value => { s with predator_type := value }
  | .text field value => field.assign s value

/-- The interactions the page offers for the given catalogs: a click needs its dot. -/
def Interaction.offered (disciplines advantages flaws : List String) : Interaction → Bool
  | .click c => c.offered disciplines advantages flaws
  | _ => true

/-- The state a sequence of interactions reaches from the initial state of the page. -/
def reached (page : Page) (disciplines advantages flaws : List String)
    (events : List Interaction) : State :=
  events.foldl (Interaction.apply page) (initialState disciplines advantages flaws)

/-- The ledger and the priorities of a state: the six objects a draft is to restore. -/
def ledger (s : State) :
    List (String × Int) × List (String × Int) × List (String × Entry) × List (String × Entry)
      × Priorities × Priorities :=
  (s.traitValues, s.disciplineValues, s.advantageValues, s.flawValues,
    s.attributePriorities, s.skillPriorities)

/-- A sequence of interactions on `examplePage`: priorities are chosen and one of them is
cleared again, dots are clicked, a clan is chosen and a name is typed. -/
def exampleSession : List Interaction :=
  [.attributePriority .primary "physical", .attributePriority .secondary "social",
   .attributePriority .secondary "", .skillPriority .tertiary "mental",
   .click (.trait "strength" "attributes" 4), .click (.trait "brawl" "skills" 2),
   .click (.discipline "Potence" 2), .clan "Brujah", .click (.advantage "Allies" 3),
   .click (.flaw "Enemy" 1), .text .full_name "Ada Moreau"]

/-- No level of a priority object holds the empty text (a select that is set back to its
empty option stores `null`). -/
def Priorities.noEmptyLevel (p : Priorities) : Prop :=
  p.primary ≠ some "" ∧ p.secondary ≠ some "" ∧ p.tertiary ≠ some ""

instance (p : Priorities) : Decidable p.noEmptyLevel := by
  unfold Priorities.noEmptyLevel
  infer_instance

/-- The keys of the four ledger objects, in order. -/
def ledgerKeys (s : State) : List String × List String × List String × List String :=
  (s.traitValues.map Prod.fst, s.disciplineValues.map Prod.fst,
    s.advantageValues.map Prod.fst, s.flawValues.map Prod.fst)

end Chargen

/-!
# The character sheet of the website

A shallow embedding of `beckonmu/web/website/VampSite/assets/js/character-sheet-new.js`,
the variant of the wizard that infers the priority of a category from its dots. The
objects `character`, `pointTrackers` and `priorityTracking` of the script are gathered in
one explicit `Sheet`.
-/

namespace CharacterSheet

/-! ## JavaScript numbers -/

/-- A number as the dot handlers of the sheet compute with it: an integer or `NaN` (what
arithmetic on `undefined` gives). -/
inductive JSNumber where
  | int (n : Int)
  | nan
  deriving DecidableEq, Repr

/-- The operand a rating read from an object becomes in arithmetic: `undefined` is `NaN`. -/
def JSNumber.ofRating : Option Int → JSNumber
  | some n => .int n
  | none => .nan

/-- Addition `a + b` of numbers. -/
def JSNumber.add : JSNumber → JSNumber → JSNumber
  | .int a, .int b => .int (a + b)
  | _, _ => .nan

/-- Subtraction `a - b` of numbers. -/
def JSNumber.sub : JSNumber → JSNumber → JSNumber
  | .int a, .int b => .int (a - b)
  | _, _ => .nan

/-- The comparison `a < 0`, which is false for `NaN`. -/
def JSNumber.negative : JSNumber → Bool
  | .int a => decide (a < 0)
  | .nan => false

/-! ## The data model -/

/-- The objects `character.attributes` and `character.skills`: one object of ratings for
each of the keys `physical`, `social` and `mental`. -/
structure Categories where
  physical : List (String × Int)
  social : List (String × Int)
  mental : List (String × Int)
  deriving DecidableEq, Repr

/-- Property read `categories[category]`: `none` for `undefined`. -/
def Categories.get (c : Categories) (category : String) : Option (List (String × Int)) :=
  if category = "physical" then some c.physical
  else if category = "social" then some c.social
  else if category = "mental" then some c.mental
  else none

/-- The object `categories` after an assignment into the object it holds under one of its
three keys. -/
def Categories.set (c : Categories) (category : String) (obj : List (String × Int)) :
    Categories :=
  if category = "physical" then { c with physical := obj }
  else if category = "social" then { c with social := obj }
  else if category = "mental" then { c with mental := obj }
  else c

/-- The fields of the object `character` that the dot handlers and the validators read. -/
structure Character where
  name : String
  concept : String
  clan : String
  attributes : Categories
  skills : Categories
  disciplines : List (String × Int)
  advantages : List (String × Int)
  deriving DecidableEq, Repr

/-- The lists `clanData[clan].disciplines`. -/
def clanData : List (String × List String) :=
  [("brujah", ["potence", "presence", "celerity"]),
   ("gangrel", ["animalism", "fortitude", "protean"]),
   ("malkavian", ["auspex", "dominate", "obfuscate"]),
   ("nosferatu", ["animalism", "obfuscate", "potence"]),
   ("toreador", ["auspex", "celerity", "presence"]),
   ("tremere", ["auspex", "blood sorcery", "dominate"]),
   ("ventrue", ["dominate", "fortitude", "presence"]),
   ("caitiff", ["any", "any", "any"]),
   ("thin-blood", ["thin-blood alchemy"])]

/-- The object `priorityDots` of a category in `validationRules`. -/
structure PriorityDots where
  high : Int
  medium : Int
  low : Int
  deriving DecidableEq, Repr

/-- The object `validationRules.attributes[category].priorityDots`, the same for the three
categories. -/
def validationRules.attributes.priorityDots : PriorityDots := ⟨4, 3, 2⟩

/-- The number `validationRules.attributes.totalDots`. -/
def validationRules.attributes.totalDots : Int := 9

/-- The object `validationRules.skills[category].priorityDots`, the same for the three
categories. -/
def validationRules.skills.priorityDots : PriorityDots := ⟨13, 9, 5⟩

/-- The number `validationRules.skills[category].maxAtCreation`. -/
def validationRules.skills.maxAtCreation : Int := 3

/-- The number `validationRules.skills.totalDots`. -/
def validationRules.skills.totalDots : Int := 27

/-- The number `validationRules.disciplines.maxAtCreation`. -/
def validationRules.disciplines.maxAtCreation : Int := 2

/-- The number `validationRules.disciplines.totalDots`. -/
def validationRules.disciplines.totalDots : Int := 3

/-- The number `validationRules.backgrounds.totalDots`. -/
def validationRules.backgrounds.totalDots : Int := 7

/-- An entry of `pointTrackers`. -/
structure Tracker where
  total : Int
  used : JSNumber
  remaining : JSNumber
  deriving DecidableEq, Repr

/-- The trackers of `pointTrackers` that a handler writes to. -/
structure PointTrackers where
  attributes : Tracker
  skills : Tracker
  disciplines : Tracker
  deriving DecidableEq, Repr

/-- The object `priorityTracking`: under each of `physical`, `social` and `mental` one of
`high`, `medium`, `low` or `null`. -/
structure PriorityTracking where
  attributes : List (String × Option String)
  skills : List (String × Option String)
  deriving DecidableEq, Repr

/-- The state of the sheet: the objects of the script and the number of `click` listeners
that the calls of `initializeDotSelectors` have put on each dot of the page template. -/
structure Sheet where
  character : Character
  pointTrackers : PointTrackers
  priorityTracking : PriorityTracking
  listeners : Nat
  deriving DecidableEq, Repr

/-- The state once `initializeForm` has run. -/
def Sheet.initial : Sheet where
  character :=
    { name := ""
      concept := ""
      clan := ""
      attributes :=
        { physical := [("strength", 0), ("dexterity", 0), ("stamina", 0)]
          social := [("charisma", 0), ("manipulation", 0), ("composure", 0)]
          mental := [("intelligence", 0), ("wits", 0), ("resolve", 0)] }
      skills :=
        { physical := [("athletics", 0), ("brawl", 0), ("craft", 0), ("drive", 0),
            ("firearms", 0), ("melee", 0), ("stealth", 0), ("survival", 0)]
          social := [("animalKen", 0), ("etiquette", 0), ("insight", 0), ("intimidation", 0),
            ("leadership", 0), ("performance", 0), ("persuasion", 0), ("streetwise", 0),
            ("subterfuge", 0)]
          mental := [("academics", 0), ("awareness", 0), ("finance", 0), ("investigation", 0),
            ("medicine", 0), ("occult", 0), ("politics", 0), ("science", 0),
            ("technology", 0)] }
      disciplines := []
      advantages := [("allies", 0), ("contacts", 0), ("fame", 0), ("haven", 0), ("herd", 0),
        ("influence", 0), ("resources", 0), ("retainer", 0), ("status", 0)] }
  pointTrackers :=
    { attributes :=
        ⟨validationRules.attributes.totalDots, .int 0, .int validationRules.attributes.totalDots⟩
      skills := ⟨validationRules.skills.totalDots, .int 0, .int validationRules.skills.totalDots⟩
      disciplines :=
        ⟨validationRules.disciplines.totalDots, .int 0,
          .int validationRules.disciplines.totalDots⟩ }
  priorityTracking :=
    { attributes := [("physical", none), ("social", none), ("mental", none)]
      skills := [("physical", none), ("social", none), ("mental", none)] }
  listeners := 1

/-! ## Validators of the sheet -/

/-- The value of `Object.values(obj).reduce((a, b) => a + b, 0)`. -/
def dots (obj : List (String × Int)) : Int :=
  obj.foldl (fun a e => a + e.2) 0

/-- One step of the sort below: the entry goes behind the entries with more dots. -/
def insertDescending (e : String × Int) : List (String × Int) → List (String × Int)
  | [] => [e]
  | x :: xs => if e.2 < x.2 then x :: insertDescending e xs else e :: x :: xs

/-- The call `.sort((a, b) => b[1] - a[1])` on an array of entries: a stable sort by
descending dot count (entries with equal counts keep their order). -/
def sortDescending : List (String × Int) → List (String × Int)
  | [] => []
  | e :: rest => insertDescending e (sortDescending rest)

/-- The block `// Assign priorities` of `validateAttributes` and `validateSkills`. -/
def assignPriorities (categoryDots : List (String × Int))
    (tracking : List (String × Option String)) : List (String × Option String) :=
  -- Sort categories by dot count (descending)
  let sortedCategories := (sortDescending categoryDots).map Prod.fst
  match sortedCategories with
  | c0 :: c1 :: c2 :: _ =>
    let tracking := Chargen.setProp tracking c0 (some "high")
    let tracking := Chargen.setProp tracking c1 (some "medium")
    let tracking := Chargen.setProp tracking c2 (some "low")
    tracking
  | _ => tracking

/-- Property read `tracking[category]`, `null` and `undefined` both as `none`. -/
def priorityOf (tracking : List (String × Option String)) (category : String) :
    Option String :=
  (Chargen.getProp tracking category).join

/-- The condition of one `if … else if … else if` chain of `validateAttributes` and
`validateSkills`: the category exceeds the limit of the priority it has. -/
def exceedsLimit (priority : Option String) (categoryDots : Int) (limits : PriorityDots) :
    Bool :=
  if priority == some "high" && decide (categoryDots > limits.high) then true
  else if priority == some "medium" && decide (categoryDots > limits.medium) then true
  else if priority == some "low" && decide (categoryDots > limits.low) then true
  else false

/-- The part of `validateAttributes` and `validateSkills` after the priorities are
assigned: the value of `valid` that is returned. -/
def withinLimits (tracking : List (String × Option String)) (physicalDots socialDots
    mentalDots : Int) (limits : PriorityDots) : Bool :=
  let valid := true
  let valid := if exceedsLimit (priorityOf tracking "physical") physicalDots limits then false
    else valid
  let valid := if exceedsLimit (priorityOf tracking "social") socialDots limits then false
    else valid
  let valid := if exceedsLimit (priorityOf tracking "mental") mentalDots limits then false
    else valid
  valid

/-- The object `categoryDots` that `validateAttributes` and `validateSkills` build. -/
def categoryDots (c : Categories) : List (String × Int) :=
  [("physical", dots c.physical), ("social", dots c.social), ("mental", dots c.mental)]

/-- The function `validateAttributes`: the value it returns and the state it leaves. -/
def validateAttributes (s : Sheet) : Bool × Sheet :=
  let tracking := assignPriorities (categoryDots s.character.attributes)
    s.priorityTracking.attributes
  let s := { s with priorityTracking := { s.priorityTracking with attributes := tracking } }
  (withinLimits tracking (dots s.character.attributes.physical)
    (dots s.character.attributes.social) (dots s.character.attributes.mental)
    validationRules.attributes.priorityDots, s)

/-- The function `validateSkills`: the value it returns and the state it leaves. -/
def validateSkills (s : Sheet) : Bool × Sheet :=
  let tracking := assignPriorities (categoryDots s.character.skills) s.priorityTracking.skills
  let s := { s with priorityTracking := { s.priorityTracking with skills := tracking } }
  (withinLimits tracking (dots s.character.skills.physical)
    (dots s.character.skills.social) (dots s.character.skills.mental)
    validationRules.skills.priorityDots, s)

/-- The function `validateDisciplines`. -/
def validateDisciplines (s : Sheet) : Bool :=
  let totalDots := dots s.character.disciplines
  if totalDots > validationRules.disciplines.totalDots then false else true

/-- Property read `character.backgrounds`: the object `character` is created without such
a property (its background ratings are under `advantages`) and no statement of the script
assigns one, so the value is `undefined` in every state. -/
def Character.backgrounds (_ : Character) : Option (List (String × Int)) := none

instance : DecidableEq (Except String Bool) := fun a b =>
  match a, b with
  | .ok x, .ok y => if h : x = y then isTrue (by rw [h]) else isFalse (fun e => h (by cases e; rfl))
  | .error x, .error y =>
    if h : x = y then isTrue (by rw [h]) else isFalse (fun e => h (by cases e; rfl))
  | .ok _, .error _ => isFalse (fun e => by cases e)
  | .error _, .ok _ => isFalse (fun e => by cases e)

/-- The function `validateBackgrounds`: `Object.values` of `undefined` throws a
`TypeError` (`error`). -/
def validateBackgrounds (s : Sheet) : Except String Bool :=
  match s.character.backgrounds with
  | none => .error "TypeError: Cannot convert undefined or null to object"
  | some backgrounds =>
    let totalDots := dots backgrounds
    if totalDots > validationRules.backgrounds.totalDots then .ok false else .ok true

/-- The function `validateCharacter`: the value it returns, or the error it throws. -/
def validateCharacter (s : Sheet) : Except String Bool :=
  -- Check if name and concept are filled
  if Chargen.trim s.character.name == "" then .ok false
  else if Chargen.trim s.character.concept == "" then .ok false
  -- Check if clan is selected
  else if s.character.clan == "" then .ok false
  -- Validate attributes
  else if !(validateAttributes s).1 then .ok false
  else
    let s := (validateAttributes s).2
    -- Validate skills
    if !(validateSkills s).1 then .ok false
    else
      let s := (validateSkills s).2
      -- Validate disciplines
      if !validateDisciplines s then .ok false
      else
        -- Validate backgrounds
        match validateBackgrounds s with
        | .error e => .error e
        | .ok valid => if !valid then .ok false else .ok true

/-! ## Dot handlers of the sheet -/

/-- The lines `// Update point tracker` of a dot handler. -/
def Tracker.spend (t : Tracker) (pointChange : JSNumber) : Tracker :=
  let used := t.used.add pointChange
  { t with used := used, remaining := (JSNumber.int t.total).sub used }

/-- The value of `newValue` after `if (oldValue === newValue) newValue = 0` for the dot
with the given index. -/
def toggledValue (oldValue : Option Int) (index : Nat) : Int :=
  let newValue : Int := index + 1
  -- Allow deselecting by clicking on the currently selected dot
  if oldValue == some newValue then 0 else newValue

/-- One `click` listener of the dot `index` of the attribute container of `category` and
attribute `trait`. Reading a property of `undefined` (a category the object lacks) throws, which
leaves the state as it was. The derived statistics, which nothing here reads, are not
part of the state. -/
def clickAttributeDot (category trait : String) (index : Nat) (s : Sheet) : Sheet :=
  match s.character.attributes.get category with
  | none => s
  | some ratings =>
    let oldValue := Chargen.getProp ratings trait
    let newValue := toggledValue oldValue index
    -- Calculate point change
    let pointChange := (JSNumber.int newValue).sub (JSNumber.ofRating oldValue)
    -- Check if we have enough points
    if (s.pointTrackers.attributes.remaining.sub pointChange).negative then s
    else
      -- Update character data
      let s := { s with character := { s.character with
        attributes := s.character.attributes.set category (Chargen.setProp ratings trait newValue) } }
      -- Update point tracker
      let s := { s with pointTrackers := { s.pointTrackers with
        attributes := s.pointTrackers.attributes.spend pointChange } }
      -- Validate attribute distribution
      (validateAttributes s).2

/-- One `click` listener of the dot `index` of the skill container of `category` and
`skill`. -/
def clickSkillDot (category skill : String) (index : Nat) (s : Sheet) : Sheet :=
  match s.character.skills.get category with
  | none => s
  | some ratings =>
    let oldValue := Chargen.getProp ratings skill
    let newValue := toggledValue oldValue index
    -- Calculate point change
    let pointChange := (JSNumber.int newValue).sub (JSNumber.ofRating oldValue)
    -- Check if we have enough points
    if (s.pointTrackers.skills.remaining.sub pointChange).negative then s
    -- Check if exceeds max at creation
    else if newValue > validationRules.skills.maxAtCreation then s
    else
      -- Update character data
      let s := { s with character := { s.character with
        skills := s.character.skills.set category (Chargen.setProp ratings skill newValue) } }
      -- Update point tracker
      let s := { s with pointTrackers := { s.pointTrackers with
        skills := s.pointTrackers.skills.spend pointChange } }
      -- Validate skill distribution
      (validateSkills s).2

/-- The `click` listener of the dot `index` of the container of `discipline`. -/
def clickDisciplineDot (discipline : String) (index : Nat) (s : Sheet) : Sheet :=
  let oldValue := Chargen.getProp s.character.disciplines discipline
  let newValue := toggledValue oldValue index
  -- Calculate point change
  let pointChange := (JSNumber.int newValue).sub (JSNumber.ofRating oldValue)
  -- Check if we have enough points
  if (s.pointTrackers.disciplines.remaining.sub pointChange).negative then s
  -- Check if exceeds max at creation
  else if newValue > validationRules.disciplines.maxAtCreation then s
  else
    -- Update character data
    let s := { s with character := { s.character with
      disciplines := Chargen.setProp s.character.disciplines discipline newValue } }
    -- Update point tracker
    let s := { s with pointTrackers := { s.pointTrackers with
      disciplines := s.pointTrackers.disciplines.spend pointChange } }
    s

/-- The value of `clan && clanData[clan]`: the discipline list of a non-empty clan name
that is a key of `clanData`, `none` when the conjunction is falsy. (The clan field is a
select over the clans; names inherited from `Object.prototype` are not modelled.) -/
def clanEntry (clan : String) : Option (List String) :=
  if clan != "" then Chargen.getProp clanData clan else none

/-- The function `updateDisciplines`; `disciplinesContainer` tells whether the page has the
element `disciplines-container`. The final call of `initializeDotSelectors` puts one more
listener on every dot of the page. -/
def updateDisciplines (disciplinesContainer : Bool) (clan : String) (s : Sheet) : Sheet :=
  -- Reset discipline points
  let s := { s with pointTrackers := { s.pointTrackers with
    disciplines := { s.pointTrackers.disciplines with
      used := .int 0, remaining := .int s.pointTrackers.disciplines.total } } }
  -- Clear existing disciplines
  let s := { s with character := { s.character with disciplines := [] } }
  if !disciplinesContainer then s
  else
    -- If no clan selected or clan not in data, return
    match clanEntry clan with
    | none => s
    | some clanDisciplines =>
      -- Create discipline elements
      let s := { s with character := { s.character with
        disciplines := clanDisciplines.foldl (fun d discipline => Chargen.setProp d discipline 0)
          s.character.disciplines } }
      -- Initialize dot selectors for new disciplines
      { s with listeners := s.listeners + 1 }

/-- The `change` listener of the clan select. -/
def clanChanged (disciplinesContainer : Bool) (selectedClan : String) (s : Sheet) : Sheet :=
  let s := { s with character := { s.character with clan := selectedClan } }
  match clanEntry selectedClan with
  | some _ => updateDisciplines disciplinesContainer selectedClan s
  | none => s

/-- What a user does to the dots of the sheet and to its clan select. -/
inductive SheetEvent where
  | attributeDot (category trait : String) (index : Nat)
  | skillDot (category skill : String) (index : Nat)
  | disciplineDot (discipline : String) (index : Nat)
  | clanChange (selectedClan : String)
  deriving DecidableEq, Repr

/-- The state after the listeners of an event have run: a dot of the page template has as
many listeners as `initializeDotSelectors` has been called, a dot of a discipline, which
`updateDisciplines` creates anew, has one. -/
def SheetEvent.apply (disciplinesContainer : Bool) (s : Sheet) : SheetEvent → Sheet
  | .attributeDot category trait index =>
    Nat.iterate (clickAttributeDot category trait index) s.listeners s
  | .skillDot category skill index =>
    Nat.iterate (clickSkillDot category skill index) s.listeners s
  | .disciplineDot discipline index => clickDisciplineDot discipline index s
  | .clanChange selectedClan => clanChanged disciplinesContainer selectedClan s

/-- Modelled from the spec: the dot containers of the page, whose template is not part of
the script. There is one per attribute and skill of the data model (spec §3: a trait
belongs to exactly one category), and `updateDisciplines` creates one per discipline
it enters into `character.disciplines`. -/
def SheetEvent.offered (s : Sheet) : SheetEvent → Bool
  | .attributeDot category trait _ =>
    ((s.character.attributes.get category).bind (fun r => Chargen.getProp r trait)).isSome
  | .skillDot category skill _ =>
    ((s.character.skills.get category).bind (fun r => Chargen.getProp r skill)).isSome
  | .disciplineDot discipline _ => (Chargen.getProp s.character.disciplines discipline).isSome
  | .clanChange _ => true

/-- Whether every event of a sequence is offered in the state in which it happens. -/
def allOffered (disciplinesContainer : Bool) : Sheet → List SheetEvent → Bool
  | _, [] => true
  | s, e :: es => e.offered s && allOffered disciplinesContainer (e.apply disciplinesContainer s) es

/-- The state a sequence of events leaves. -/
def run (disciplinesContainer : Bool) (s : Sheet) (events : List SheetEvent) : Sheet :=
  events.foldl (SheetEvent.apply disciplinesContainer) s

/-! ## The ranking of the specification -/

/-- The place (0, 1 or 2) of the physical category when the three categories are ranked
by total dots in descending order, ties keeping the order physical, social, mental. -/
def rankPhysical (physical social mental : Int) : Nat :=
  (if physical < social then 1 else 0) + (if physical < mental then 1 else 0)

/-- The place of the social category in that ranking. -/
def rankSocial (physical social mental : Int) : Nat :=
  (if social ≤ physical then 1 else 0) + (if social < mental then 1 else 0)

/-- The place of the mental category in that ranking. -/
def rankMental (physical social mental : Int) : Nat :=
  (if mental ≤ physical then 1 else 0) + (if mental ≤ social then 1 else 0)

/-- The priority of a place: high, medium, low. -/
def priorityOfRank : Nat → Option String
  | 0 => some "high"
  | 1 => some "medium"
  | _ => some "low"

/-- The cap of a place. -/
def capOfRank (limits : PriorityDots) : Nat → Int
  | 0 => limits.high
  | 1 => limits.medium
  | _ => limits.low

/-- The three category totals sorted in descending order. -/
def sortedTotals (physical social mental : Int) : List Int :=
  List.insertionSort (fun a b => b ≤ a) [physical, social, mental]

/-- Whether each total of a list is at most the cap at the same position. -/
def withinCaps (totals caps : List Int) : Bool :=
  (List.zipWith (fun t c => decide (t ≤ c)) totals caps).all id

/-- A sheet whose attribute totals are 3, 4 and 2 for physical, social and mental. -/
def rankedSheet : Sheet :=
  { Sheet.initial with character := { Sheet.initial.character with
      attributes :=
        { physical := [("strength", 1), ("dexterity", 1), ("stamina", 1)]
          social := [("charisma", 2), ("manipulation", 1), ("composure", 1)]
          mental := [("intelligence", 1), ("wits", 1), ("resolve", 0)] } } }

/-! ## Trackers and ratings -/

/-- A sheet with name, concept and clan whose attribute totals are 3, 4 and 2 and whose
discipline ratings total 3. -/
def legalSheet : Sheet :=
  { rankedSheet with character := { rankedSheet.character with
      name := "Ada Moreau"
      concept := "Scholar"
      clan := "brujah"
      disciplines := [("potence", 2), ("presence", 1), ("celerity", 0)] } }

/-- The sum of the ratings of a group of three categories. -/
def Categories.total (c : Categories) : Int :=
  dots c.physical + dots c.social + dots c.mental

/-- A tracker agrees with the ratings of its group when `used` is their sum and
`remaining` is `total - used` and not negative. -/
def Tracker.agrees (t : Tracker) (total spent : Int) : Prop :=
  t.total = total ∧ t.used = .int spent ∧ t.remaining = .int (total - spent) ∧
    0 ≤ total - spent

instance (t : Tracker) (total spent : Int) : Decidable (t.agrees total spent) := by
  unfold Tracker.agrees
  infer_instance

/-- The three trackers agree with the ratings of the sheet. -/
def trackersAgree (s : Sheet) : Prop :=
  s.pointTrackers.attributes.agrees 9 s.character.attributes.total ∧
  s.pointTrackers.skills.agrees 27 s.character.skills.total ∧
  s.pointTrackers.disciplines.agrees 3 (dots s.character.disciplines)

instance (s : Sheet) : Decidable (trackersAgree s) := by
  unfold trackersAgree
  infer_instance

/-- No object of ratings has a key twice. -/
def Categories.distinctKeys (c : Categories) : Prop :=
  (c.physical.map Prod.fst).Nodup ∧ (c.social.map Prod.fst).Nodup ∧
    (c.mental.map Prod.fst).Nodup

instance (c : Categories) : Decidable c.distinctKeys := by
  unfold Categories.distinctKeys
  infer_instance

/-- The rating a dot container shows: the value under its trait, if the object of its
category has one. -/
def Categories.rating (c : Categories) (category trait : String) : Option Int :=
  (c.get category).bind (fun r => Chargen.getProp r trait)

/-- Whether the first listener of a click finds too few points remaining: the rating `old`
of the container would change to the toggled value and `total - spent` would become
negative. -/
def exceedsRemaining (total spent : Int) (oldValue : Option Int) (index : Nat) : Bool :=
  match oldValue with
  | some old => decide (total - spent - (toggledValue (some old) index - old) < 0)
  | none => false

/-- Whether a click would make `remaining` negative. -/
def SheetEvent.overspends (s : Sheet) : SheetEvent → Bool
  | .attributeDot category trait index =>
    exceedsRemaining 9 s.character.attributes.total
      (s.character.attributes.rating category trait) index
  | .skillDot category skill index =>
    exceedsRemaining 27 s.character.skills.total (s.character.skills.rating category skill) index
  | .disciplineDot discipline index =>
    exceedsRemaining 3 (dots s.character.disciplines) (Chargen.getProp s.character.disciplines discipline)
      index
  | .clanChange _ => false

/-- A session on the sheet: four dots of strength, three of charisma and three of occult
are set, a clan is chosen, after which every dot of the template has two listeners, and
further dots are clicked. -/
def sheetSession : List SheetEvent :=
  [.attributeDot "physical" "strength" 3, .attributeDot "social" "charisma" 2,
   .skillDot "mental" "occult" 2, .clanChange "brujah", .disciplineDot "potence" 1,
   .attributeDot "social" "composure" 1, .disciplineDot "presence" 1]

/-- The trackers agree with the ratings and no object of ratings has a key twice. -/
def Sheet.consistent (s : Sheet) : Prop :=
  trackersAgree s ∧ s.character.attributes.distinctKeys ∧ s.character.skills.distinctKeys ∧
    (s.character.disciplines.map Prod.fst).Nodup

instance (s : Sheet) : Decidable s.consistent := by
  unfold Sheet.consistent
  infer_instance

end CharacterSheet

namespace Chargen

/-! ## Lemmas: messages and their labels -/

theorem startsWith_append (pre a b : String) (h : pre.length ≤ a.length) :
    startsWith pre (a ++ b) = startsWith pre a := by
  unfold startsWith
  rw [Bool.eq_iff_iff]
  simp only [List.isPrefixOf_iff_prefix, String.data_append]
  constructor
  · intro hp
    exact List.prefix_of_prefix_length_le hp (List.prefix_append _ _) h
  · intro hp
    exact hp.trans (List.prefix_append _ _)

theorem startsWith_spendMessage (pre label : String) (max spent : JSVal)
    (h : pre.length ≤ (label ++ ": Must spend exactly ").length) :
    startsWith pre (spendMessage label max spent)
      = startsWith pre (label ++ ": Must spend exactly ") := by
  unfold spendMessage
  rw [startsWith_append, startsWith_append, startsWith_append, startsWith_append]
    <;> (try simp only [String.length_append] at h ⊢) <;> omega

theorem startsWith_countMessage (pre head : String) (n : Int) (h : pre.length ≤ head.length) :
    startsWith pre (head ++ toString n ++ ")") = startsWith pre head := by
  rw [startsWith_append, startsWith_append] <;> (try simp only [String.length_append]) <;> omega

theorem not_assigned_eq (p : Priorities) :
    (!truthy p.primary || !truthy p.secondary || !truthy p.tertiary) = !p.assigned := by
  simp [Priorities.assigned, Bool.not_and]

theorem push_if (c : Prop) [Decidable c] (e : List String) (m : String) :
    (if c then e ++ [m] else e) = e ++ (if c then [m] else []) := by
  split <;> simp

theorem validateAttributePriorities_append (s : State) (e : List String) :
    validateAttributePriorities s e = e ++ validateAttributePriorities s [] := by
  simp only [validateAttributePriorities, push_if, List.nil_append]
  split <;> simp

theorem validateSkillPriorities_append (s : State) (e : List String) :
    validateSkillPriorities s e = e ++ validateSkillPriorities s [] := by
  simp only [validateSkillPriorities, push_if, List.nil_append]
  split <;> simp

theorem validateDisciplines_append (s : State) (e : List String) :
    validateDisciplines s e = e ++ validateDisciplines s [] := by
  simp only [validateDisciplines, push_if, List.nil_append]
  split
  · simp
  · split <;> simp
    split <;> simp

theorem validateAdvantages_append (s : State) (e : List String) :
    validateAdvantages s e = e ++ validateAdvantages s [] := by
  simp only [validateAdvantages, push_if, List.nil_append]

theorem validateFlaws_append (s : State) (e : List String) :
    validateFlaws s e = e ++ validateFlaws s [] := by
  simp only [validateFlaws, push_if, List.nil_append]

theorem validateFormErrors_eq (s : State) :
    validateFormErrors s =
      validateAttributePriorities s [] ++ validateSkillPriorities s [] ++
        validateDisciplines s [] ++ validateAdvantages s [] ++ validateFlaws s [] := by
  simp only [validateFormErrors]
  rw [validateFlaws_append, validateAdvantages_append, validateDisciplines_append,
    validateSkillPriorities_append]

theorem foldl_add_eq_sum {α : Type} (f : α → Int) (l : List α) (a : Int) :
    l.foldl (fun sum e => sum + f e) a = a + (l.map f).sum := by
  induction l generalizing a with
  | nil => simp
  | cons x xs ih => simp [List.foldl_cons, ih, add_assoc]

theorem inClanSpent_eq_dotsInClan (listed : List String) (ledger : List (String × Int)) :
    inClanSpent listed ledger = dotsInClan listed ledger := by
  unfold inClanSpent dotsInClan
  rw [foldl_add_eq_sum (fun e : String × Int => e.2), zero_add]
  induction ledger with
  | nil => simp
  | cons x xs ih =>
    simp only [List.elem_eq_mem, List.contains_eq_any_beq] at ih ⊢
    by_cases hm : x.1 ∈ listed <;> by_cases hp : 0 < x.2 <;>
      simp [List.filter_cons, hm, hp, dotsHeld] at ih ⊢ <;> omega

theorem all_key_eq_getProp {α : Type} (P : α → Bool) (k : String) :
    ∀ (L : List (String × α)), (L.map Prod.fst).Nodup →
      L.all (fun e => e.1 != k || P e.2) =
        (match getProp L k with
         | some c => P c
         | none => true)
  | [], _ => by simp [getProp]
  | e :: L, hnd => by
    have hnd2 : (L.map Prod.fst).Nodup := (List.nodup_cons.mp hnd).2
    have hnot : e.1 ∉ L.map Prod.fst := (List.nodup_cons.mp hnd).1
    by_cases hk : e.1 = k
    · have hrest : L.all (fun e => e.1 != k || P e.2) = true := by
        rw [List.all_eq_true]
        intro x hx
        have : x.1 ≠ k := by
          intro h
          apply hnot
          rw [hk, ← h]
          exact List.mem_map_of_mem _ hx
        simp [this]
      simp [getProp, List.find?_cons, hk, hrest]
    · have ih := all_key_eq_getProp P k L hnd2
      simp only [getProp] at ih
      simp [getProp, List.find?_cons, hk, ih]

theorem inLineageMinimumMet_eq (s : State) :
    inLineageMinimumMet s =
      (match selectedClanEntry s.clan with
       | some clan => clan.disciplines.isEmpty ||
            decide (2 ≤ inClanSpent clan.disciplines s.disciplineValues)
       | none => true) := by
  unfold inLineageMinimumMet
  have h := all_key_eq_getProp
    (fun c : Clan => c.disciplines.isEmpty || decide (2 ≤ dotsInClan c.disciplines s.disciplineValues))
    s.clan CLANS (by decide)
  simp only [Bool.or_assoc] at h ⊢
  rw [h]
  unfold selectedClanEntry
  by_cases hc : s.clan = ""
  · rw [hc]; simp [getProp, CLANS]
  · simp only [bne_iff_ne, ne_eq, hc, not_false_eq_true, if_true, inClanSpent_eq_dotsInClan]
    cases getProp CLANS s.clan <;> simp

theorem startsWith_label_violationMessage (s : State) (g g2 : Group) :
    startsWith g.label (violationMessage s g2) = decide (g = g2) := by
  cases g2 with
  | attr c =>
    simp only [violationMessage]
    cases c <;> rcases g with c2 | c2 | _ | _ | _ <;> (try cases c2) <;>
      (rw [startsWith_spendMessage _ _ _ _ (by decide)]; decide)
  | skill c =>
    simp only [violationMessage]
    cases c <;> rcases g with c2 | c2 | _ | _ | _ <;> (try cases c2) <;>
      (rw [startsWith_spendMessage _ _ _ _ (by decide)]; decide)
  | disciplines =>
    simp only [violationMessage]
    split <;> rcases g with c2 | c2 | _ | _ | _ <;> (try cases c2) <;>
      (rw [startsWith_countMessage _ _ _ (by decide)]; decide)
  | advantages =>
    simp only [violationMessage]
    rcases g with c2 | c2 | _ | _ | _ <;> (try cases c2) <;>
      (rw [startsWith_countMessage _ _ _ (by decide)]; decide)
  | flaws =>
    simp only [violationMessage]
    rcases g with c2 | c2 | _ | _ | _ <;> (try cases c2) <;>
      (rw [startsWith_countMessage _ _ _ (by decide)]; decide)

theorem startsWith_label_priorityMessage (g : Group) :
    startsWith g.label "You must assign all attribute priorities (Primary, Secondary, Tertiary)"
      = false ∧
    startsWith g.label "You must assign all skill priorities (Primary, Secondary, Tertiary)"
      = false := by
  rcases g with c | c | _ | _ | _ <;> (try cases c) <;> decide

theorem strictNe_eq_not (a b : JSVal) : a.strictNe b = !(a.strictEq b) := rfl

theorem validateAttributePriorities_nil (s : State) :
    validateAttributePriorities s [] =
      if s.attributePriorities.assigned then
        groupErrors s (.attr .physical) ++ groupErrors s (.attr .social)
          ++ groupErrors s (.attr .mental)
      else ["You must assign all attribute priorities (Primary, Secondary, Tertiary)"] := by
  simp only [validateAttributePriorities, not_assigned_eq, push_if, List.nil_append, groupErrors,
    groupSatisfied, violationMessage, strictNe_eq_not, Category.attributes, Category.name]
  cases s.attributePriorities.assigned
  · simp
  · simp only [Bool.not_true, Bool.false_eq_true, if_false, if_true, Bool.not_eq_true']
    have e1 : Group.label (.attr .physical) = "Physical Attributes" := by decide
    have e2 : Group.label (.attr .social) = "Social Attributes" := by decide
    have e3 : Group.label (.attr .mental) = "Mental Attributes" := by decide
    rw [e1, e2, e3]
    split <;> split <;> split <;> simp_all

theorem validateSkillPriorities_nil (s : State) :
    validateSkillPriorities s [] =
      if s.skillPriorities.assigned then
        groupErrors s (.skill .physical) ++ groupErrors s (.skill .social)
          ++ groupErrors s (.skill .mental)
      else ["You must assign all skill priorities (Primary, Secondary, Tertiary)"] := by
  simp only [validateSkillPriorities, not_assigned_eq, push_if, List.nil_append, groupErrors,
    groupSatisfied, violationMessage, strictNe_eq_not, Category.skills, Category.name]
  cases s.skillPriorities.assigned
  · simp
  · simp only [Bool.not_true, Bool.false_eq_true, if_false, if_true, Bool.not_eq_true']
    have e1 : Group.label (.skill .physical) = "Physical Skills" := by decide
    have e2 : Group.label (.skill .social) = "Social Skills" := by decide
    have e3 : Group.label (.skill .mental) = "Mental Skills" := by decide
    rw [e1, e2, e3]
    split <;> split <;> split <;> simp_all

theorem validateDisciplines_nil (s : State) :
    validateDisciplines s [] = groupErrors s .disciplines := by
  simp only [validateDisciplines, groupErrors, groupSatisfied, violationMessage,
    inLineageMinimumMet_eq, List.nil_append]
  by_cases h3 : disciplinesSpent s.disciplineValues = 3
  · simp only [h3, bne_self_eq_false, Bool.false_eq_true, if_false, beq_self_eq_true,
      Bool.true_and, if_true]
    cases hc : selectedClanEntry s.clan with
    | none => simp
    | some clan =>
      simp only [Option.map_some', Option.getD_some]
      by_cases hl : clan.disciplines = []
      · simp [hl]
      · have hpos : clan.disciplines.length > 0 := List.length_pos.mpr hl
        have hne : clan.disciplines.isEmpty = false := by
          cases hd : clan.disciplines with
          | nil => exact absurd hd hl
          | cons _ _ => rfl
        simp only [hpos, if_true, hne, Bool.false_or, decide_eq_true_eq]
        split <;> split <;> first | rfl | omega
  · have hb : (disciplinesSpent s.disciplineValues != 3) = true := by simpa using h3
    have hb2 : (disciplinesSpent s.disciplineValues == 3) = false := by simpa using h3
    simp [hb, hb2, h3]

theorem validateAdvantages_nil (s : State) :
    validateAdvantages s [] = groupErrors s .advantages := by
  simp only [validateAdvantages, groupErrors, groupSatisfied, violationMessage, List.nil_append]
  by_cases h : entriesSpent s.advantageValues = 7 <;> simp [h]

theorem validateFlaws_nil (s : State) :
    validateFlaws s [] = groupErrors s .flaws := by
  simp only [validateFlaws, groupErrors, groupSatisfied, violationMessage, List.nil_append]
  by_cases h : entriesSpent s.flawValues ≤ 2
  · have h2 : ¬ entriesSpent s.flawValues > 2 := by omega
    simp [h, h2]
  · have h2 : entriesSpent s.flawValues > 2 := by omega
    simp [h, h2]

/-- The message list in normal form: the blocks of `validateForm` in source order. -/
theorem validateFormErrors_normal (s : State) :
    validateFormErrors s =
      (if s.attributePriorities.assigned then
        groupErrors s (.attr .physical) ++ groupErrors s (.attr .social)
          ++ groupErrors s (.attr .mental)
      else ["You must assign all attribute priorities (Primary, Secondary, Tertiary)"]) ++
      (if s.skillPriorities.assigned then
        groupErrors s (.skill .physical) ++ groupErrors s (.skill .social)
          ++ groupErrors s (.skill .mental)
      else ["You must assign all skill priorities (Primary, Secondary, Tertiary)"]) ++
      groupErrors s .disciplines ++ groupErrors s .advantages ++ groupErrors s .flaws := by
  rw [validateFormErrors_eq, validateAttributePriorities_nil, validateSkillPriorities_nil,
    validateDisciplines_nil, validateAdvantages_nil, validateFlaws_nil]

theorem errorsFor_append (g : Group) (a b : List String) :
    errorsFor g (a ++ b) = errorsFor g a ++ errorsFor g b := by
  simp [errorsFor]

theorem errorsFor_groupErrors (s : State) (g g2 : Group) :
    errorsFor g (groupErrors s g2) = if g = g2 then groupErrors s g2 else [] := by
  unfold groupErrors errorsFor
  by_cases h : g = g2 <;> cases groupSatisfied s g2 <;>
    simp [List.filter_cons, startsWith_label_violationMessage, h]

theorem errorsFor_priorityMessages (g : Group) :
    errorsFor g ["You must assign all attribute priorities (Primary, Secondary, Tertiary)"] = []
    ∧ errorsFor g ["You must assign all skill priorities (Primary, Secondary, Tertiary)"] = [] := by
  simp [errorsFor, List.filter_cons, startsWith_label_priorityMessage g]

/-- The messages that name a group: those of its own check, which for an attribute or skill
category only runs once all three levels of its priority assignment are set. -/
theorem errorsFor_validateFormErrors (s : State) (g : Group) :
    errorsFor g (validateFormErrors s) =
      match g with
      | .attr _ => if s.attributePriorities.assigned then groupErrors s g else []
      | .skill _ => if s.skillPriorities.assigned then groupErrors s g else []
      | _ => groupErrors s g := by
  rw [validateFormErrors_normal]
  simp only [errorsFor_append]
  have hp := errorsFor_priorityMessages g
  cases s.attributePriorities.assigned <;> cases s.skillPriorities.assigned <;>
    rcases g with c | c | _ | _ | _ <;> (try cases c) <;>
    simp [errorsFor_append, errorsFor_groupErrors, hp.1, hp.2]

theorem map_violated_cons (s : State) (g : Group) (L : List Group) :
    ((g :: L).filter (fun g => !groupSatisfied s g)).map (violationMessage s) =
      groupErrors s g ++ (L.filter (fun g => !groupSatisfied s g)).map (violationMessage s) := by
  unfold groupErrors
  cases h : groupSatisfied s g <;> simp [List.filter_cons, h]

theorem validateFormErrors_assigned (s : State) (ha : s.attributePriorities.assigned = true)
    (hs : s.skillPriorities.assigned = true) :
    validateFormErrors s = (violatedGroups s).map (violationMessage s) := by
  rw [validateFormErrors_normal]
  simp only [ha, hs, if_true, violatedGroups, Group.all, map_violated_cons, List.filter_nil,
    List.map_nil, List.append_nil, List.append_assoc]

/-! ## Pool resolver (C2, C3) -/

/-- C2: for every priority assignment that is a permutation of the three categories over
the levels primary, secondary, tertiary, `getAttributePoolForCategory` returns 7, 5 and 3
for the primary, secondary and tertiary category, and `getSkillPoolForCategory` returns
13, 9 and 5. -/
theorem pools_of_permutation (p : Priorities) (a b c : String)
    (hp : p.primary = some a) (hs : p.secondary = some b) (ht : p.tertiary = some c)
    (hperm : List.Perm [a, b, c] ["physical", "social", "mental"]) :
    getAttributePoolForCategory p a = .num 7 ∧ getAttributePoolForCategory p b = .num 5 ∧
    getAttributePoolForCategory p c = .num 3 ∧
    getSkillPoolForCategory p a = .num 13 ∧ getSkillPoolForCategory p b = .num 9 ∧
    getSkillPoolForCategory p c = .num 5 := by
  have hnd : [a, b, c].Nodup := hperm.nodup_iff.mpr (by decide)
  simp only [List.nodup_cons, List.mem_cons, List.mem_singleton, not_or, List.not_mem_nil,
    not_false_eq_true, List.nodup_nil, and_true] at hnd
  obtain ⟨⟨hab, hac⟩, hbc⟩ := hnd
  have hba : ¬ a = b := hab
  have hca : ¬ a = c := hac
  have hcb : ¬ b = c := hbc
  simp [getAttributePoolForCategory, getSkillPoolForCategory, hp, hs, ht, hba, hca, hcb]

/-- Witness of C2 at primary = social, secondary = mental, tertiary = physical. -/
theorem pools_of_permutation_witness :
    getAttributePoolForCategory ⟨some "social", some "mental", some "physical"⟩ "social" = .num 7 ∧
    getAttributePoolForCategory ⟨some "social", some "mental", some "physical"⟩ "mental" = .num 5 ∧
    getAttributePoolForCategory ⟨some "social", some "mental", some "physical"⟩ "physical"
      = .num 3 ∧
    getSkillPoolForCategory ⟨some "social", some "mental", some "physical"⟩ "social" = .num 13 ∧
    getSkillPoolForCategory ⟨some "social", some "mental", some "physical"⟩ "mental" = .num 9 ∧
    getSkillPoolForCategory ⟨some "social", some "mental", some "physical"⟩ "physical" = .num 5 :=
  pools_of_permutation ⟨some "social", some "mental", some "physical"⟩ "social" "mental"
    "physical" rfl rfl rfl (by decide)

/-- C3: for every priority assignment and every category `c`, each pool resolver returns
`null` exactly when none of the three levels is assigned to `c`, and it never returns the
number 0: its results are `null`, 7, 5, 3 (attributes) and `null`, 13, 9, 5 (skills). -/
theorem pool_null_iff_unassigned (p : Priorities) (c : String) :
    (getAttributePoolForCategory p c = .null ↔
      p.primary ≠ some c ∧ p.secondary ≠ some c ∧ p.tertiary ≠ some c) ∧
    (getSkillPoolForCategory p c = .null ↔
      p.primary ≠ some c ∧ p.secondary ≠ some c ∧ p.tertiary ≠ some c) ∧
    getAttributePoolForCategory p c ≠ .num 0 ∧ getSkillPoolForCategory p c ≠ .num 0 ∧
    getAttributePoolForCategory p c ∈ [JSVal.null, .num 7, .num 5, .num 3] ∧
    getSkillPoolForCategory p c ∈ [JSVal.null, .num 13, .num 9, .num 5] := by
  unfold getAttributePoolForCategory getSkillPoolForCategory
  by_cases h1 : p.primary = some c <;> by_cases h2 : p.secondary = some c <;>
    by_cases h3 : p.tertiary = some c <;> simp [h1, h2, h3]

/-! ## Aggregate rule (C1) -/

theorem mem_Group_all (g : Group) : g ∈ Group.all := by
  rcases g with c | c | _ | _ | _ <;> (try cases c) <;> decide

theorem violatedGroups_eq_nil (s : State) :
    violatedGroups s = [] ↔ ∀ g, groupSatisfied s g = true := by
  unfold violatedGroups
  rw [List.filter_eq_nil_iff]
  constructor
  · intro h g
    have := h g (mem_Group_all g)
    simpa using this
  · intro h g _
    simp [h g]

/-- C1, as the code has it: `validateForm()` returns true if and only if every budget
group is satisfied and all three attribute priority levels and all three skill priority
levels are assigned. Whether a clan is selected plays no part. -/
theorem validateForm_iff (s : State) :
    validateForm s = true ↔
      ((∀ g, groupSatisfied s g = true) ∧ s.attributePriorities.assigned = true ∧
        s.skillPriorities.assigned = true) := by
  have hlen : validateForm s = true ↔ validateFormErrors s = [] := by
    simp [validateForm, List.length_eq_zero]
  rw [hlen]
  by_cases ha : s.attributePriorities.assigned = true
  · by_cases hs : s.skillPriorities.assigned = true
    · rw [validateFormErrors_assigned s ha hs, List.map_eq_nil_iff, violatedGroups_eq_nil]
      simp [ha, hs]
    · rw [validateFormErrors_normal]
      simp [ha, hs]
  · rw [validateFormErrors_normal]
    simp [ha]

/-- C1 fails as stated: in `noClanState` no clan is selected and `validateForm()` returns
true, so a selected clan is not necessary. -/
theorem validateForm_true_without_clan :
    noClanState.clan = "" ∧ validateForm noClanState = true ∧
    ¬ (validateForm noClanState = true ↔
        ((∀ g, groupSatisfied noClanState g = true) ∧
          noClanState.attributePriorities.assigned = true ∧
          noClanState.skillPriorities.assigned = true ∧ noClanState.clan ≠ "")) := by
  have h : validateForm noClanState = true := by decide
  refine ⟨rfl, h, ?_⟩
  intro hiff
  exact (hiff.mp h).2.2.2 rfl

/-! ## Attribute, skill and flat groups (C4, C5, C6) -/

theorem strictEq_num_iff (x : Int) (v : JSVal) :
    (JSVal.num x).strictEq v = true ↔ v = .num x := by
  cases v with
  | num n => simp only [JSVal.strictEq, beq_iff_eq, JSVal.num.injEq]; exact eq_comm
  | nan => simp [JSVal.strictEq]
  | null => simp [JSVal.strictEq]

theorem attributeSpent_of_ratings (tv : List (String × Int)) (n1 n2 n3 : String)
    (r1 r2 r3 : Int) (hr : [n1, n2, n3].map (getProp tv) = [some r1, some r2, some r3]) :
    attributeSpent tv [n1, n2, n3] = .num (r1 + r2 + r3 - 3) := by
  simp only [List.map_cons, List.map_nil, List.cons.injEq, and_true] at hr
  obtain ⟨h1, h2, h3⟩ := hr
  simp [attributeSpent, traitOperand, h1, h2, h3, JSVal.add, JSVal.subInt]

/-- C4: with all attribute priorities assigned, an attribute category whose three ratings
are `r1`, `r2`, `r3` is satisfied if and only if `r1 + r2 + r3 - 3` equals its resolved
pool; then `validateForm` emits no message for it, and otherwise it emits exactly the
message `<Category> Attributes: Must spend exactly <pool> dots (currently <spent>)`. -/
theorem attribute_group_exact (s : State) (c : Category) (r1 r2 r3 : Int)
    (ha : s.attributePriorities.assigned = true)
    (hr : c.attributes.map (getProp s.traitValues) = [some r1, some r2, some r3]) :
    (groupSatisfied s (.attr c) = true ↔
      getAttributePoolForCategory s.attributePriorities c.name = .num (r1 + r2 + r3 - 3)) ∧
    (getAttributePoolForCategory s.attributePriorities c.name = .num (r1 + r2 + r3 - 3) →
      errorsFor (.attr c) (validateFormErrors s) = []) ∧
    (getAttributePoolForCategory s.attributePriorities c.name ≠ .num (r1 + r2 + r3 - 3) →
      errorsFor (.attr c) (validateFormErrors s) =
        [c.label ++ " Attributes: Must spend exactly "
          ++ (getAttributePoolForCategory s.attributePriorities c.name).toStr
          ++ " dots (currently " ++ toString (r1 + r2 + r3 - 3) ++ ")"]) := by
  have hspent : attributeSpent s.traitValues c.attributes = .num (r1 + r2 + r3 - 3) := by
    cases c <;> exact attributeSpent_of_ratings _ _ _ _ _ _ _ hr
  have hsat : groupSatisfied s (.attr c) = true ↔
      getAttributePoolForCategory s.attributePriorities c.name = .num (r1 + r2 + r3 - 3) := by
    simp only [groupSatisfied, hspent, strictEq_num_iff]
  have herr := errorsFor_validateFormErrors s (.attr c)
  simp only [ha, if_true] at herr
  refine ⟨hsat, ?_, ?_⟩
  · intro hp
    rw [herr, groupErrors, if_pos (hsat.mpr hp)]
  · intro hp
    have hns : ¬ groupSatisfied s (.attr c) = true := fun h => hp (hsat.mp h)
    rw [herr, groupErrors, if_neg hns]
    simp only [violationMessage, hspent, spendMessage, Group.label, JSVal.toStr]
    have e : (" Attributes" : String) ++ ": Must spend exactly "
        = " Attributes: Must spend exactly " := by decide
    simp only [String.append_assoc]
    rw [← String.append_assoc " Attributes" ": Must spend exactly ", e]

/-- Witness of C4: with primary = physical, {strength 4, dexterity 3, stamina 3} is
satisfied (7 = 7), and with stamina 2 the message reports 6 spent against 7 required. -/
theorem attribute_group_exact_witness :
    errorsFor (.attr .physical) (validateFormErrors noClanState) = [] ∧
    groupSatisfied noClanState (.attr .physical) = true ∧
    groupSatisfied staminaTwoState (.attr .physical) = false ∧
    errorsFor (.attr .physical) (validateFormErrors staminaTwoState) =
      ["Physical Attributes: Must spend exactly 7 dots (currently 6)"] :=
  ⟨(attribute_group_exact noClanState .physical 4 3 3 rfl rfl).2.1 rfl,
   (attribute_group_exact noClanState .physical 4 3 3 rfl rfl).1.mpr rfl,
   by decide,
   (attribute_group_exact staminaTwoState .physical 4 3 2 rfl rfl).2.2 (by decide)⟩

theorem getSkillPoolForCategory_mem (p : Priorities) (c : String) :
    getSkillPoolForCategory p c ∈ [JSVal.null, .num 13, .num 9, .num 5] := by
  unfold getSkillPoolForCategory
  by_cases h1 : p.primary = some c <;> by_cases h2 : p.secondary = some c <;>
    by_cases h3 : p.tertiary = some c <;> simp [h1, h2, h3]

/-- C5: equality, not range, decides the skill, discipline and advantage groups. With the
skill priorities assigned, a skill category is reported with its message whenever the sum
of its nine ratings differs from its pool (one of 13, 9, 5, or none) and not otherwise;
the discipline group is reported whenever the discipline total differs from 3 and the
advantage group exactly when the advantage total differs from 7, be the total smaller or
larger. -/
theorem equality_not_range (s : State) :
    (s.skillPriorities.assigned = true → ∀ c : Category,
      getSkillPoolForCategory s.skillPriorities c.name ∈ [JSVal.null, .num 13, .num 9, .num 5] ∧
      (getSkillPoolForCategory s.skillPriorities c.name ≠ .num (skillSpent s.traitValues c.skills) →
        errorsFor (.skill c) (validateFormErrors s) =
          [c.label ++ " Skills: Must spend exactly "
            ++ (getSkillPoolForCategory s.skillPriorities c.name).toStr
            ++ " dots (currently " ++ toString (skillSpent s.traitValues c.skills) ++ ")"]) ∧
      (getSkillPoolForCategory s.skillPriorities c.name = .num (skillSpent s.traitValues c.skills) →
        errorsFor (.skill c) (validateFormErrors s) = [])) ∧
    (disciplinesSpent s.disciplineValues ≠ 3 →
      errorsFor .disciplines (validateFormErrors s) =
        ["Disciplines: Must spend exactly 3 dots (currently "
          ++ toString (disciplinesSpent s.disciplineValues) ++ ")"]) ∧
    (entriesSpent s.advantageValues ≠ 7 →
      errorsFor .advantages (validateFormErrors s) =
        ["Advantages: Must spend exactly 7 points (currently "
          ++ toString (entriesSpent s.advantageValues) ++ ")"]) ∧
    (entriesSpent s.advantageValues = 7 →
      errorsFor .advantages (validateFormErrors s) = []) := by
  refine ⟨?_, ?_, ?_, ?_⟩
  · intro hs c
    have herr := errorsFor_validateFormErrors s (.skill c)
    simp only [hs, if_true] at herr
    have hsat : groupSatisfied s (.skill c) = true ↔
        getSkillPoolForCategory s.skillPriorities c.name
          = .num (skillSpent s.traitValues c.skills) := by
      simp only [groupSatisfied, strictEq_num_iff]
    refine ⟨(getSkillPoolForCategory_mem s.skillPriorities c.name), ?_, ?_⟩
    · intro hp
      have hns : ¬ groupSatisfied s (.skill c) = true := fun h => hp (hsat.mp h)
      rw [herr, groupErrors, if_neg hns]
      simp only [violationMessage, spendMessage, Group.label, JSVal.toStr]
      have e : (" Skills" : String) ++ ": Must spend exactly "
          = " Skills: Must spend exactly " := by decide
      simp only [String.append_assoc]
      rw [← String.append_assoc " Skills" ": Must spend exactly ", e]
    · intro hp
      rw [herr, groupErrors, if_pos (hsat.mpr hp)]
  · intro h3
    have herr := errorsFor_validateFormErrors s .disciplines
    simp only at herr
    have hns : ¬ groupSatisfied s .disciplines = true := by
      simp [groupSatisfied, h3]
    rw [herr, groupErrors, if_neg hns]
    simp only [violationMessage, if_neg h3]
  · intro h7
    have herr := errorsFor_validateFormErrors s .advantages
    simp only at herr
    have hns : ¬ groupSatisfied s .advantages = true := by
      simp [groupSatisfied, h7]
    rw [herr, groupErrors, if_neg hns]
    simp only [violationMessage]
  · intro h7
    have herr := errorsFor_validateFormErrors s .advantages
    simp only at herr
    have hsat : groupSatisfied s .advantages = true := by
      simp [groupSatisfied, h7]
    rw [herr, groupErrors, if_pos hsat]

/-- Witness of C5: in `unevenState` the physical skills hold 14 dots against 13 (too many),
the social skills 8 against 9 (too few), the disciplines 4 against 3 and the advantages 5
against 7; all four groups are reported. -/
theorem equality_not_range_witness :
    errorsFor (.skill .physical) (validateFormErrors unevenState) =
      ["Physical Skills: Must spend exactly 13 dots (currently 14)"] ∧
    errorsFor (.skill .social) (validateFormErrors unevenState) =
      ["Social Skills: Must spend exactly 9 dots (currently 8)"] ∧
    errorsFor .disciplines (validateFormErrors unevenState) =
      ["Disciplines: Must spend exactly 3 dots (currently 4)"] ∧
    errorsFor .advantages (validateFormErrors unevenState) =
      ["Advantages: Must spend exactly 7 points (currently 5)"] :=
  ⟨((equality_not_range unevenState).1 rfl .physical).2.1 (by decide),
   ((equality_not_range unevenState).1 rfl .social).2.1 (by decide),
   (equality_not_range unevenState).2.1 (by decide),
   (equality_not_range unevenState).2.2.1 (by decide)⟩

/-- C6: for every flaw ledger the flaws group is satisfied if and only if the total of the
flaw values is at most 2: then `validateForm` produces no flaw error and
`checkTabComplete(5)` is true; with a total of 3 or more it produces the flaw error and
`checkTabComplete(5)` is false. -/
theorem flaws_ceiling (s : State) :
    (groupSatisfied s .flaws = true ↔ entriesSpent s.flawValues ≤ 2) ∧
    (checkTabComplete s 5 = true ↔ entriesSpent s.flawValues ≤ 2) ∧
    (checkTabComplete s 5 = false ↔ 3 ≤ entriesSpent s.flawValues) ∧
    (errorsFor .flaws (validateFormErrors s) = [] ↔ entriesSpent s.flawValues ≤ 2) ∧
    (errorsFor .flaws (validateFormErrors s) =
        ["Flaws: Cannot exceed 2 points (currently "
          ++ toString (entriesSpent s.flawValues) ++ ")"] ↔ 3 ≤ entriesSpent s.flawValues) := by
  have herr := errorsFor_validateFormErrors s .flaws
  simp only at herr
  have hsat : groupSatisfied s .flaws = true ↔ entriesSpent s.flawValues ≤ 2 := by
    simp [groupSatisfied]
  have htab : checkTabComplete s 5 = true ↔ entriesSpent s.flawValues ≤ 2 := by
    simp [checkTabComplete, checkStepComplete]
  refine ⟨hsat, htab, ?_, ?_, ?_⟩
  · rw [← Bool.not_eq_true, htab]; omega
  · rw [herr, groupErrors]
    by_cases h : groupSatisfied s .flaws = true
    · simp [h, hsat.mp h]
    · have : ¬ entriesSpent s.flawValues ≤ 2 := fun h2 => h (hsat.mpr h2)
      simp [h, this]
  · rw [herr, groupErrors]
    by_cases h : groupSatisfied s .flaws = true
    · have := hsat.mp h
      simp only [h, if_true]
      constructor
      · intro hnil; exact absurd hnil (by simp)
      · intro h3; omega
    · have : ¬ entriesSpent s.flawValues ≤ 2 := fun h2 => h (hsat.mpr h2)
      simp only [h, if_false, violationMessage, true_iff, Bool.false_eq_true]
      omega

/-- Instance of C6: a flaw total of 3 (`unevenState`) gives the flaw error and an
incomplete flaws tab, a flaw total of 1 (`noClanState`) neither. -/
theorem flaws_ceiling_witness :
    errorsFor .flaws (validateFormErrors unevenState) =
      ["Flaws: Cannot exceed 2 points (currently 3)"] ∧
    checkTabComplete unevenState 5 = false ∧
    errorsFor .flaws (validateFormErrors noClanState) = [] ∧
    checkTabComplete noClanState 5 = true :=
  ⟨(flaws_ceiling unevenState).2.2.2.2.mpr (by decide),
   (flaws_ceiling unevenState).2.2.1.mpr (by decide),
   (flaws_ceiling noClanState).2.2.2.1.mpr (by decide),
   (flaws_ceiling noClanState).2.1.mpr (by decide)⟩

/-! ## Disciplines and the selected clan (C7, C8) -/

theorem getProp_of_mem {α : Type} (k : String) (v : α) :
    ∀ (L : List (String × α)), (L.map Prod.fst).Nodup → (k, v) ∈ L → getProp L k = some v
  | [], _, h => by simp at h
  | e :: L, hnd, h => by
    have hnd2 : (L.map Prod.fst).Nodup := (List.nodup_cons.mp hnd).2
    have hnot : e.1 ∉ L.map Prod.fst := (List.nodup_cons.mp hnd).1
    rcases List.mem_cons.mp h with he | hL
    · subst he
      simp [getProp, List.find?_cons]
    · have hk : e.1 ≠ k := by
        intro hek
        apply hnot
        rw [hek]
        exact List.mem_map_of_mem Prod.fst hL
      have ih := getProp_of_mem k v L hnd2 hL
      simp only [getProp] at ih
      simp [getProp, List.find?_cons, hk, ih]

theorem selectedClanEntry_of_mem (name : String) (clan : Clan) (hmem : (name, clan) ∈ CLANS) :
    selectedClanEntry name = some clan := by
  have hne : name ≠ "" := by
    intro h
    subst h
    have : "" ∈ CLANS.map Prod.fst := List.mem_map_of_mem Prod.fst hmem
    exact absurd this (by decide)
  unfold selectedClanEntry
  simp only [bne_iff_ne, ne_eq, hne, not_false_eq_true, if_true]
  exact getProp_of_mem name clan CLANS (by decide) hmem

theorem dotsInClan_eq_zero (listed : List String) (ledger : List (String × Int))
    (h : ∀ e ∈ ledger, e.1 ∈ listed → e.2 = 0) : dotsInClan listed ledger = 0 := by
  unfold dotsInClan
  apply List.sum_eq_zero
  intro x hx
  obtain ⟨e, he, rfl⟩ := List.mem_map.mp hx
  by_cases hm : e.1 ∈ listed
  · simp [hm, h e he hm, dotsHeld]
  · simp [hm]

theorem disciplines_of_listed (s : State) (clan : Clan)
    (hentry : selectedClanEntry s.clan = some clan) (hne : clan.disciplines ≠ [])
    (htotal : disciplinesSpent s.disciplineValues = 3) :
    (groupSatisfied s .disciplines = true ↔
      2 ≤ dotsInClan clan.disciplines s.disciplineValues) ∧
    (checkTabComplete s 3 = true ↔ 2 ≤ dotsInClan clan.disciplines s.disciplineValues) ∧
    violationMessage s .disciplines =
      "Disciplines: Must spend at least 2 dots in in-clan disciplines (currently "
        ++ toString (dotsInClan clan.disciplines s.disciplineValues) ++ ")" := by
  have hemp : clan.disciplines.isEmpty = false := by
    cases hd : clan.disciplines with
    | nil => exact absurd hd hne
    | cons _ _ => rfl
  have hpos : clan.disciplines.length > 0 := List.length_pos.mpr hne
  refine ⟨?_, ?_, ?_⟩
  · simp [groupSatisfied, htotal, inLineageMinimumMet_eq, hentry, hemp,
      inClanSpent_eq_dotsInClan]
  · simp [checkTabComplete, checkStepComplete, htotal, hentry, hpos,
      inClanSpent_eq_dotsInClan]
  · simp [violationMessage, htotal, hentry, inClanSpent_eq_dotsInClan]

/-- C7: for every clan of `CLANS` with a non-empty discipline list and every discipline
ledger whose total is exactly 3, the discipline group is unsatisfied (`validateForm` emits a
disciplines error, `checkTabComplete(3)` is false) if and only if fewer than 2 of the dots
are in that clan's listed disciplines; in particular 3 dots spent entirely outside the list
leave it unsatisfied. -/
theorem in_clan_minimum (s : State) (name : String) (clan : Clan)
    (hmem : (name, clan) ∈ CLANS) (hne : clan.disciplines ≠ []) (hsel : s.clan = name)
    (htotal : disciplinesSpent s.disciplineValues = 3) :
    (errorsFor .disciplines (validateFormErrors s) ≠ [] ↔
      dotsInClan clan.disciplines s.disciplineValues < 2) ∧
    (checkTabComplete s 3 = false ↔ dotsInClan clan.disciplines s.disciplineValues < 2) ∧
    (groupSatisfied s .disciplines = false ↔
      dotsInClan clan.disciplines s.disciplineValues < 2) ∧
    (dotsInClan clan.disciplines s.disciplineValues < 2 →
      errorsFor .disciplines (validateFormErrors s) =
        ["Disciplines: Must spend at least 2 dots in in-clan disciplines (currently "
          ++ toString (dotsInClan clan.disciplines s.disciplineValues) ++ ")"]) ∧
    ((∀ e ∈ s.disciplineValues, e.1 ∈ clan.disciplines → e.2 = 0) →
      errorsFor .disciplines (validateFormErrors s) ≠ [] ∧ checkTabComplete s 3 = false) := by
  have hentry : selectedClanEntry s.clan = some clan := by
    rw [hsel]; exact selectedClanEntry_of_mem name clan hmem
  obtain ⟨hsat, htab, hmsg⟩ := disciplines_of_listed s clan hentry hne htotal
  have herr := errorsFor_validateFormErrors s .disciplines
  simp only at herr
  have h1 : errorsFor .disciplines (validateFormErrors s) ≠ [] ↔
      dotsInClan clan.disciplines s.disciplineValues < 2 := by
    rw [herr, groupErrors]
    by_cases h : groupSatisfied s .disciplines = true
    · have := hsat.mp h
      simp only [h, if_true, ne_eq, not_true_eq_false, false_iff]
      omega
    · have : ¬ 2 ≤ dotsInClan clan.disciplines s.disciplineValues := fun h2 => h (hsat.mpr h2)
      simp only [h, if_false, ne_eq, Bool.false_eq_true]
      constructor
      · intro _; omega
      · intro _; simp
  have h2 : checkTabComplete s 3 = false ↔
      dotsInClan clan.disciplines s.disciplineValues < 2 := by
    rw [← Bool.not_eq_true, htab]; omega
  refine ⟨h1, h2, ?_, ?_, ?_⟩
  · rw [← Bool.not_eq_true, hsat]; omega
  · intro hlt
    have hns : ¬ groupSatisfied s .disciplines = true := fun h => by
      have := hsat.mp h
      omega
    rw [herr, groupErrors, if_neg hns, hmsg]
  · intro hz
    have h0 := dotsInClan_eq_zero clan.disciplines s.disciplineValues hz
    exact ⟨h1.mpr (by omega), h2.mpr (by omega)⟩

/-- Witness of C7: a Brujah with 3 dots of Animalism has the right total but no dot in clan. -/
theorem in_clan_minimum_witness :
    disciplinesSpent outOfClanState.disciplineValues = 3 ∧
    errorsFor .disciplines (validateFormErrors outOfClanState) =
      ["Disciplines: Must spend at least 2 dots in in-clan disciplines (currently 0)"] ∧
    checkTabComplete outOfClanState 3 = false :=
  ⟨by decide,
   (in_clan_minimum outOfClanState "Brujah" ⟨["Celerity", "Potence", "Presence"],
      "Violent Temper: Difficulty +2 to resist fury frenzy"⟩ (by decide) (by decide) rfl
      (by decide)).2.2.2.1 (by decide),
   (in_clan_minimum outOfClanState "Brujah" ⟨["Celerity", "Potence", "Presence"],
      "Violent Temper: Difficulty +2 to resist fury frenzy"⟩ (by decide) (by decide) rfl
      (by decide)).2.1.mpr (by decide)⟩

/-- C8: when the selected clan has an empty discipline list (Caitiff) no in-clan constraint
applies: for every discipline ledger the discipline group is satisfied if and only if the
discipline total equals 3, whichever disciplines hold the dots. -/
theorem no_fixed_affinity (s : State) (name : String) (clan : Clan)
    (hmem : (name, clan) ∈ CLANS) (hempty : clan.disciplines = []) (hsel : s.clan = name) :
    name = "Caitiff" ∧
    (groupSatisfied s .disciplines = true ↔ disciplinesSpent s.disciplineValues = 3) ∧
    (checkTabComplete s 3 = true ↔ disciplinesSpent s.disciplineValues = 3) ∧
    (errorsFor .disciplines (validateFormErrors s) = [] ↔
      disciplinesSpent s.disciplineValues = 3) := by
  have hentry : selectedClanEntry s.clan = some clan := by
    rw [hsel]; exact selectedClanEntry_of_mem name clan hmem
  have hname : name = "Caitiff" := by
    simp only [CLANS, List.mem_cons, Prod.mk.injEq, List.mem_singleton, List.not_mem_nil,
      or_false] at hmem
    rcases hmem with h | h | h | h | h | h | h | h | h | h | h | h | h | h | h <;>
      first
      | exact h.1
      | (obtain ⟨_, rfl⟩ := h; exact absurd hempty (by decide))
  have hsat : groupSatisfied s .disciplines = true ↔ disciplinesSpent s.disciplineValues = 3 := by
    simp [groupSatisfied, inLineageMinimumMet_eq, hentry, hempty]
  have herr := errorsFor_validateFormErrors s .disciplines
  simp only at herr
  refine ⟨hname, hsat, ?_, ?_⟩
  · by_cases h3 : disciplinesSpent s.disciplineValues = 3
    · simp [checkTabComplete, checkStepComplete, h3, hentry, hempty]
    · simp [checkTabComplete, checkStepComplete, h3]
  · rw [herr, groupErrors]
    by_cases h : groupSatisfied s .disciplines = true
    · simp [h, hsat.mp h]
    · have : ¬ disciplinesSpent s.disciplineValues = 3 := fun h2 => h (hsat.mpr h2)
      simp [h, this]

/-- Witness of C8: a Caitiff with all 3 dots in one discipline satisfies the group. -/
theorem no_fixed_affinity_witness :
    checkTabComplete caitiffState 3 = true ∧
    errorsFor .disciplines (validateFormErrors caitiffState) = [] :=
  ⟨(no_fixed_affinity caitiffState "Caitiff" ⟨[], "Suspect Blood: Ostracized by Camarilla"⟩
      (by decide) rfl rfl).2.2.1.mpr (by decide),
   (no_fixed_affinity caitiffState "Caitiff" ⟨[], "Suspect Blood: Ostracized by Camarilla"⟩
      (by decide) rfl rfl).2.2.2.mpr (by decide)⟩

/-! ## The initial ledger (C9) -/

theorem getProp_mem {α : Type} (obj : List (String × α)) (k : String) (v : α)
    (h : getProp obj k = some v) : ∃ e ∈ obj, e.2 = v := by
  unfold getProp at h
  cases hf : obj.find? (fun e => e.1 == k) with
  | none => simp [hf] at h
  | some e =>
    simp only [hf, Option.map_some', Option.some.injEq] at h
    exact ⟨e, List.mem_of_find?_eq_some hf, h⟩

theorem setProp_forall {α : Type} (P : α → Prop) (obj : List (String × α)) (k : String) (v : α)
    (hobj : ∀ e ∈ obj, P e.2) (hv : P v) : ∀ e ∈ setProp obj k v, P e.2 := by
  intro e he
  unfold setProp at he
  split at he
  · obtain ⟨x, hx, hxe⟩ := List.mem_map.mp he
    split at hxe
    · rw [← hxe]; exact hv
    · rw [← hxe]; exact hobj x hx
  · rcases List.mem_append.mp he with h | h
    · exact hobj e h
    · simp only [List.mem_singleton] at h
      rw [h]; exact hv

theorem catalog_forall {α : Type} (P : α → Prop) (d : α) (hd : P d) (catalog : List String) :
    ∀ (obj : List (String × α)), (∀ e ∈ obj, P e.2) →
      ∀ e ∈ catalog.foldl (fun o t => setProp o t ((getProp o t).getD d)) obj, P e.2 := by
  induction catalog with
  | nil => intro obj h; simpa using h
  | cons t ts ih =>
    intro obj h
    simp only [List.foldl_cons]
    apply ih
    apply setProp_forall P obj t _ h
    cases hg : getProp obj t with
    | none => simpa using hd
    | some v =>
      obtain ⟨e, he, hev⟩ := getProp_mem obj t v hg
      simpa [← hev] using h e he

theorem disciplinesSpent_of_zero (dv : List (String × Int)) (h : ∀ e ∈ dv, e.2 = 0) :
    disciplinesSpent dv = 0 := by
  unfold disciplinesSpent
  rw [foldl_add_eq_sum (fun e : String × Int => e.2), zero_add]
  apply List.sum_eq_zero
  intro x hx
  obtain ⟨e, he, rfl⟩ := List.mem_map.mp hx
  exact h e he

theorem entriesSpent_of_zero (ev : List (String × Entry)) (h : ∀ e ∈ ev, e.2.value = 0) :
    entriesSpent ev = 0 := by
  unfold entriesSpent
  rw [foldl_add_eq_sum (fun e : String × Entry => e.2.value), zero_add]
  apply List.sum_eq_zero
  intro x hx
  obtain ⟨e, he, rfl⟩ := List.mem_map.mp hx
  exact h e he

theorem initialState_totals (d a f : List String) :
    disciplinesSpent (initialState d a f).disciplineValues = 0 ∧
    entriesSpent (initialState d a f).advantageValues = 0 ∧
    entriesSpent (initialState d a f).flawValues = 0 := by
  refine ⟨?_, ?_, ?_⟩
  · apply disciplinesSpent_of_zero
    exact catalog_forall (fun v : Int => v = 0) 0 rfl d [] (by simp)
  · apply entriesSpent_of_zero
    exact catalog_forall (fun v : Entry => v.value = 0) ⟨0, []⟩ rfl a [] (by simp)
  · apply entriesSpent_of_zero
    exact catalog_forall (fun v : Entry => v.value = 0) ⟨0, []⟩ rfl f [] (by simp)

/-- C9, as the code has it: on the initial ledger (every attribute at 1, every skill at 0,
every catalogued discipline, advantage and flaw at 0, no priority level assigned, no clan
selected) the three attribute categories, the three skill categories, the disciplines
and the advantages are unsatisfied, the flaws group (total 0, at most 2) is satisfied, and
`validateForm()` returns false with four messages. -/
theorem initial_ledger_report (d a f : List String) :
    (∀ c : Category, ∀ t ∈ c.attributes, getProp (initialState d a f).traitValues t = some 1) ∧
    (∀ c : Category, ∀ t ∈ c.skills, getProp (initialState d a f).traitValues t = some 0) ∧
    (∀ g, g ≠ .flaws → groupSatisfied (initialState d a f) g = false) ∧
    groupSatisfied (initialState d a f) .flaws = true ∧
    (∀ i ∈ [1, 2, 3, 4], checkTabComplete (initialState d a f) i = false) ∧
    checkTabComplete (initialState d a f) 5 = true ∧
    validateFormErrors (initialState d a f) =
      ["You must assign all attribute priorities (Primary, Secondary, Tertiary)",
       "You must assign all skill priorities (Primary, Secondary, Tertiary)",
       "Disciplines: Must spend exactly 3 dots (currently 0)",
       "Advantages: Must spend exactly 7 points (currently 0)"] ∧
    validateForm (initialState d a f) = false := by
  obtain ⟨hd, ha, hf⟩ := initialState_totals d a f
  have htv : (initialState d a f).traitValues = initializeDots TRAIT_CONTAINERS [] := rfl
  have hap : (initialState d a f).attributePriorities.assigned = false := rfl
  have hsp : (initialState d a f).skillPriorities.assigned = false := rfl
  have hdisc : groupSatisfied (initialState d a f) .disciplines = false := by
    simp [groupSatisfied, hd]
  have hadv : groupSatisfied (initialState d a f) .advantages = false := by
    simp [groupSatisfied, ha]
  have hflaw : groupSatisfied (initialState d a f) .flaws = true := by
    simp [groupSatisfied, hf]
  have herrs : validateFormErrors (initialState d a f) =
      ["You must assign all attribute priorities (Primary, Secondary, Tertiary)",
       "You must assign all skill priorities (Primary, Secondary, Tertiary)",
       "Disciplines: Must spend exactly 3 dots (currently 0)",
       "Advantages: Must spend exactly 7 points (currently 0)"] := by
    rw [validateFormErrors_normal]
    have h03 : ¬ ((0 : Int) = 3) := by decide
    simp only [hap, hsp, groupErrors, hdisc, hadv, hflaw, violationMessage, hd, ha,
      Bool.false_eq_true, if_false, if_true, h03]
    decide
  refine ⟨?_, ?_, ?_, hflaw, ?_, ?_, herrs, ?_⟩
  · intro c
    rw [htv]
    cases c <;> decide
  · intro c
    rw [htv]
    cases c <;> decide
  · intro g hg
    rcases g with c | c | _ | _ | _
    · cases c <;> rfl
    · cases c <;> rfl
    · exact hdisc
    · exact hadv
    · exact absurd rfl hg
  · intro i hi
    simp only [List.mem_cons, List.mem_singleton, List.not_mem_nil, or_false] at hi
    rcases hi with rfl | rfl | rfl | rfl
    · rfl
    · rfl
    · simp [checkTabComplete, checkStepComplete, hd]
    · simp [checkTabComplete, checkStepComplete, ha]
  · simp [checkTabComplete, checkStepComplete, hf]
  · simp [validateForm, herrs]

/-- C9 fails as stated: on the initial ledger `freshState` the flaws group is not reported
unsatisfied: its total 0 is within the ceiling, no flaw error is emitted and
`checkTabComplete(5)` is true. -/
theorem initial_flaws_satisfied :
    groupSatisfied freshState .flaws = true ∧
    checkTabComplete freshState 5 = true ∧
    errorsFor .flaws (validateFormErrors freshState) = [] ∧
    ¬ (∀ g, groupSatisfied freshState g = false) := by
  refine ⟨by decide, by decide, by decide, ?_⟩
  intro h
  exact absurd (h .flaws) (by decide)

/-- Instance of C9 before any catalog has loaded: four messages, flaws satisfied. -/
theorem initial_ledger_report_witness :
    validateForm (initialState [] [] []) = false ∧
    groupSatisfied (initialState [] [] []) .flaws = true ∧
    groupSatisfied (initialState [] [] []) .advantages = false :=
  ⟨(initial_ledger_report [] [] []).2.2.2.2.2.2.2,
   (initial_ledger_report [] [] []).2.2.2.1,
   (initial_ledger_report [] [] []).2.2.1 .advantages (by decide)⟩

/-! ## One message per violated group (C10) -/

/-- C10, as the code has it: once all three attribute and all three skill priority levels
are assigned, the error list of `validateForm` is exactly one message per violated budget
group, in group order, and none for a satisfied group, so the number of messages equals the
number of violated groups; the message of a group starts with the group's name and states
the required and the actual amount (`violationMessage`). -/
theorem one_message_per_violated_group (s : State)
    (ha : s.attributePriorities.assigned = true) (hs : s.skillPriorities.assigned = true) :
    validateFormErrors s = (violatedGroups s).map (violationMessage s) ∧
    (validateFormErrors s).length = (violatedGroups s).length ∧
    (∀ g, errorsFor g (validateFormErrors s) =
      if groupSatisfied s g then [] else [violationMessage s g]) ∧
    (∀ g, startsWith g.label (violationMessage s g) = true) := by
  have hlist := validateFormErrors_assigned s ha hs
  refine ⟨hlist, ?_, ?_, ?_⟩
  · rw [hlist, List.length_map]
  · intro g
    have herr := errorsFor_validateFormErrors s g
    rcases g with c | c | _ | _ | _ <;> simp only [ha, hs, if_true] at herr <;>
      rw [herr, groupErrors]
  · intro g
    rw [startsWith_label_violationMessage]
    simp

/-- Witness of C10's amended form: `unevenState` has five violated groups and five
messages, each naming its group with the required and the actual amount. -/
theorem one_message_per_violated_group_witness :
    violatedGroups unevenState =
      [.skill .physical, .skill .social, .disciplines, .advantages, .flaws] ∧
    validateFormErrors unevenState =
      ["Physical Skills: Must spend exactly 13 dots (currently 14)",
       "Social Skills: Must spend exactly 9 dots (currently 8)",
       "Disciplines: Must spend exactly 3 dots (currently 4)",
       "Advantages: Must spend exactly 7 points (currently 5)",
       "Flaws: Cannot exceed 2 points (currently 3)"] ∧
    (validateFormErrors unevenState).length = (violatedGroups unevenState).length :=
  ⟨by decide, by decide, (one_message_per_violated_group unevenState rfl rfl).2.1⟩

/-- C10 fails as stated: in `noAttributePriorityState` eight groups are violated but only
six messages are emitted; the three attribute categories are violated and no message names
any of them (one message asks for the attribute priorities instead). -/
theorem fewer_messages_than_violated_groups :
    (violatedGroups noAttributePriorityState).length = 8 ∧
    (validateFormErrors noAttributePriorityState).length = 6 ∧
    groupSatisfied noAttributePriorityState (.attr .physical) = false ∧
    errorsFor (.attr .physical) (validateFormErrors noAttributePriorityState) = [] ∧
    validateFormErrors noAttributePriorityState =
      ["You must assign all attribute priorities (Primary, Secondary, Tertiary)",
       "Physical Skills: Must spend exactly 13 dots (currently 14)",
       "Social Skills: Must spend exactly 9 dots (currently 8)",
       "Disciplines: Must spend exactly 3 dots (currently 4)",
       "Advantages: Must spend exactly 7 points (currently 5)",
       "Flaws: Cannot exceed 2 points (currently 3)"] := by
  refine ⟨by decide, by decide, by decide, by decide, by decide⟩

/-! ## Dot clicks (C11, C12, C13) -/

theorem getProp_cons {α : Type} (e : String × α) (obj : List (String × α)) (k : String) :
    getProp (e :: obj) k = if e.1 = k then some e.2 else getProp obj k := by
  unfold getProp
  by_cases h : e.1 = k <;> simp [List.find?_cons, h]

theorem getProp_eq_none_iff {α : Type} (obj : List (String × α)) (k : String) :
    getProp obj k = none ↔ obj.any (fun e => e.1 == k) = false := by
  induction obj with
  | nil => simp [getProp]
  | cons e obj ih =>
    rw [getProp_cons]
    by_cases h : e.1 = k <;> simp [h, ih]

theorem getProp_append_singleton {α : Type} (obj : List (String × α)) (k k2 : String) (v : α)
    (h : getProp obj k = none) :
    getProp (obj ++ [(k, v)]) k2 = if k = k2 then some v else getProp obj k2 := by
  induction obj with
  | nil => simp [getProp_cons, getProp]
  | cons e obj ih =>
    rw [getProp_cons] at h
    by_cases hk : e.1 = k
    · simp [hk] at h
    · simp only [hk, if_false] at h
      rw [List.cons_append, getProp_cons, getProp_cons, ih h]
      by_cases h2 : e.1 = k2
      · have : ¬ k = k2 := fun hkk => hk (h2.trans hkk.symm)
        simp [h2, this]
      · simp [h2]

theorem getProp_map_replace {α : Type} (obj : List (String × α)) (k k2 : String) (v : α) :
    getProp (obj.map (fun e => if e.1 == k then (k, v) else e)) k2 =
      if k = k2 then (getProp obj k).map (fun _ => v) else getProp obj k2 := by
  induction obj with
  | nil => simp [getProp]
  | cons e obj ih =>
    rw [List.map_cons, getProp_cons, getProp_cons, getProp_cons, ih]
    by_cases hk : e.1 = k <;> by_cases h2 : k = k2 <;> by_cases h3 : e.1 = k2 <;>
      simp_all

/-- Reading back an assignment: `obj[key] = v` makes `obj[key]` equal to `v` and leaves
every other property as it was. -/
theorem getProp_setProp {α : Type} (obj : List (String × α)) (k k2 : String) (v : α) :
    getProp (setProp obj k v) k2 = if k = k2 then some v else getProp obj k2 := by
  unfold setProp
  by_cases h : obj.any (fun e => e.1 == k) = true
  · rw [if_pos h, getProp_map_replace]
    by_cases h2 : k = k2
    · simp only [h2, if_true]
      cases hg : getProp obj k2 with
      | none =>
        rw [getProp_eq_none_iff] at hg
        rw [h2] at h
        simp [hg] at h
      | some x => rfl
    · simp [h2]
  · rw [if_neg h]
    have hn : getProp obj k = none := by
      rw [getProp_eq_none_iff]
      exact Bool.eq_false_iff.mpr h
    exact getProp_append_singleton obj k k2 v hn

theorem keys_setProp {α : Type} (obj : List (String × α)) (k : String) (v x : α)
    (h : getProp obj k = some x) : (setProp obj k v).map Prod.fst = obj.map Prod.fst := by
  have hany : obj.any (fun e => e.1 == k) = true := by
    by_contra hc
    have : getProp obj k = none := by
      rw [getProp_eq_none_iff]; exact Bool.eq_false_iff.mpr hc
    rw [this] at h
    exact absurd h (by simp)
  unfold setProp
  rw [if_pos hany, List.map_map]
  apply List.map_congr_left
  intro e _
  by_cases he : e.1 = k <;> simp [he]

theorem mem_setProp {α : Type} (obj : List (String × α)) (k : String) (v : α)
    (e : String × α) (he : e ∈ setProp obj k v) : e ∈ obj ∨ e = (k, v) := by
  unfold setProp at he
  split at he
  · obtain ⟨x, hx, hxe⟩ := List.mem_map.mp he
    split at hxe
    · exact Or.inr hxe.symm
    · exact Or.inl (hxe ▸ hx)
  · rcases List.mem_append.mp he with h | h
    · exact Or.inl h
    · exact Or.inr (List.mem_singleton.mp h)

/-- C11: for every attribute or skill trait with a rating and every clicked value, the
dot-click handler sets the rating to the baseline (0 when the container's category
starts with `skills`, i.e. for a skill, and 1 otherwise, i.e. for an attribute) when the
clicked value equals the current rating, and to the clicked value otherwise; no other
trait's rating changes and no key is added. -/
theorem trait_click_toggles (category trait : String) (v cur : Int)
    (tv : List (String × Int)) (hcur : getProp tv trait = some cur) :
    getProp (clickTraitDot category trait v tv) trait =
      some (if v = cur then (if startsWith "skills" category then 0 else 1) else v) ∧
    (∀ other, other ≠ trait → getProp (clickTraitDot category trait v tv) other
      = getProp tv other) ∧
    (clickTraitDot category trait v tv).map Prod.fst = tv.map Prod.fst := by
  unfold clickTraitDot
  simp only [hcur]
  by_cases h : v = cur
  · subst h
    simp only [beq_self_eq_true, if_true]
    refine ⟨by rw [getProp_setProp]; simp, ?_, keys_setProp tv trait _ _ hcur⟩
    intro other ho
    rw [getProp_setProp, if_neg (fun hh => ho hh.symm)]
  · have hb : (some v == some cur) = false := by simpa using h
    simp only [hb, Bool.false_eq_true, if_false, h]
    refine ⟨by rw [getProp_setProp]; simp, ?_, keys_setProp tv trait _ _ hcur⟩
    intro other ho
    rw [getProp_setProp, if_neg (fun hh => ho hh.symm)]

/-- Witness of C11: an attribute at 3 clicked at 3 becomes 1, a skill at 4 clicked at 4
becomes 0, and a click at another value sets that value. -/
theorem trait_click_toggles_witness :
    getProp (clickTraitDot "attributes" "wits" 3 [("wits", 3), ("brawl", 4)]) "wits" = some 1 ∧
    getProp (clickTraitDot "skills" "brawl" 4 [("wits", 3), ("brawl", 4)]) "brawl" = some 0 ∧
    getProp (clickTraitDot "skills" "brawl" 2 [("wits", 3), ("brawl", 4)]) "brawl" = some 2 ∧
    getProp (clickTraitDot "skills" "brawl" 4 [("wits", 3), ("brawl", 4)]) "wits" = some 3 :=
  ⟨(trait_click_toggles "attributes" "wits" 3 3 [("wits", 3), ("brawl", 4)] rfl).1,
   (trait_click_toggles "skills" "brawl" 4 4 [("wits", 3), ("brawl", 4)] rfl).1,
   (trait_click_toggles "skills" "brawl" 2 4 [("wits", 3), ("brawl", 4)] rfl).1,
   (trait_click_toggles "skills" "brawl" 4 4 [("wits", 3), ("brawl", 4)] rfl).2.1 "wits"
     (by decide)⟩

/-- C12: for every discipline, advantage or flaw with an entry and every clicked value, the
dot-click handler sets the rating to 0 when the clicked value equals the current rating
and to the clicked value otherwise; every other entry, the key set and (for an advantage
or flaw) the entry's other fields are unchanged. -/
theorem toggle_to_zero (trait : String) (v : Int) :
    (∀ (dv : List (String × Int)) (cur : Int), getProp dv trait = some cur →
      getProp (clickDisciplineDot trait v dv) trait = some (if v = cur then 0 else v) ∧
      (∀ other, other ≠ trait →
        getProp (clickDisciplineDot trait v dv) other = getProp dv other) ∧
      (clickDisciplineDot trait v dv).map Prod.fst = dv.map Prod.fst) ∧
    (∀ (ev : List (String × Entry)) (entry : Entry), getProp ev trait = some entry →
      ∃ ev2, clickEntryDot trait v ev = some ev2 ∧
        getProp ev2 trait =
          some { value := if v = entry.value then 0 else v, fields := entry.fields } ∧
        (∀ other, other ≠ trait → getProp ev2 other = getProp ev other) ∧
        ev2.map Prod.fst = ev.map Prod.fst) := by
  constructor
  · intro dv cur hcur
    unfold clickDisciplineDot
    simp only [hcur]
    by_cases h : v = cur
    · subst h
      simp only [beq_self_eq_true, if_true]
      refine ⟨by rw [getProp_setProp]; simp, ?_, keys_setProp dv trait _ _ hcur⟩
      intro other ho
      rw [getProp_setProp, if_neg (fun hh => ho hh.symm)]
    · have hb : (some v == some cur) = false := by simpa using h
      simp only [hb, Bool.false_eq_true, if_false, h]
      refine ⟨by rw [getProp_setProp]; simp, ?_, keys_setProp dv trait _ _ hcur⟩
      intro other ho
      rw [getProp_setProp, if_neg (fun hh => ho hh.symm)]
  · intro ev entry hcur
    unfold clickEntryDot
    simp only [hcur]
    by_cases h : v = entry.value
    · refine ⟨_, by simp only [h, beq_self_eq_true, if_true]; rfl, ?_, ?_,
        keys_setProp ev trait _ _ hcur⟩
      · rw [getProp_setProp]; simp [h]
      · intro other ho
        rw [getProp_setProp, if_neg (fun hh => ho hh.symm)]
    · have hb : (v == entry.value) = false := by simpa using h
      refine ⟨_, by simp only [hb, Bool.false_eq_true, if_false]; rfl, ?_, ?_,
        keys_setProp ev trait _ _ hcur⟩
      · rw [getProp_setProp]; simp [h]
      · intro other ho
        rw [getProp_setProp, if_neg (fun hh => ho hh.symm)]

/-- Witness of C12: a discipline at 2 clicked at 2 becomes 0; an advantage at 3 with an
extra field clicked at 1 becomes 1 and keeps the field. -/
theorem toggle_to_zero_witness :
    getProp (clickDisciplineDot "Potence" 2 [("Potence", 2), ("Auspex", 1)]) "Potence" = some 0 ∧
    getProp (clickDisciplineDot "Potence" 2 [("Potence", 2), ("Auspex", 1)]) "Auspex" = some 1 ∧
    (∃ ev2, clickEntryDot "Allies" 1 [("Allies", ⟨3, [("instance", "Police")]⟩)] = some ev2 ∧
      getProp ev2 "Allies" = some ⟨1, [("instance", "Police")]⟩) :=
  ⟨((toggle_to_zero "Potence" 2).1 [("Potence", 2), ("Auspex", 1)] 2 rfl).1,
   ((toggle_to_zero "Potence" 2).1 [("Potence", 2), ("Auspex", 1)] 2 rfl).2.1 "Auspex"
     (by decide),
   by
     obtain ⟨ev2, h1, h2, _⟩ := (toggle_to_zero "Allies" 1).2
       [("Allies", ⟨3, [("instance", "Police")]⟩)] ⟨3, [("instance", "Police")]⟩ rfl
     exact ⟨ev2, h1, h2⟩⟩

theorem container_category (t c : String) (h : (t, c) ∈ TRAIT_CONTAINERS) :
    (c = "attributes" ∧ t ∈ ATTRIBUTE_NAMES) ∨ (c = "skills" ∧ t ∈ SKILL_NAMES) := by
  unfold TRAIT_CONTAINERS at h
  rcases List.mem_append.mp h with h | h
  · obtain ⟨x, hx, hxe⟩ := List.mem_map.mp h
    simp only [Prod.mk.injEq] at hxe
    exact Or.inl ⟨hxe.2.symm, hxe.1 ▸ hx⟩
  · obtain ⟨x, hx, hxe⟩ := List.mem_map.mp h
    simp only [Prod.mk.injEq] at hxe
    exact Or.inr ⟨hxe.2.symm, hxe.1 ▸ hx⟩

theorem attribute_not_skill : ∀ t ∈ ATTRIBUTE_NAMES, t ∉ SKILL_NAMES := by decide

theorem initialState_inDomain (d a f : List String) : ratingsInDomain (initialState d a f) := by
  refine ⟨?_, ?_, ?_, ?_⟩
  · have htv : (initialState d a f).traitValues = initializeDots TRAIT_CONTAINERS [] := rfl
    rw [htv]
    decide
  · intro e he
    have := catalog_forall (fun v : Int => v = 0) 0 rfl d [] (by simp) e he
    simp only at this
    omega
  · intro e he
    have := catalog_forall (fun v : Entry => v.value = 0) ⟨0, []⟩ rfl a [] (by simp) e he
    simp only at this
    omega
  · intro e he
    have := catalog_forall (fun v : Entry => v.value = 0) ⟨0, []⟩ rfl f [] (by simp) e he
    simp only at this
    omega

theorem clickEntryDot_inDomain (t : String) (v : Int) (ev : List (String × Entry))
    (hv1 : 1 ≤ v) (hv5 : v ≤ 5) (h : ∀ e ∈ ev, 0 ≤ e.2.value ∧ e.2.value ≤ 5) :
    ∀ e ∈ (clickEntryDot t v ev).getD ev, 0 ≤ e.2.value ∧ e.2.value ≤ 5 := by
  unfold clickEntryDot
  cases hg : getProp ev t with
  | none => simpa using h
  | some entry =>
    simp only
    intro e he
    split at he <;> simp only [Option.getD_some] at he <;>
      rcases mem_setProp _ _ _ _ he with h1 | h1
    · exact h e h1
    · rw [h1]; simp
    · exact h e h1
    · rw [h1]; exact ⟨by simp; omega, by simp; omega⟩

theorem click_inDomain (d a f : List String) (s : State) (c : Click)
    (hc : c.offered d a f = true) (hs : ratingsInDomain s) : ratingsInDomain (c.apply s) := by
  obtain ⟨htv, hdv, hav, hfv⟩ := hs
  cases c with
  | trait t cat v =>
    simp only [Click.offered, Bool.and_eq_true, decide_eq_true_eq] at hc
    obtain ⟨⟨hmem, hv1⟩, hv5⟩ := hc
    refine ⟨?_, hdv, hav, hfv⟩
    intro e he
    simp only [Click.apply, clickTraitDot] at he
    have hnew : e ∈ s.traitValues ∨
        e = (t, if startsWith "skills" cat then 0 else 1) ∨ e = (t, v) := by
      split at he
      · rcases mem_setProp _ _ _ _ he with h1 | h1
        · exact Or.inl h1
        · exact Or.inr (Or.inl h1)
      · rcases mem_setProp _ _ _ _ he with h1 | h1
        · exact Or.inl h1
        · exact Or.inr (Or.inr h1)
    rcases hnew with h1 | h1 | h1
    · exact htv e h1
    · rw [h1]
      rcases container_category t cat hmem with ⟨hcat, hname⟩ | ⟨hcat, hname⟩
      · subst hcat
        have e1 : startsWith "skills" "attributes" = false := by decide
        refine ⟨fun _ => by simp [e1], fun hsk => absurd hsk (attribute_not_skill t hname)⟩
      · subst hcat
        have e1 : startsWith "skills" "skills" = true := by decide
        refine ⟨fun hat => absurd hname (attribute_not_skill t hat), fun _ => by simp [e1]⟩
    · rw [h1]
      exact ⟨fun _ => ⟨hv1, hv5⟩, fun _ => ⟨by simp only; omega, hv5⟩⟩
  | discipline t v =>
    simp only [Click.offered, Bool.and_eq_true, decide_eq_true_eq] at hc
    obtain ⟨⟨_, hv1⟩, hv3⟩ := hc
    refine ⟨htv, ?_, hav, hfv⟩
    intro e he
    simp only [Click.apply, clickDisciplineDot] at he
    split at he <;> rcases mem_setProp _ _ _ _ he with h1 | h1
    · exact hdv e h1
    · rw [h1]; simp
    · exact hdv e h1
    · rw [h1]; exact ⟨by simp only; omega, hv3⟩
  | advantage t v =>
    simp only [Click.offered, Bool.and_eq_true, decide_eq_true_eq] at hc
    obtain ⟨⟨_, hv1⟩, hv5⟩ := hc
    exact ⟨htv, hdv, clickEntryDot_inDomain t v _ hv1 hv5 hav, hfv⟩
  | flaw t v =>
    simp only [Click.offered, Bool.and_eq_true, decide_eq_true_eq] at hc
    obtain ⟨⟨_, hv1⟩, hv5⟩ := hc
    exact ⟨htv, hdv, hav, clickEntryDot_inDomain t v _ hv1 hv5 hfv⟩

theorem clicks_inDomain (d a f : List String) (clicks : List Click) :
    ∀ s, (∀ c ∈ clicks, c.offered d a f = true) → ratingsInDomain s →
      ratingsInDomain (clicks.foldl Click.apply s) := by
  induction clicks with
  | nil => intro s _ hs; exact hs
  | cons c cs ih =>
    intro s hc hs
    rw [List.foldl_cons]
    apply ih
    · intro c2 hc2
      exact hc c2 (List.mem_cons_of_mem _ hc2)
    · exact click_inDomain d a f s c (hc c (List.mem_cons_self _ _)) hs

theorem getProp_of_key {α : Type} (obj : List (String × α)) (k : String)
    (h : k ∈ obj.map Prod.fst) : ∃ x, getProp obj k = some x := by
  cases hg : getProp obj k with
  | some x => exact ⟨x, rfl⟩
  | none =>
    rw [getProp_eq_none_iff] at hg
    obtain ⟨e, he, hek⟩ := List.mem_map.mp h
    have : obj.any (fun e => e.1 == k) = true := List.any_eq_true.mpr ⟨e, he, by simp [hek]⟩
    rw [this] at hg
    exact absurd hg (by simp)

theorem click_keys (d a f : List String) (s : State) (c : Click)
    (hc : c.offered d a f = true)
    (hs : s.traitValues.map Prod.fst = TRAIT_CONTAINERS.map Prod.fst) :
    (c.apply s).traitValues.map Prod.fst = TRAIT_CONTAINERS.map Prod.fst := by
  cases c with
  | trait t cat v =>
    simp only [Click.offered, Bool.and_eq_true, decide_eq_true_eq] at hc
    have hkey : t ∈ s.traitValues.map Prod.fst := by
      rw [hs]
      exact List.mem_map_of_mem Prod.fst hc.1.1
    obtain ⟨cur, hcur⟩ := getProp_of_key _ _ hkey
    simp only [Click.apply, clickTraitDot]
    split <;> rw [keys_setProp _ _ _ _ hcur, hs]
  | discipline t v => exact hs
  | advantage t v => exact hs
  | flaw t v => exact hs

theorem clicks_keys (d a f : List String) (clicks : List Click) :
    ∀ s, (∀ c ∈ clicks, c.offered d a f = true) →
      s.traitValues.map Prod.fst = TRAIT_CONTAINERS.map Prod.fst →
      (clicks.foldl Click.apply s).traitValues.map Prod.fst = TRAIT_CONTAINERS.map Prod.fst := by
  induction clicks with
  | nil => intro s _ hs; exact hs
  | cons c cs ih =>
    intro s hc hs
    rw [List.foldl_cons]
    apply ih
    · intro c2 hc2
      exact hc c2 (List.mem_cons_of_mem _ hc2)
    · exact click_keys d a f s c (hc c (List.mem_cons_self _ _)) hs

/-- C13: rating domains are an invariant of user interaction. Starting from the initial
ledger, after any sequence of dot clicks the page offers (values 1 to 5 on attributes,
skills, advantages and flaws, 1 to 3 on disciplines) every attribute rating is in [1,5],
every skill rating in [0,5], every discipline rating in [0,3] and every advantage and
flaw value in [0,5]; in particular every rating stays at or above its baseline. The
ledger keeps a rating for each of the nine attributes and twenty-seven skills. -/
theorem clicks_keep_ratings_in_domain (d a f : List String) (clicks : List Click)
    (h : ∀ c ∈ clicks, c.offered d a f = true) :
    ratingsInDomain (clicks.foldl Click.apply (initialState d a f)) ∧
    (clicks.foldl Click.apply (initialState d a f)).traitValues.map Prod.fst
      = ATTRIBUTE_NAMES ++ SKILL_NAMES :=
  ⟨clicks_inDomain d a f clicks _ h (initialState_inDomain d a f),
   (clicks_keys d a f clicks _ h
      (show (initializeDots TRAIT_CONTAINERS []).map Prod.fst = TRAIT_CONTAINERS.map Prod.fst
        by decide)).trans (by decide)⟩

/-- Witness of C13: four clicks on the page of `freshState`, among them a second click
on the same dot of an attribute and of a skill. -/
theorem clicks_keep_ratings_in_domain_witness :
    ratingsInDomain
      ([Click.trait "wits" "attributes" 5, .trait "wits" "attributes" 5,
        .trait "brawl" "skills" 4, .trait "brawl" "skills" 4, .discipline "Potence" 3,
        .advantage "Allies" 5, .flaw "Enemy" 2].foldl Click.apply
        (initialState ["Animalism", "Celerity", "Potence"] ["Allies", "Resources"] ["Enemy"])) :=
  (clicks_keep_ratings_in_domain ["Animalism", "Celerity", "Potence"] ["Allies", "Resources"]
    ["Enemy"] _ (by decide)).1

/-! ## Completion tracker (C15, C16, C17) -/

/-- C15: for every wizard state the final Submit step is complete if and only if every
prior step 0 to 5 is complete (the loop bound `TAB_CONFIG.length - 1` is 6); it adds no
condition of its own. -/
theorem review_step_is_aggregate (s : State) :
    TAB_CONFIG.length - 1 = 6 ∧
    (checkTabComplete s 6 = true ↔ ∀ i, i < 6 → checkTabComplete s i = true) := by
  refine ⟨by decide, ?_⟩
  have h6 : TAB_CONFIG.length - 1 = 6 := by decide
  simp only [checkTabComplete, h6, if_true, List.all_eq_true, List.mem_range]
  constructor
  · intro h i hi
    have hne : ¬ i = 6 := by omega
    rw [if_neg hne]
    exact h i hi
  · intro h i hi
    have hne : ¬ i = 6 := by omega
    have := h i hi
    rw [if_neg hne] at this
    exact this

/-- Instance of C15: `namedState` has the steps 0 to 5 complete and so the Submit step;
`noClanState` has the steps 1 to 5 complete but not the identity step, and so not the
Submit step. -/
theorem review_step_is_aggregate_witness :
    checkTabComplete namedState 6 = true ∧ checkTabComplete noClanState 0 = false ∧
    checkTabComplete noClanState 6 = false :=
  ⟨(review_step_is_aggregate namedState).2.mpr (by decide), by decide, by decide⟩

/-- C16, as the code has it: the Identity step is complete if and only if a clan is chosen
and two free-text fields, the full name and the concept, are non-empty after trimming;
no other field is read. -/
theorem identity_step_iff (s : State) :
    (checkTabComplete s 0 = true ↔
      trim s.full_name ≠ "" ∧ trim s.concept ≠ "" ∧ s.clan ≠ "") ∧
    (∀ s2 : State, s2.full_name = s.full_name → s2.concept = s.concept → s2.clan = s.clan →
      checkTabComplete s2 0 = checkTabComplete s 0) := by
  constructor
  · simp [checkTabComplete, checkStepComplete, and_assoc]
  · intro s2 h1 h2 h3
    simp [checkTabComplete, checkStepComplete, h1, h2, h3]

/-- Instance of C16's amended form: a whitespace-only name leaves the step incomplete. -/
theorem identity_step_iff_witness :
    checkTabComplete namedState 0 = true ∧
    checkTabComplete { namedState with full_name := "  \t" } 0 = false ∧
    checkTabComplete { namedState with concept := "" } 0 = false ∧
    checkTabComplete { namedState with clan := "" } 0 = false :=
  ⟨(identity_step_iff namedState).1.mpr (by decide), by decide, by decide, by decide⟩

/-- C16 fails as stated: there are no three distinct free-text fields each of which must
be non-empty. In `namedState` the sire, ambition, desire and background fields are empty
and the Identity step is complete, and any three distinct text fields include one of
these. -/
theorem no_third_required_text_field :
    checkTabComplete namedState 0 = true ∧
    namedState.sire = "" ∧ namedState.ambition = "" ∧ namedState.desire = "" ∧
    namedState.background = "" ∧
    ¬ ∃ f1 f2 f3 : TextField, f1 ≠ f2 ∧ f1 ≠ f3 ∧ f2 ≠ f3 ∧
      ∀ s : State,
        (trim (f1.value s) = "" ∨ trim (f2.value s) = "" ∨ trim (f3.value s) = "") →
          checkTabComplete s 0 = false := by
  have hc : checkTabComplete namedState 0 = true := by decide
  refine ⟨hc, rfl, rfl, rfl, rfl, ?_⟩
  rintro ⟨f1, f2, f3, h12, h13, h23, h⟩
  have hn := h namedState
  rw [hc] at hn
  cases f1 <;> cases f2 <;> cases f3 <;>
    first
    | exact absurd rfl h12
    | exact absurd rfl h13
    | exact absurd rfl h23
    | exact absurd (hn (by decide)) (by decide)

theorem validateForm_true_iff (s : State) :
    validateForm s = true ↔
      ((∀ g, groupSatisfied s g = true) ∧ s.attributePriorities.assigned = true ∧
        s.skillPriorities.assigned = true) := by
  have hlen : validateForm s = true ↔ validateFormErrors s = [] := by
    simp [validateForm, List.length_eq_zero]
  rw [hlen]
  by_cases ha : s.attributePriorities.assigned = true
  · by_cases hs : s.skillPriorities.assigned = true
    · rw [validateFormErrors_assigned s ha hs, List.map_eq_nil_iff, violatedGroups_eq_nil]
      simp [ha, hs]
    · rw [validateFormErrors_normal]
      simp [ha, hs]
  · rw [validateFormErrors_normal]
    simp [ha]

theorem checkTabComplete_one (s : State) :
    checkTabComplete s 1 = true ↔
      s.attributePriorities.assigned = true ∧ ∀ c, groupSatisfied s (.attr c) = true := by
  have h : checkTabComplete s 1 = checkStepComplete s 1 := rfl
  rw [h]
  simp only [checkStepComplete, not_assigned_eq, groupSatisfied]
  by_cases ha : s.attributePriorities.assigned = true
  · simp only [ha, Bool.not_true, Bool.false_eq_true, if_false, Bool.and_eq_true, true_and]
    constructor
    · rintro ⟨⟨h1, h2⟩, h3⟩ c
      cases c
      · exact h1
      · exact h2
      · exact h3
    · intro h
      exact ⟨⟨h .physical, h .social⟩, h .mental⟩
  · simp [ha]

theorem checkTabComplete_two (s : State) :
    checkTabComplete s 2 = true ↔
      s.skillPriorities.assigned = true ∧ ∀ c, groupSatisfied s (.skill c) = true := by
  have h : checkTabComplete s 2 = checkStepComplete s 2 := rfl
  rw [h]
  simp only [checkStepComplete, not_assigned_eq, groupSatisfied]
  by_cases ha : s.skillPriorities.assigned = true
  · simp only [ha, Bool.not_true, Bool.false_eq_true, if_false, Bool.and_eq_true, true_and]
    constructor
    · rintro ⟨⟨h1, h2⟩, h3⟩ c
      cases c
      · exact h1
      · exact h2
      · exact h3
    · intro h
      exact ⟨⟨h .physical, h .social⟩, h .mental⟩
  · simp [ha]

theorem checkTabComplete_three (s : State) :
    checkTabComplete s 3 = true ↔ groupSatisfied s .disciplines = true := by
  have h : checkTabComplete s 3 = checkStepComplete s 3 := rfl
  rw [h]
  simp only [checkStepComplete, groupSatisfied, inLineageMinimumMet_eq]
  by_cases h3 : disciplinesSpent s.disciplineValues = 3
  · simp only [h3, bne_self_eq_false, Bool.false_eq_true, if_false, beq_self_eq_true,
      Bool.true_and]
    cases hc : selectedClanEntry s.clan with
    | none => simp
    | some clan =>
      by_cases hl : clan.disciplines = []
      · simp [hl]
      · have hpos : clan.disciplines.length > 0 := List.length_pos.mpr hl
        have hne : clan.disciplines.isEmpty = false := by
          cases hd : clan.disciplines with
          | nil => exact absurd hd hl
          | cons _ _ => rfl
        simp [hpos, hne]
  · simp [h3]

/-- C17: the completion tracker is a projection of the validator: `validateForm()` returns
true if and only if the steps 1 to 5 (attributes, skills, disciplines, advantages, flaws)
are all complete. -/
theorem tracker_projects_validator (s : State) :
    validateForm s = true ↔
      (checkTabComplete s 1 = true ∧ checkTabComplete s 2 = true ∧
        checkTabComplete s 3 = true ∧ checkTabComplete s 4 = true ∧
        checkTabComplete s 5 = true) := by
  rw [validateForm_true_iff, checkTabComplete_one, checkTabComplete_two,
    checkTabComplete_three]
  have h4 : checkTabComplete s 4 = true ↔ groupSatisfied s .advantages = true := by
    simp [checkTabComplete, checkStepComplete, groupSatisfied]
  have h5 : checkTabComplete s 5 = true ↔ groupSatisfied s .flaws = true := by
    simp [checkTabComplete, checkStepComplete, groupSatisfied]
  rw [h4, h5]
  constructor
  · rintro ⟨hg, ha, hs⟩
    exact ⟨⟨ha, fun c => hg _⟩, ⟨hs, fun c => hg _⟩, hg _, hg _, hg _⟩
  · rintro ⟨⟨ha, hac⟩, ⟨hs, hsc⟩, hd, hadv, hf⟩
    refine ⟨?_, ha, hs⟩
    intro g
    rcases g with c | c | _ | _ | _
    · exact hac c
    · exact hsc c
    · exact hd
    · exact hadv
    · exact hf

/-- Instance of C17: in `noClanState` the validator and the five steps all pass, in
`unevenState` the validator and four of the steps fail. -/
theorem tracker_projects_validator_witness :
    validateForm noClanState = true ∧ validateForm unevenState = false ∧
    checkTabComplete unevenState 1 = true ∧ checkTabComplete unevenState 2 = false :=
  ⟨(tracker_projects_validator noClanState).mpr (by decide), by decide, by decide, by decide⟩

/-! ## Loading a stored character or a draft (C14) -/

theorem mem_restoreValues {α : Type} (saved : List (String × α)) :
    ∀ (values : List (String × α)) (e : String × α),
      e ∈ restoreValues saved values → e ∈ values ∨ e ∈ saved := by
  induction saved with
  | nil => intro values e he; exact Or.inl he
  | cons x xs ih =>
    intro values e he
    simp only [restoreValues, List.foldl_cons] at he
    rcases ih (setProp values x.1 x.2) e he with h | h
    · rcases mem_setProp _ _ _ _ h with h1 | h1
      · exact Or.inl h1
      · exact Or.inr (h1 ▸ List.mem_cons_self _ _)
    · exact Or.inr (List.mem_cons_of_mem _ h)

theorem mem_populateTraits (map : List (String × Int)) :
    ∀ (tv : List (String × Int)) (e : String × Int),
      e ∈ populateTraits map tv → e ∈ tv ∨ ∃ x ∈ map, e = (toLowerCase x.1, x.2) := by
  induction map with
  | nil => intro tv e he; exact Or.inl he
  | cons x xs ih =>
    intro tv e he
    simp only [populateTraits, List.foldl_cons] at he
    have hstep : ∀ e, e ∈ (if hasOwnProperty tv (toLowerCase x.1) = true
        then setProp tv (toLowerCase x.1) x.2 else tv) →
        e ∈ tv ∨ e = (toLowerCase x.1, x.2) := by
      intro e he
      split at he
      · exact mem_setProp _ _ _ _ he
      · exact Or.inl he
    rcases ih _ e he with h | ⟨y, hy, hye⟩
    · rcases hstep e h with h1 | h1
      · exact Or.inl h1
      · exact Or.inr ⟨x, List.mem_cons_self _ _, h1⟩
    · exact Or.inr ⟨y, List.mem_cons_of_mem _ hy, hye⟩

theorem mem_renderDisciplines (catalog : List String) :
    ∀ (dv : List (String × Int)) (e : String × Int),
      e ∈ renderDisciplines catalog dv → e ∈ dv ∨ (e.1 ∈ catalog ∧ e.2 = 0) := by
  induction catalog with
  | nil => intro dv e he; exact Or.inl he
  | cons t ts ih =>
    intro dv e he
    simp only [renderDisciplines, List.foldl_cons] at he
    rcases ih _ e he with h | ⟨h1, h2⟩
    · rcases mem_setProp _ _ _ _ h with h1 | h1
      · exact Or.inl h1
      · cases hg : getProp dv t with
        | none =>
          rw [hg] at h1
          exact Or.inr ⟨by rw [h1]; exact List.mem_cons_self _ _, by rw [h1]; rfl⟩
        | some v =>
          rw [hg] at h1
          left
          unfold getProp at hg
          cases hf : dv.find? (fun e => e.1 == t) with
          | none => simp [hf] at hg
          | some x =>
            simp only [hf, Option.map_some', Option.some.injEq] at hg
            have hx := List.mem_of_find?_eq_some hf
            have hk : x.1 = t := by simpa using List.find?_some hf
            have : e = x := by rw [h1]; simp [← hk, ← hg]
            rw [this]; exact hx
    · exact Or.inr ⟨List.mem_cons_of_mem _ h1, h2⟩

theorem mem_clanChanged (page : Page) (s : State) (e : String × Int)
    (he : e ∈ (clanChanged page s).disciplineValues) :
    e ∈ s.disciplineValues ∨ (e.1 ∈ page.disciplinesData ∧ e.2 = 0) := by
  unfold clanChanged at he
  split at he
  · split at he
    · exact mem_renderDisciplines _ _ _ he
    · exact Or.inl he
  · exact Or.inl he

theorem clanChanged_traitValues (page : Page) (s : State) :
    (clanChanged page s).traitValues = s.traitValues := by
  unfold clanChanged
  split
  · split <;> rfl
  · rfl

theorem clanChanged_frame (page : Page) (s : State) :
    (clanChanged page s).traitValues = s.traitValues ∧
    (clanChanged page s).advantageValues = s.advantageValues ∧
    (clanChanged page s).flawValues = s.flawValues ∧
    (clanChanged page s).attributePriorities = s.attributePriorities ∧
    (clanChanged page s).skillPriorities = s.skillPriorities := by
  unfold clanChanged
  split
  · split <;> exact ⟨rfl, rfl, rfl, rfl, rfl⟩
  · exact ⟨rfl, rfl, rfl, rfl, rfl⟩

theorem populateSelectFields_traitValues (page : Page) (s : State) (data : CharacterData) :
    (populateSelectFields page s data).traitValues = s.traitValues := by
  unfold populateSelectFields
  cases data.generation <;> (repeat' split) <;> simp [(clanChanged_frame page _).1]

theorem mem_populateSelectFields (page : Page) (s : State) (data : CharacterData)
    (e : String × Int) (he : e ∈ (populateSelectFields page s data).disciplineValues) :
    e ∈ s.disciplineValues ∨ (e.1 ∈ page.disciplinesData ∧ e.2 = 0) := by
  have hd : (populateSelectFields page s data).disciplineValues =
      if truthy data.clan then
        (clanChanged page
          { s with clan := selectValue page.clanOptions (data.clan.getD "") }).disciplineValues
      else s.disciplineValues := by
    unfold populateSelectFields
    cases data.generation <;> (repeat' split) <;> simp_all
  rw [hd] at he
  split at he
  · have := mem_clanChanged page _ e he
    exact this
  · exact Or.inl he

theorem populateAdvantagesAndFlaws_frame (s : State) (data : CharacterData) :
    ∀ s2, (populateAdvantagesAndFlaws s data = .ok s2 ∨
        populateAdvantagesAndFlaws s data = .error s2) →
      s2.traitValues = s.traitValues ∧ s2.disciplineValues = s.disciplineValues := by
  intro s2 h
  simp only [populateAdvantagesAndFlaws] at h
  split at h
  · rcases h with h | h
    · exact absurd h (by simp)
    · simp only [Except.error.injEq] at h
      rw [← h]; exact ⟨rfl, rfl⟩
  · split at h
    · rcases h with h | h
      · exact absurd h (by simp)
      · simp only [Except.error.injEq] at h
        rw [← h]; exact ⟨rfl, rfl⟩
    · rcases h with h | h
      · simp only [Except.ok.injEq] at h
        rw [← h]; exact ⟨rfl, rfl⟩
      · exact absurd h (by simp)

theorem populatedState_ratings (page : Page) (s : State) (data : CharacterData) :
    (populatedState page s data).traitValues =
      populateTraits (data.skills.getD []) (populateTraits (data.attributes.getD [])
        s.traitValues) ∧
    (populatedState page s data).disciplineValues =
      populateDisciplines (data.disciplines.getD [])
        (populateSelectFields page (populateBioFields s data) data).disciplineValues := by
  have hframe := populateAdvantagesAndFlaws_frame
    (populateRatings (populateSelectFields page (populateBioFields s data) data) data) data
  have hpop : populateFormFromCharacterData page s data = populateAdvantagesAndFlaws
      (populateRatings (populateSelectFields page (populateBioFields s data) data) data)
      data := rfl
  have htv : (populateRatings (populateSelectFields page (populateBioFields s data) data)
      data).traitValues = populateTraits (data.skills.getD [])
        (populateTraits (data.attributes.getD []) s.traitValues) := by
    simp only [populateRatings, populateSelectFields_traitValues]
    rfl
  unfold populatedState
  rw [hpop]
  cases hr : populateAdvantagesAndFlaws
      (populateRatings (populateSelectFields page (populateBioFields s data) data) data)
      data with
  | ok s2 =>
    obtain ⟨h1, h2⟩ := hframe s2 (Or.inl hr)
    exact ⟨by simp only [h1, htv], by simp only [h2]; rfl⟩
  | error s2 =>
    obtain ⟨h1, h2⟩ := hframe s2 (Or.inr hr)
    exact ⟨by simp only [h1, htv], by simp only [h2]; rfl⟩

theorem getProp_append {α : Type} (l1 l2 : List (String × α)) (k : String) :
    getProp (l1 ++ l2) k =
      match getProp l1 k with
      | some r => some r
      | none => getProp l2 k := by
  induction l1 with
  | nil => simp [getProp]
  | cons e l ih =>
    rw [List.cons_append, getProp_cons, getProp_cons, ih]
    by_cases h : e.1 = k <;> simp [h]

/-- Restoring a saved object is last-write-wins per key. -/
theorem getProp_restoreValues {α : Type} (saved : List (String × α)) (k : String) :
    ∀ values : List (String × α), getProp (restoreValues saved values) k =
      match getProp saved.reverse k with
      | some r => some r
      | none => getProp values k := by
  induction saved with
  | nil => intro values; simp [restoreValues, getProp]
  | cons e l ih =>
    intro values
    have hstep : restoreValues (e :: l) values = restoreValues l (setProp values e.1 e.2) := rfl
    rw [hstep, ih, List.reverse_cons, getProp_append, getProp_setProp]
    cases getProp l.reverse k with
    | some r => rfl
    | none =>
      simp only [getProp_cons, getProp]
      by_cases h : e.1 = k <;> simp [h]

theorem getProp_restoreValues_of_mem {α : Type} (saved values : List (String × α))
    (n : String) (r : α) (hnd : (saved.map Prod.fst).Nodup) (hmem : (n, r) ∈ saved) :
    getProp (restoreValues saved values) n = some r := by
  have hrev : getProp saved.reverse n = some r := by
    apply getProp_of_mem n r saved.reverse
    · rw [List.map_reverse]; exact List.nodup_reverse.mpr hnd
    · exact List.mem_reverse.mpr hmem
  rw [getProp_restoreValues, hrev]

theorem restoreSelects_traitValues (page : Page) (s : State) (draft : Draft) :
    (restoreSelects page s draft).traitValues = s.traitValues := by
  unfold restoreSelects
  (repeat' split) <;> simp [(clanChanged_frame page _).1]

theorem mem_restoreSelects (page : Page) (s : State) (draft : Draft)
    (e : String × Int) (he : e ∈ (restoreSelects page s draft).disciplineValues) :
    e ∈ s.disciplineValues ∨ (e.1 ∈ page.disciplinesData ∧ e.2 = 0) := by
  have hd : (restoreSelects page s draft).disciplineValues =
      if truthy draft.clan then
        (clanChanged page
          { s with clan := selectValue page.clanOptions (draft.clan.getD "") }).disciplineValues
      else s.disciplineValues := by
    unfold restoreSelects
    (repeat' split) <;> simp_all
  rw [hd] at he
  split at he
  · have := mem_clanChanged page _ e he
    exact this
  · exact Or.inl he

theorem restoreDraftPriorities_ledger (s : State) (draft : Draft) :
    (restoreDraftPriorities s draft).traitValues = s.traitValues ∧
    (restoreDraftPriorities s draft).disciplineValues = s.disciplineValues := by
  unfold restoreDraftPriorities
  cases draft.attributePriorities <;> cases draft.skillPriorities <;> exact ⟨rfl, rfl⟩

theorem applyDraftToForm_ratings (page : Page) (s : State) (draft : Draft) :
    (applyDraftToForm page s draft).traitValues =
      restoreValues (draft.traitValues.getD []) s.traitValues ∧
    (applyDraftToForm page s draft).disciplineValues =
      restoreValues (draft.disciplineValues.getD [])
        (restoreSelects page (restoreFormFields s draft) draft).disciplineValues := by
  simp only [applyDraftToForm, restoreLedger, (restoreDraftPriorities_ledger _ draft).1,
    (restoreDraftPriorities_ledger _ draft).2, restoreSelects_traitValues]
  exact ⟨rfl, trivial⟩

/-- C14, as the code has it: no write of a rating is clamped. For every character record
loaded by `populateFormFromCharacterData` and every draft applied by `applyDraftToForm`,
each attribute, skill and discipline rating of the resulting ledger is the rating the
ledger held before, or a rating the record or draft carries (a record's attribute or
skill under its lower-cased name), or the 0 of a newly rendered catalog discipline; a
discipline of the record and a trait or discipline of the draft is stored with the rating
carried, whatever that rating is. -/
theorem loaded_ratings_stored_as_carried (page : Page) (s : State) :
    (∀ data : CharacterData,
      (∀ e ∈ (populatedState page s data).traitValues, e ∈ s.traitValues ∨
        ∃ x ∈ data.attributes.getD [] ++ data.skills.getD [], e = (toLowerCase x.1, x.2)) ∧
      (∀ e ∈ (populatedState page s data).disciplineValues, e ∈ s.disciplineValues ∨
        e ∈ data.disciplines.getD [] ∨ (e.1 ∈ page.disciplinesData ∧ e.2 = 0)) ∧
      (∀ m n r, data.disciplines = some m → (m.map Prod.fst).Nodup → (n, r) ∈ m →
        getProp (populatedState page s data).disciplineValues n = some r)) ∧
    (∀ draft : Draft,
      (∀ e ∈ (applyDraftToForm page s draft).traitValues, e ∈ s.traitValues ∨
        e ∈ draft.traitValues.getD []) ∧
      (∀ e ∈ (applyDraftToForm page s draft).disciplineValues, e ∈ s.disciplineValues ∨
        e ∈ draft.disciplineValues.getD [] ∨ (e.1 ∈ page.disciplinesData ∧ e.2 = 0)) ∧
      (∀ m n r, draft.traitValues = some m → (m.map Prod.fst).Nodup → (n, r) ∈ m →
        getProp (applyDraftToForm page s draft).traitValues n = some r) ∧
      (∀ m n r, draft.disciplineValues = some m → (m.map Prod.fst).Nodup → (n, r) ∈ m →
        getProp (applyDraftToForm page s draft).disciplineValues n = some r)) := by
  constructor
  · intro data
    obtain ⟨htv, hdv⟩ := populatedState_ratings page s data
    refine ⟨?_, ?_, ?_⟩
    · intro e he
      rw [htv] at he
      rcases mem_populateTraits _ _ e he with h | ⟨x, hx, hxe⟩
      · rcases mem_populateTraits _ _ e h with h1 | ⟨x, hx, hxe⟩
        · exact Or.inl h1
        · exact Or.inr ⟨x, List.mem_append_left _ hx, hxe⟩
      · exact Or.inr ⟨x, List.mem_append_right _ hx, hxe⟩
    · intro e he
      rw [hdv] at he
      rcases mem_restoreValues _ _ e he with h | h
      · rcases mem_populateSelectFields page _ data e h with h1 | h1
        · exact Or.inl h1
        · exact Or.inr (Or.inr h1)
      · exact Or.inr (Or.inl h)
    · intro m n r hm hnd hmem
      rw [hdv, hm]
      exact getProp_restoreValues_of_mem m _ n r hnd hmem
  · intro draft
    obtain ⟨htv, hdv⟩ := applyDraftToForm_ratings page s draft
    refine ⟨?_, ?_, ?_, ?_⟩
    · intro e he
      rw [htv] at he
      exact mem_restoreValues _ _ e he
    · intro e he
      rw [hdv] at he
      rcases mem_restoreValues _ _ e he with h | h
      · rcases mem_restoreSelects page _ draft e h with h1 | h1
        · exact Or.inl h1
        · exact Or.inr (Or.inr h1)
      · exact Or.inr (Or.inl h)
    · intro m n r hm hnd hmem
      rw [htv, hm]
      exact getProp_restoreValues_of_mem m _ n r hnd hmem
    · intro m n r hm hnd hmem
      rw [hdv, hm]
      exact getProp_restoreValues_of_mem m _ n r hnd hmem

/-- Instance of C14's amended form: the record's Potence 5 and the draft's Potence 4 are
stored as carried. -/
theorem loaded_ratings_stored_as_carried_witness :
    getProp (populatedState examplePage freshState overratedRecord).disciplineValues "Potence"
      = some 5 ∧
    getProp (applyDraftToForm examplePage freshState overratedDraft).disciplineValues "Potence"
      = some 4 ∧
    getProp (applyDraftToForm examplePage freshState overratedDraft).traitValues "brawl"
      = some 6 :=
  ⟨((loaded_ratings_stored_as_carried examplePage freshState).1 overratedRecord).2.2
      [("Potence", 5)] "Potence" 5 rfl (by decide) (by decide),
   ((loaded_ratings_stored_as_carried examplePage freshState).2 overratedDraft).2.2.2
      [("Potence", 4)] "Potence" 4 rfl (by decide) (by decide),
   ((loaded_ratings_stored_as_carried examplePage freshState).2 overratedDraft).2.2.1
      [("strength", 0), ("brawl", 6)] "brawl" 6 rfl (by decide) (by decide)⟩

/-- C14 fails as stated: loading `overratedRecord` into the initial ledger leaves strength
at 9, wits at 0, brawl at 7 and Potence at 5, and applying `overratedDraft` leaves
strength at 0, brawl at 6 and Potence at 4; none of these is in its domain. -/
theorem loaded_ratings_not_clamped :
    getProp (populatedState examplePage freshState overratedRecord).traitValues "strength"
      = some 9 ∧
    getProp (populatedState examplePage freshState overratedRecord).traitValues "wits"
      = some 0 ∧
    getProp (populatedState examplePage freshState overratedRecord).traitValues "brawl"
      = some 7 ∧
    getProp (populatedState examplePage freshState overratedRecord).disciplineValues "Potence"
      = some 5 ∧
    getProp (applyDraftToForm examplePage freshState overratedDraft).traitValues "strength"
      = some 0 ∧
    getProp (applyDraftToForm examplePage freshState overratedDraft).disciplineValues "Potence"
      = some 4 ∧
    ¬ ratingsInDomain (populatedState examplePage freshState overratedRecord) ∧
    ¬ ratingsInDomain (applyDraftToForm examplePage freshState overratedDraft) := by
  refine ⟨by decide, by decide, by decide, by decide, by decide, by decide, by decide,
    by decide⟩

/-! ## Submission formatter (C18, C19) -/

theorem mem_of_getProp {α : Type} (obj : List (String × α)) (k : String) (v : α)
    (h : getProp obj k = some v) : (k, v) ∈ obj := by
  induction obj with
  | nil => simp [getProp] at h
  | cons e l ih =>
    rw [getProp_cons] at h
    by_cases hk : e.1 = k
    · simp only [hk, if_true, Option.some.injEq] at h
      have : e = (k, v) := by rw [← hk, ← h]
      rw [this]; exact List.mem_cons_self _ _
    · simp only [hk, if_false] at h
      exact List.mem_cons_of_mem _ (ih h)

theorem getProp_reverse {α : Type} (obj : List (String × α)) (k : String)
    (hnd : (obj.map Prod.fst).Nodup) : getProp obj.reverse k = getProp obj k := by
  have hndr : (obj.reverse.map Prod.fst).Nodup := by
    rw [List.map_reverse]; exact List.nodup_reverse.mpr hnd
  cases h : getProp obj k with
  | some v =>
    exact getProp_of_mem k v obj.reverse hndr (List.mem_reverse.mpr (mem_of_getProp obj k v h))
  | none =>
    cases hr : getProp obj.reverse k with
    | none => rfl
    | some v =>
      have hm := List.mem_reverse.mp (mem_of_getProp obj.reverse k v hr)
      rw [getProp_of_mem k v obj hnd hm] at h
      exact absurd h (by simp)

theorem getProp_map_entries {α β : Type} (g : String × α → β) (obj : List (String × α))
    (k : String) :
    getProp (obj.map (fun e => (e.1, g e))) k = (getProp obj k).map (fun v => g (k, v)) := by
  induction obj with
  | nil => simp [getProp]
  | cons e l ih =>
    rw [List.map_cons, getProp_cons, getProp_cons, ih]
    by_cases hk : e.1 = k
    · simp only [hk, if_true, Option.map_some', Option.some.injEq]
      rw [← hk]
    · simp [hk]

theorem getProp_filter {α : Type} (p : String × α → Bool) (obj : List (String × α))
    (k : String) (hnd : (obj.map Prod.fst).Nodup) :
    getProp (obj.filter p) k =
      match getProp obj k with
      | some v => if p (k, v) then some v else none
      | none => none := by
  induction obj with
  | nil => simp [getProp]
  | cons e l ih =>
    have hnd2 : (l.map Prod.fst).Nodup := (List.nodup_cons.mp hnd).2
    have hnot : e.1 ∉ l.map Prod.fst := (List.nodup_cons.mp hnd).1
    rw [getProp_cons]
    by_cases hk : e.1 = k
    · have he : e = (k, e.2) := by rw [← hk]
      have hnone : getProp l k = none := by
        cases hg : getProp l k with
        | none => rfl
        | some v =>
          exact absurd (List.mem_map_of_mem Prod.fst (mem_of_getProp l k v hg))
            (by rw [← hk] at *; exact hnot)
      simp only [hk, if_true]
      by_cases hp : p e = true
      · rw [List.filter_cons_of_pos hp, getProp_cons]
        rw [he] at hp
        simp [hk, hp]
      · rw [List.filter_cons_of_neg hp, ih hnd2, hnone]
        rw [he] at hp
        simp [hp]
    · simp only [hk, if_false]
      by_cases hp : p e = true
      · rw [List.filter_cons_of_pos hp, getProp_cons, if_neg hk, ih hnd2]
      · rw [List.filter_cons_of_neg hp, ih hnd2]

theorem foldl_conditional_setProp {α β : Type} (p : String × α → Bool) (g : String × α → β)
    (obj : List (String × α)) :
    ∀ out : List (String × β),
      obj.foldl (fun out e => if p e then setProp out e.1 (g e) else out) out =
        restoreValues ((obj.filter p).map (fun e => (e.1, g e))) out := by
  induction obj with
  | nil => intro out; rfl
  | cons e l ih =>
    intro out
    rw [List.foldl_cons, ih]
    by_cases hp : p e = true
    · rw [List.filter_cons_of_pos hp, if_pos hp]
      rfl
    · rw [List.filter_cons_of_neg hp, if_neg hp]

/-- Reading a key of an object built by a filtering loop over an object `obj`: the key is
there exactly when `obj` has it with an entry that passes the filter. -/
theorem getProp_foldl_conditional {α β : Type} (p : String × α → Bool) (g : String × α → β)
    (obj : List (String × α)) (k : String) (hnd : (obj.map Prod.fst).Nodup) :
    getProp (obj.foldl (fun out e => if p e then setProp out e.1 (g e) else out) []) k =
      match getProp obj k with
      | some v => if p (k, v) then some (g (k, v)) else none
      | none => none := by
  have hsub : ((obj.filter p).map Prod.fst).Nodup :=
    hnd.sublist ((List.filter_sublist obj).map Prod.fst)
  have hkeys : (((obj.filter p).map (fun e => (e.1, g e))).map Prod.fst).Nodup := by
    rw [List.map_map]
    exact hsub
  rw [foldl_conditional_setProp, getProp_restoreValues, getProp_reverse _ _ hkeys,
    getProp_map_entries, getProp_filter p obj k hnd]
  cases getProp obj k with
  | none => rfl
  | some v =>
    by_cases hp : p (k, v) = true
    · simp [hp]
    · simp [hp, getProp]

theorem getProp_characterData_traits (inputs : List (String × String)) (s : State)
    (hnd : (s.traitValues.map Prod.fst).Nodup) (t : String) (r : Int)
    (hr : getProp s.traitValues t = some r)
    (ht : t ∉ ["disciplines", "advantages", "flaws"]) :
    getProp (characterData inputs s) t = some (.num r) := by
  simp only [List.mem_cons, List.mem_singleton, List.not_mem_nil, or_false, not_or] at ht
  obtain ⟨h1, h2, h3⟩ := ht
  simp only [characterData]
  rw [getProp_setProp, if_neg (fun h => h3 h.symm), getProp_setProp,
    if_neg (fun h => h2 h.symm), getProp_setProp, if_neg (fun h => h1 h.symm)]
  have hfold : ∀ base : List (String × PayloadValue),
      s.traitValues.foldl (fun cd e => setProp cd e.1 (PayloadValue.num e.2)) base =
        restoreValues (s.traitValues.map (fun e => (e.1, PayloadValue.num e.2))) base := by
    intro base
    unfold restoreValues
    rw [List.foldl_map]
  have hkeys : ((s.traitValues.map (fun e => (e.1, PayloadValue.num e.2))).map Prod.fst).Nodup := by
    rw [List.map_map]
    exact hnd
  rw [hfold, getProp_restoreValues, getProp_reverse _ _ hkeys,
    getProp_map_entries (fun e : String × Int => PayloadValue.num e.2), hr]
  rfl

theorem getProp_characterData_objects (inputs : List (String × String)) (s : State) :
    getProp (characterData inputs s) "disciplines"
      = some (.ratings (submittedDisciplines s.disciplineValues)) ∧
    getProp (characterData inputs s) "advantages"
      = some (.entries (submittedEntries inputs "advantage" s.advantageValues)) ∧
    getProp (characterData inputs s) "flaws"
      = some (.entries (submittedEntries inputs "flaw" s.flawValues)) := by
  simp only [characterData]
  refine ⟨?_, ?_, ?_⟩
  · rw [getProp_setProp, if_neg (by decide), getProp_setProp, if_neg (by decide),
      getProp_setProp, if_pos rfl]
  · rw [getProp_setProp, if_neg (by decide), getProp_setProp, if_pos rfl]
  · rw [getProp_setProp, if_pos rfl]

/-- C18: for every ledger (an object: no key twice), the submitted `character_data` has
every attribute and skill of `traitValues` with its rating, skills rated 0 included, and
`character_data.disciplines` has exactly the disciplines whose rating is greater than 0,
each with its rating. -/
theorem traits_all_disciplines_positive (inputs : List (String × String)) (s : State)
    (hnd : (s.traitValues.map Prod.fst).Nodup)
    (hndd : (s.disciplineValues.map Prod.fst).Nodup) :
    (∀ t r, getProp s.traitValues t = some r → t ∉ ["disciplines", "advantages", "flaws"] →
      getProp (characterData inputs s) t = some (.num r)) ∧
    getProp (characterData inputs s) "disciplines"
      = some (.ratings (submittedDisciplines s.disciplineValues)) ∧
    (∀ n r, getProp (submittedDisciplines s.disciplineValues) n = some r ↔
      (getProp s.disciplineValues n = some r ∧ 0 < r)) := by
  refine ⟨fun t r hr ht => getProp_characterData_traits inputs s hnd t r hr ht,
    (getProp_characterData_objects inputs s).1, ?_⟩
  intro n r
  have h := getProp_foldl_conditional (fun e : String × Int => decide (e.2 > 0))
    (fun e : String × Int => e.2) s.disciplineValues n hndd
  have hdef : submittedDisciplines s.disciplineValues =
      s.disciplineValues.foldl (fun out e =>
        if (fun e : String × Int => decide (e.2 > 0)) e = true
        then setProp out e.1 ((fun e : String × Int => e.2) e) else out) [] := by
    unfold submittedDisciplines
    simp only [decide_eq_true_eq]
  rw [hdef, h]
  cases hg : getProp s.disciplineValues n with
  | none => simp
  | some v =>
    by_cases hv : v > 0
    · simp only [hv, decide_True, if_true, Option.some.injEq]
      constructor
      · intro hvr; subst hvr; exact ⟨rfl, hv⟩
      · intro hh; exact hh.1
    · simp only [hv, decide_False, Bool.false_eq_true, if_false]
      constructor
      · intro hn; exact absurd hn (by simp)
      · rintro ⟨hvr, hpos⟩
        simp only [Option.some.injEq] at hvr
        subst hvr
        exact absurd hpos hv

/-- Witness of C18: in `submittingState` the skill drive, rated 0, is submitted with 0 and
the discipline Animalism, rated 0, is omitted while Potence is submitted with 2. -/
theorem traits_all_disciplines_positive_witness :
    getProp (characterData exampleInputs submittingState) "drive" = some (.num 0) ∧
    getProp (characterData exampleInputs submittingState) "strength" = some (.num 4) ∧
    getProp (submittedDisciplines submittingState.disciplineValues) "Animalism" = none ∧
    getProp (submittedDisciplines submittingState.disciplineValues) "Potence" = some 2 :=
  ⟨(traits_all_disciplines_positive exampleInputs submittingState (by decide) (by decide)).1
      "drive" 0 (by decide) (by decide),
   (traits_all_disciplines_positive exampleInputs submittingState (by decide) (by decide)).1
      "strength" 4 (by decide) (by decide),
   by decide,
   ((traits_all_disciplines_positive exampleInputs submittingState (by decide)
      (by decide)).2.2 "Potence" 2).mpr (by decide)⟩

theorem filledInput_eq_some (inputs : List (String × String)) (id text : String) :
    filledInput inputs id = some text ↔ (getProp inputs id = some text ∧ text ≠ "") := by
  unfold filledInput
  cases getProp inputs id with
  | none => simp
  | some v =>
    by_cases hv : v = ""
    · subst hv
      simp only [bne_self_eq_false, Bool.false_eq_true, if_false, Option.some.injEq]
      constructor
      · intro h; exact absurd h (by simp)
      · rintro ⟨h1, h2⟩; exact absurd h1.symm h2
    · have hb : (v != "") = true := by simpa using hv
      simp only [hb, if_true, Option.some.injEq]
      constructor
      · intro h; subst h; exact ⟨rfl, hv⟩
      · intro h; exact h.1

theorem submittedEntry_eq (inputs : List (String × String)) (kind n : String) (v : Int) :
    submittedEntry inputs kind n v =
      [("value", FieldValue.num v)] ++
      (match filledInput inputs (qualifierInputId kind "instance" n) with
       | some a => [("instance", FieldValue.str a)]
       | none => []) ++
      (match filledInput inputs (qualifierInputId kind "specialty" n) with
       | some b => [("specialty", FieldValue.str b)]
       | none => []) := by
  unfold submittedEntry filledInput
  cases getProp inputs (qualifierInputId kind "instance" n) with
  | none =>
    cases getProp inputs (qualifierInputId kind "specialty" n) with
    | none => rfl
    | some b => by_cases hb : b = "" <;> simp [hb, setProp]
  | some a =>
    cases getProp inputs (qualifierInputId kind "specialty" n) with
    | none => by_cases ha : a = "" <;> simp [ha, setProp]
    | some b => by_cases ha : a = "" <;> by_cases hb : b = "" <;> simp [ha, hb, setProp]

theorem getProp_entry_fields (v : Int) (qi qs : Option String) :
    getProp ([("value", FieldValue.num v)] ++
      (match qi with
       | some a => [("instance", FieldValue.str a)]
       | none => []) ++
      (match qs with
       | some b => [("specialty", FieldValue.str b)]
       | none => [])) "value" = some (.num v) ∧
    getProp ([("value", FieldValue.num v)] ++
      (match qi with
       | some a => [("instance", FieldValue.str a)]
       | none => []) ++
      (match qs with
       | some b => [("specialty", FieldValue.str b)]
       | none => [])) "instance" = qi.map FieldValue.str ∧
    getProp ([("value", FieldValue.num v)] ++
      (match qi with
       | some a => [("instance", FieldValue.str a)]
       | none => []) ++
      (match qs with
       | some b => [("specialty", FieldValue.str b)]
       | none => [])) "specialty" = qs.map FieldValue.str ∧
    (∀ k ∈ ([("value", FieldValue.num v)] ++
      (match qi with
       | some a => [("instance", FieldValue.str a)]
       | none => []) ++
      (match qs with
       | some b => [("specialty", FieldValue.str b)]
       | none => [])).map Prod.fst, k ∈ ["value", "instance", "specialty"]) := by
  cases qi <;> cases qs <;> simp [getProp, List.find?]

theorem map_str_eq_some (q : Option String) (t : FieldValue) :
    q.map FieldValue.str = some t ↔ ∃ text, t = .str text ∧ q = some text := by
  cases q with
  | none => simp
  | some a =>
    simp only [Option.map_some', Option.some.injEq]
    constructor
    · intro h; exact ⟨a, h.symm, rfl⟩
    · rintro ⟨text, h1, h2⟩; rw [h1, h2]

theorem submittedEntry_shape (inputs : List (String × String)) (kind n : String) (v : Int) :
    getProp (submittedEntry inputs kind n v) "value" = some (.num v) ∧
    (∀ t, getProp (submittedEntry inputs kind n v) "instance" = some t ↔
      ∃ text, t = .str text ∧
        getProp inputs (qualifierInputId kind "instance" n) = some text ∧ text ≠ "") ∧
    (∀ t, getProp (submittedEntry inputs kind n v) "specialty" = some t ↔
      ∃ text, t = .str text ∧
        getProp inputs (qualifierInputId kind "specialty" n) = some text ∧ text ≠ "") ∧
    (∀ k ∈ (submittedEntry inputs kind n v).map Prod.fst,
      k ∈ ["value", "instance", "specialty"]) := by
  rw [submittedEntry_eq]
  obtain ⟨h1, h2, h3, h4⟩ := getProp_entry_fields v
    (filledInput inputs (qualifierInputId kind "instance" n))
    (filledInput inputs (qualifierInputId kind "specialty" n))
  refine ⟨h1, ?_, ?_, h4⟩
  · intro t
    rw [h2, map_str_eq_some]
    constructor
    · rintro ⟨text, ht, hq⟩
      exact ⟨text, ht, (filledInput_eq_some _ _ _).mp hq⟩
    · rintro ⟨text, ht, hq⟩
      exact ⟨text, ht, (filledInput_eq_some _ _ _).mpr hq⟩
  · intro t
    rw [h3, map_str_eq_some]
    constructor
    · rintro ⟨text, ht, hq⟩
      exact ⟨text, ht, (filledInput_eq_some _ _ _).mp hq⟩
    · rintro ⟨text, ht, hq⟩
      exact ⟨text, ht, (filledInput_eq_some _ _ _).mpr hq⟩

/-- C19: for every ledger (an object: no key twice), the submitted advantages (resp.
flaws) map has exactly the entries whose value is greater than 0; each submitted entry
carries that value, an `instance` field exactly when its instance input exists and is not
empty, a `specialty` field exactly when its specialty input exists and is not empty, and
no other field. -/
theorem submitted_entries_exact (inputs : List (String × String)) (s : State) :
    getProp (characterData inputs s) "advantages"
      = some (.entries (submittedEntries inputs "advantage" s.advantageValues)) ∧
    getProp (characterData inputs s) "flaws"
      = some (.entries (submittedEntries inputs "flaw" s.flawValues)) ∧
    (∀ (kind : String) (values : List (String × Entry)), (values.map Prod.fst).Nodup →
      ∀ n : String,
        (∀ data, getProp (submittedEntries inputs kind values) n = some data ↔
          ∃ e, getProp values n = some e ∧ 0 < e.value ∧
            data = submittedEntry inputs kind n e.value) ∧
        (∀ v : Int,
          getProp (submittedEntry inputs kind n v) "value" = some (.num v) ∧
          (∀ t, getProp (submittedEntry inputs kind n v) "instance" = some t ↔
            ∃ text, t = .str text ∧
              getProp inputs (qualifierInputId kind "instance" n) = some text ∧ text ≠ "") ∧
          (∀ t, getProp (submittedEntry inputs kind n v) "specialty" = some t ↔
            ∃ text, t = .str text ∧
              getProp inputs (qualifierInputId kind "specialty" n) = some text ∧ text ≠ "") ∧
          (∀ k ∈ (submittedEntry inputs kind n v).map Prod.fst,
            k ∈ ["value", "instance", "specialty"]))) := by
  refine ⟨(getProp_characterData_objects inputs s).2.1,
    (getProp_characterData_objects inputs s).2.2, ?_⟩
  intro kind values hnd n
  refine ⟨?_, fun v => submittedEntry_shape inputs kind n v⟩
  intro data
  have h := getProp_foldl_conditional (fun e : String × Entry => decide (e.2.value > 0))
    (fun e : String × Entry => submittedEntry inputs kind e.1 e.2.value) values n hnd
  have hdef : submittedEntries inputs kind values =
      values.foldl (fun out e =>
        if (fun e : String × Entry => decide (e.2.value > 0)) e = true
        then setProp out e.1
          ((fun e : String × Entry => submittedEntry inputs kind e.1 e.2.value) e)
        else out) [] := by
    unfold submittedEntries
    simp only [decide_eq_true_eq]
  rw [hdef, h]
  cases hg : getProp values n with
  | none => simp
  | some e =>
    by_cases hv : e.value > 0
    · simp only [hv, decide_True, if_true, Option.some.injEq]
      constructor
      · intro hd; exact ⟨e, rfl, hv, hd.symm⟩
      · rintro ⟨e2, he2, _, hd⟩
        subst he2
        exact hd.symm
    · simp only [hv, decide_False, Bool.false_eq_true, if_false]
      constructor
      · intro hn; exact absurd hn (by simp)
      · rintro ⟨e2, he2, hpos, _⟩
        simp only [Option.some.injEq] at he2
        subst he2
        exact absurd hpos hv

/-- Witness of C19: Allies (3, instance input filled) is submitted with `value` and
`instance` and without the ledger's extra field, Haven (4, specialty input empty) with
`value` alone, and Herd (0) is omitted. -/
theorem submitted_entries_exact_witness :
    getProp (submittedEntries exampleInputs "advantage" submittingState.advantageValues) "Allies"
      = some [("value", .num 3), ("instance", .str "Police")] ∧
    getProp (submittedEntries exampleInputs "advantage" submittingState.advantageValues) "Haven"
      = some [("value", .num 4)] ∧
    getProp (submittedEntries exampleInputs "advantage" submittingState.advantageValues) "Herd"
      = none :=
  ⟨(((submitted_entries_exact exampleInputs submittingState).2.2 "advantage"
      submittingState.advantageValues (by decide) "Allies").1 _).mpr
      ⟨⟨3, [("note", "kept locally")]⟩, by decide, by decide, by decide⟩,
   (((submitted_entries_exact exampleInputs submittingState).2.2 "advantage"
      submittingState.advantageValues (by decide) "Haven").1 _).mpr
      ⟨⟨4, []⟩, by decide, by decide, by decide⟩,
   by decide⟩

/-! ## Draft expiry (C20) -/

theorem ageMinutes_gt_iff (d : Int) : ((d : ℚ) / 60000 > 10080) ↔ d > 604800000 := by
  rw [gt_iff_lt, lt_div_iff₀ (by norm_num : (0 : ℚ) < 60000)]
  constructor
  · intro h
    have h2 : ((604800000 : Int) : ℚ) < (d : ℚ) := by
      have e : (10080 : ℚ) * 60000 = ((604800000 : Int) : ℚ) := by norm_num
      rw [← e]; exact h
    exact Int.cast_lt.mp h2
  · intro h
    have h2 : ((604800000 : Int) : ℚ) < (d : ℚ) := Int.cast_lt.mpr h
    have e : (10080 : ℚ) * 60000 = ((604800000 : Int) : ℚ) := by norm_num
    rw [e]; exact h2

/-- C20: for every stored draft with save time `t` and every load time `now` (in
milliseconds), `loadDraft` deletes the draft without offering it for restore if and only
if `now - t` exceeds 7 days (10080 minutes, 604 800 000 ms); a draft aged exactly 7 days
or less is offered, and then deleted only when the user declines it. -/
theorem draft_expiry (page : Page) (s : State) (draft : Draft) (now : Int) (confirm : Bool) :
    (10080 : Int) = 7 * 24 * 60 ∧ (604800000 : Int) = 10080 * 60 * 1000 ∧
    (((loadDraft page s (some draft) now confirm).removed = true ∧
      (loadDraft page s (some draft) now confirm).offered = false) ↔
        now - draft.savedAt > 604800000) ∧
    ((loadDraft page s (some draft) now confirm).offered = true ↔
        now - draft.savedAt ≤ 604800000) ∧
    (now - draft.savedAt ≤ 604800000 →
      (loadDraft page s (some draft) now confirm).removed = !confirm) := by
  refine ⟨by norm_num, by norm_num, ?_, ?_, ?_⟩
  · by_cases h : now - draft.savedAt > 604800000
    · have hq := (ageMinutes_gt_iff (now - draft.savedAt)).mpr h
      simp only [loadDraft, hq, if_true, h, and_self]
    · have hq : ¬ ((((now - draft.savedAt : Int) : ℚ)) / 60000 > 10080) :=
        fun hq => h ((ageMinutes_gt_iff _).mp hq)
      simp only [loadDraft, hq, if_false, h, iff_false, not_and]
      cases confirm <;> simp
  · by_cases h : now - draft.savedAt > 604800000
    · have hq := (ageMinutes_gt_iff (now - draft.savedAt)).mpr h
      simp only [loadDraft, hq, if_true, Bool.false_eq_true, false_iff, not_le]
      exact h
    · have hq : ¬ ((((now - draft.savedAt : Int) : ℚ)) / 60000 > 10080) :=
        fun hq => h ((ageMinutes_gt_iff _).mp hq)
      simp only [loadDraft, hq, if_false]
      cases confirm <;> simp <;> omega
  · intro h
    have hq : ¬ ((((now - draft.savedAt : Int) : ℚ)) / 60000 > 10080) :=
      fun hq => absurd ((ageMinutes_gt_iff _).mp hq) (by omega)
    simp only [loadDraft, hq, if_false]
    cases confirm <;> simp

/-- Instance of C20: a draft saved at time 0 is offered at exactly 7 days and deleted
unoffered one millisecond later. -/
theorem draft_expiry_witness :
    (loadDraft examplePage freshState (some overratedDraft) 604800000 true).offered = true ∧
    ((loadDraft examplePage freshState (some overratedDraft) 604800001 true).removed = true ∧
      (loadDraft examplePage freshState (some overratedDraft) 604800001 true).offered = false) :=
  ⟨(draft_expiry examplePage freshState overratedDraft 604800000 true).2.2.2.1.mpr (by decide),
   (draft_expiry examplePage freshState overratedDraft 604800001 true).2.2.1.mpr (by decide)⟩

/-! ## C21: a priority change writes one level -/

/-- C21: `handleAttributePriorityChange(level, category)` leaves `attributePriorities[level]`
equal to `category` (`null` when `category` is empty) whatever was there before, and leaves
the other two attribute levels, all skill priorities and every rating unchanged;
`handleSkillPriorityChange` does the same on `skillPriorities`. -/
theorem priority_change_last_write_wins (s : State) (level : Level) (category : String) :
    ((handleAttributePriorityChange s level category).attributePriorities.get level =
        (if category = "" then none else some category) ∧
      (∀ other, other ≠ level →
        (handleAttributePriorityChange s level category).attributePriorities.get other =
          s.attributePriorities.get other) ∧
      (handleAttributePriorityChange s level category).skillPriorities = s.skillPriorities ∧
      (handleAttributePriorityChange s level category).traitValues = s.traitValues ∧
      (handleAttributePriorityChange s level category).disciplineValues = s.disciplineValues ∧
      (handleAttributePriorityChange s level category).advantageValues = s.advantageValues ∧
      (handleAttributePriorityChange s level category).flawValues = s.flawValues) ∧
    ((handleSkillPriorityChange s level category).skillPriorities.get level =
        (if category = "" then none else some category) ∧
      (∀ other, other ≠ level →
        (handleSkillPriorityChange s level category).skillPriorities.get other =
          s.skillPriorities.get other) ∧
      (handleSkillPriorityChange s level category).attributePriorities =
        s.attributePriorities ∧
      (handleSkillPriorityChange s level category).traitValues = s.traitValues ∧
      (handleSkillPriorityChange s level category).disciplineValues = s.disciplineValues ∧
      (handleSkillPriorityChange s level category).advantageValues = s.advantageValues ∧
      (handleSkillPriorityChange s level category).flawValues = s.flawValues) := by
  have hor : orNull category = if category = "" then none else some category := by
    by_cases h : category = "" <;> simp [orNull, h]
  refine ⟨⟨?_, ?_, rfl, rfl, rfl, rfl, rfl⟩, ⟨?_, ?_, rfl, rfl, rfl, rfl, rfl⟩⟩
  · rw [← hor]; cases level <;> rfl
  · intro other ho
    cases level <;> cases other <;> first | rfl | exact absurd rfl ho
  · rw [← hor]; cases level <;> rfl
  · intro other ho
    cases level <;> cases other <;> first | rfl | exact absurd rfl ho

/-! ## C29: the disciplines tracker -/

theorem disciplinesTrackerClass_eq (s : State) :
    disciplinesTrackerClass s = "validation-success" ↔ disciplinesSpent s.disciplineValues = 3 := by
  simp only [disciplinesTrackerClass]
  by_cases h : disciplinesSpent s.disciplineValues = 3
  · simp [h]
  · have hb : (disciplinesSpent s.disciplineValues == 3) = false := by simpa using h
    simp only [hb, h, iff_false]
    decide

/-- C29, as far as it holds: the disciplines tracker of `validateForm` is marked
`validation-success` exactly when the discipline ratings total 3, and the same call emits no
`Disciplines:` message exactly when the tracker is marked so and the in-lineage minimum
is met as well. -/
theorem disciplines_tracker_iff_total (s : State) :
    (disciplinesTrackerClass s = "validation-success" ↔
        disciplinesSpent s.disciplineValues = 3) ∧
    (errorsFor .disciplines (validateFormErrors s) = [] ↔
      (disciplinesTrackerClass s = "validation-success" ∧ inLineageMinimumMet s = true)) := by
  refine ⟨disciplinesTrackerClass_eq s, ?_⟩
  rw [errorsFor_validateFormErrors, disciplinesTrackerClass_eq]
  simp only [groupErrors, groupSatisfied]
  by_cases h : disciplinesSpent s.disciplineValues = 3 <;>
    by_cases hm : inLineageMinimumMet s = true <;> simp [h, hm]

/-- C29 fails as stated: for a Brujah with all three discipline dots in Animalism the
tracker is marked `validation-success` while `validateForm` emits a `Disciplines:`
message in the same call. -/
theorem tracker_success_with_disciplines_message :
    disciplinesTrackerClass outOfClanState = "validation-success" ∧
    errorsFor .disciplines (validateFormErrors outOfClanState) =
      ["Disciplines: Must spend at least 2 dots in in-clan disciplines (currently 0)"] ∧
    ¬ (disciplinesTrackerClass outOfClanState = "validation-success" ↔
        errorsFor .disciplines (validateFormErrors outOfClanState) = []) := by
  have h1 : disciplinesTrackerClass outOfClanState = "validation-success" := by decide
  have h2 : errorsFor .disciplines (validateFormErrors outOfClanState) =
      ["Disciplines: Must spend at least 2 dots in in-clan disciplines (currently 0)"] := by
    decide
  refine ⟨h1, h2, ?_⟩
  rw [h2]
  intro h
  exact absurd (h.mp h1) (by simp)

/-! ## C28: what a valid form implies -/

theorem nan_foldl_add (tv : List (String × Int)) (names : List String) :
    names.foldl (fun (s : JSVal) t => s.add (traitOperand tv t)) JSVal.nan = JSVal.nan := by
  induction names with
  | nil => rfl
  | cons t ts ih => simpa [List.foldl_cons, JSVal.add] using ih

theorem num_of_foldl_add (tv : List (String × Int)) (names : List String) (a y : Int)
    (h : names.foldl (fun (s : JSVal) t => s.add (traitOperand tv t)) (JSVal.num a) =
      JSVal.num y) :
    skillSpent tv names + a = y ∧ ∀ t ∈ names, ∃ r, getProp tv t = some r := by
  induction names generalizing a with
  | nil =>
    simp only [List.foldl_nil, JSVal.num.injEq] at h
    simp [skillSpent, h]
  | cons t ts ih =>
    rw [List.foldl_cons] at h
    cases hg : getProp tv t with
    | none =>
      have hop : traitOperand tv t = JSVal.nan := by simp [traitOperand, hg]
      have hadd : (JSVal.num a).add JSVal.nan = JSVal.nan := rfl
      rw [hop, hadd, nan_foldl_add] at h
      cases h
    | some r =>
      have hop : traitOperand tv t = JSVal.num r := by simp [traitOperand, hg]
      have hadd : (JSVal.num a).add (JSVal.num r) = JSVal.num (a + r) := rfl
      rw [hop, hadd] at h
      obtain ⟨h1, h2⟩ := ih (a + r) h
      constructor
      · simp only [skillSpent, List.foldl_cons, hg, Option.getD_some, zero_add] at h1 ⊢
        rw [foldl_add_eq_sum] at h1 ⊢
        omega
      · intro u hu
        rcases List.mem_cons.mp hu with rfl | hu
        · exact ⟨r, hg⟩
        · exact h2 u hu

theorem foldl_add_of_defined (tv : List (String × Int)) (names : List String) (a : Int)
    (h : ∀ t ∈ names, ∃ r, getProp tv t = some r) :
    names.foldl (fun (s : JSVal) t => s.add (traitOperand tv t)) (JSVal.num a) =
      JSVal.num (skillSpent tv names + a) := by
  induction names generalizing a with
  | nil => simp [skillSpent]
  | cons t ts ih =>
    obtain ⟨r, hr⟩ := h t (List.mem_cons_self _ _)
    rw [List.foldl_cons]
    have hop : traitOperand tv t = JSVal.num r := by simp [traitOperand, hr]
    have hadd : (JSVal.num a).add (JSVal.num r) = JSVal.num (a + r) := rfl
    rw [hop, hadd, ih (a + r) (fun u hu => h u (List.mem_cons_of_mem _ hu))]
    simp only [skillSpent, List.foldl_cons, hr, Option.getD_some, zero_add]
    rw [foldl_add_eq_sum, foldl_add_eq_sum]
    congr 1
    omega

theorem skillSpent_append (tv : List (String × Int)) (xs ys : List String) :
    skillSpent tv (xs ++ ys) = skillSpent tv xs + skillSpent tv ys := by
  simp only [skillSpent, List.foldl_append]
  rw [foldl_add_eq_sum, foldl_add_eq_sum, foldl_add_eq_sum]
  omega

theorem attributeSpent_num (tv : List (String × Int)) (names : List String) (x : Int)
    (h : attributeSpent tv names = JSVal.num x) :
    skillSpent tv names = x + 3 ∧ ∀ t ∈ names, ∃ r, getProp tv t = some r := by
  simp only [attributeSpent] at h
  cases hf : names.foldl (fun (s : JSVal) t => s.add (traitOperand tv t)) (JSVal.num 0) with
  | num y =>
    rw [hf] at h
    simp only [JSVal.subInt, JSVal.num.injEq] at h
    obtain ⟨h1, h2⟩ := num_of_foldl_add tv names 0 y hf
    exact ⟨by omega, h2⟩
  | nan => rw [hf] at h; cases h
  | null => rw [hf] at h; cases h

theorem attribute_pool_cases (p : Priorities) (c : String) (v : JSVal) (hv : v ≠ JSVal.null)
    (h : v.strictEq (getAttributePoolForCategory p c) = true) :
    (p.primary = some c ∧ v = .num 7) ∨ (p.secondary = some c ∧ v = .num 5) ∨
      (p.tertiary = some c ∧ v = .num 3) := by
  simp only [getAttributePoolForCategory] at h
  by_cases h1 : p.primary = some c
  · simp only [h1, beq_self_eq_true, if_true] at h
    cases v <;> simp_all [JSVal.strictEq]
  · by_cases h2 : p.secondary = some c
    · have e1 : (p.primary == some c) = false := by simpa using h1
      simp only [e1, h2, beq_self_eq_true, if_true, Bool.false_eq_true, if_false] at h
      cases v <;> simp_all [JSVal.strictEq]
    · by_cases h3 : p.tertiary = some c
      · have e1 : (p.primary == some c) = false := by simpa using h1
        have e2 : (p.secondary == some c) = false := by simpa using h2
        simp only [e1, e2, h3, beq_self_eq_true, if_true, Bool.false_eq_true, if_false] at h
        cases v <;> simp_all [JSVal.strictEq]
      · have e1 : (p.primary == some c) = false := by simpa using h1
        have e2 : (p.secondary == some c) = false := by simpa using h2
        have e3 : (p.tertiary == some c) = false := by simpa using h3
        simp only [e1, e2, e3, Bool.false_eq_true, if_false] at h
        cases v <;> simp_all [JSVal.strictEq]

theorem skill_pool_cases (p : Priorities) (c : String) (x : Int)
    (h : (JSVal.num x).strictEq (getSkillPoolForCategory p c) = true) :
    (p.primary = some c ∧ x = 13) ∨ (p.secondary = some c ∧ x = 9) ∨
      (p.tertiary = some c ∧ x = 5) := by
  simp only [getSkillPoolForCategory] at h
  by_cases h1 : p.primary = some c
  · simp only [h1, beq_self_eq_true, if_true] at h
    simp_all [JSVal.strictEq]
  · by_cases h2 : p.secondary = some c
    · have e1 : (p.primary == some c) = false := by simpa using h1
      simp only [e1, h2, beq_self_eq_true, if_true, Bool.false_eq_true, if_false] at h
      simp_all [JSVal.strictEq]
    · by_cases h3 : p.tertiary = some c
      · have e1 : (p.primary == some c) = false := by simpa using h1
        have e2 : (p.secondary == some c) = false := by simpa using h2
        simp only [e1, e2, h3, beq_self_eq_true, if_true, Bool.false_eq_true, if_false] at h
        simp_all [JSVal.strictEq]
      · have e1 : (p.primary == some c) = false := by simpa using h1
        have e2 : (p.secondary == some c) = false := by simpa using h2
        have e3 : (p.tertiary == some c) = false := by simpa using h3
        simp only [e1, e2, e3, Bool.false_eq_true, if_false] at h
        simp_all [JSVal.strictEq]

theorem attributeSpent_ne_null (tv : List (String × Int)) (names : List String) :
    attributeSpent tv names ≠ JSVal.null := by
  simp only [attributeSpent]
  cases names.foldl (fun (s : JSVal) t => s.add (traitOperand tv t)) (JSVal.num 0) <;>
    simp [JSVal.subInt]

theorem levels_perm (p : Priorities) (a b c x y z : Int)
    (h1 : (p.primary = some "physical" ∧ x = a) ∨ (p.secondary = some "physical" ∧ x = b) ∨
      (p.tertiary = some "physical" ∧ x = c))
    (h2 : (p.primary = some "social" ∧ y = a) ∨ (p.secondary = some "social" ∧ y = b) ∨
      (p.tertiary = some "social" ∧ y = c))
    (h3 : (p.primary = some "mental" ∧ z = a) ∨ (p.secondary = some "mental" ∧ z = b) ∨
      (p.tertiary = some "mental" ∧ z = c)) :
    p.levels.Perm [some "physical", some "social", some "mental"] ∧ x + y + z = a + b + c := by
  obtain ⟨u, v, w⟩ := p
  simp only [Priorities.levels] at *
  rcases h1 with ⟨e1, f1⟩ | ⟨e1, f1⟩ | ⟨e1, f1⟩ <;>
    rcases h2 with ⟨e2, f2⟩ | ⟨e2, f2⟩ | ⟨e2, f2⟩ <;>
    rcases h3 with ⟨e3, f3⟩ | ⟨e3, f3⟩ | ⟨e3, f3⟩ <;>
    subst e1 <;> (try (exact absurd e2 (by decide))) <;> (try subst e2) <;>
    (try (exact absurd e3 (by decide))) <;> (try subst e3) <;>
    exact ⟨by decide, by omega⟩

/-- C28: whenever `validateForm()` returns true, each of `attributePriorities` and
`skillPriorities` holds the three categories physical, social and mental, one per level,
and the nine attribute ratings total 24, the twenty-seven skill ratings 27, the
discipline ratings 3 and the advantage values 7. -/
theorem valid_form_totals (s : State) (h : validateForm s = true) :
    s.attributePriorities.levels.Perm [some "physical", some "social", some "mental"] ∧
    s.skillPriorities.levels.Perm [some "physical", some "social", some "mental"] ∧
    attributeTotal s.traitValues = JSVal.num 24 ∧
    skillSpent s.traitValues SKILL_NAMES = 27 ∧
    disciplinesSpent s.disciplineValues = 3 ∧
    entriesSpent s.advantageValues = 7 := by
  obtain ⟨hg, -, -⟩ := (validateForm_true_iff s).mp h
  -- attributes
  have attr : ∀ c : Category, ∃ x, attributeSpent s.traitValues c.attributes = JSVal.num x ∧
      ((s.attributePriorities.primary = some c.name ∧ x = 7) ∨
        (s.attributePriorities.secondary = some c.name ∧ x = 5) ∨
        (s.attributePriorities.tertiary = some c.name ∧ x = 3)) := by
    intro c
    have hc := hg (.attr c)
    simp only [groupSatisfied] at hc
    have hcases := attribute_pool_cases _ _ _ (attributeSpent_ne_null _ _) hc
    rcases hcases with ⟨e, f⟩ | ⟨e, f⟩ | ⟨e, f⟩
    · exact ⟨7, f, Or.inl ⟨e, rfl⟩⟩
    · exact ⟨5, f, Or.inr (Or.inl ⟨e, rfl⟩)⟩
    · exact ⟨3, f, Or.inr (Or.inr ⟨e, rfl⟩)⟩
  obtain ⟨x, hx, cx⟩ := attr .physical
  obtain ⟨y, hy, cy⟩ := attr .social
  obtain ⟨z, hz, cz⟩ := attr .mental
  obtain ⟨pa, sa⟩ := levels_perm s.attributePriorities 7 5 3 x y z cx cy cz
  obtain ⟨sx, dx⟩ := attributeSpent_num _ _ _ hx
  obtain ⟨sy, dy⟩ := attributeSpent_num _ _ _ hy
  obtain ⟨sz, dz⟩ := attributeSpent_num _ _ _ hz
  -- skills
  have hp := hg (.skill .physical)
  have hs := hg (.skill .social)
  have hm := hg (.skill .mental)
  simp only [groupSatisfied] at hp hs hm
  obtain ⟨ps, ss⟩ := levels_perm s.skillPriorities 13 9 5 _ _ _ (skill_pool_cases _ _ _ hp)
    (skill_pool_cases _ _ _ hs) (skill_pool_cases _ _ _ hm)
  -- disciplines and advantages
  have hd := hg .disciplines
  have ha := hg .advantages
  simp only [groupSatisfied, Bool.and_eq_true, beq_iff_eq] at hd ha
  refine ⟨pa, ps, ?_, ?_, hd.1, ha⟩
  · have hdef : ∀ t ∈ ATTRIBUTE_NAMES, ∃ r, getProp s.traitValues t = some r := by
      intro t ht
      simp only [ATTRIBUTE_NAMES, List.mem_append] at ht
      rcases ht with (ht | ht) | ht
      · exact dx t ht
      · exact dy t ht
      · exact dz t ht
    simp only [attributeTotal]
    rw [foldl_add_of_defined _ _ _ hdef]
    simp only [ATTRIBUTE_NAMES, skillSpent_append]
    have sx2 : skillSpent s.traitValues PHYSICAL_ATTRIBUTES = x + 3 := sx
    have sy2 : skillSpent s.traitValues SOCIAL_ATTRIBUTES = y + 3 := sy
    have sz2 : skillSpent s.traitValues MENTAL_ATTRIBUTES = z + 3 := sz
    congr 1
    omega
  · simp only [SKILL_NAMES, skillSpent_append]
    have ss2 : skillSpent s.traitValues PHYSICAL_SKILLS + skillSpent s.traitValues SOCIAL_SKILLS
        + skillSpent s.traitValues MENTAL_SKILLS = 13 + 9 + 5 := ss
    omega

/-- C28 at the state `noClanState`, whose form is valid. -/
theorem valid_form_totals_witness :
    validateForm noClanState = true ∧
    noClanState.attributePriorities.levels.Perm
      [some "physical", some "social", some "mental"] ∧
    attributeTotal noClanState.traitValues = JSVal.num 24 ∧
    skillSpent noClanState.traitValues SKILL_NAMES = 27 :=
  ⟨by decide, (valid_form_totals noClanState (by decide)).1,
    (valid_form_totals noClanState (by decide)).2.2.1,
    (valid_form_totals noClanState (by decide)).2.2.2.1⟩

/-- C21 at the state `noClanState`: clearing the secondary attribute level leaves the
primary one as it was. -/
theorem priority_change_last_write_wins_witness :
    (handleAttributePriorityChange noClanState .secondary "").attributePriorities.get
        .secondary = none ∧
    (handleAttributePriorityChange noClanState .secondary "").attributePriorities.get
        .primary = some "physical" :=
  ⟨(priority_change_last_write_wins noClanState .secondary "").1.1,
    (priority_change_last_write_wins noClanState .secondary "").1.2.1 .primary (by decide)⟩

/-! ## C22, C23: names a stored character has and the ledger may lack -/

theorem hasOwnProperty_iff {α : Type} (obj : List (String × α)) (k : String) :
    hasOwnProperty obj k = true ↔ k ∈ obj.map Prod.fst := by
  simp only [hasOwnProperty, List.any_eq_true, beq_iff_eq, List.mem_map]

theorem keys_setProp_of_has {α : Type} (obj : List (String × α)) (k : String) (v : α)
    (h : hasOwnProperty obj k = true) : (setProp obj k v).map Prod.fst = obj.map Prod.fst := by
  obtain ⟨x, hx⟩ := getProp_of_key obj k ((hasOwnProperty_iff obj k).mp h)
  exact keys_setProp obj k v x hx

theorem populateTraits_cons (e : String × Int) (m tv : List (String × Int)) :
    populateTraits (e :: m) tv =
      populateTraits m
        (if hasOwnProperty tv (toLowerCase e.1) then setProp tv (toLowerCase e.1) e.2 else tv) :=
  rfl

theorem keys_populateTraits (m : List (String × Int)) :
    ∀ tv : List (String × Int), (populateTraits m tv).map Prod.fst = tv.map Prod.fst := by
  induction m with
  | nil => intro tv; rfl
  | cons e m ih =>
    intro tv
    rw [populateTraits_cons, ih]
    by_cases h : hasOwnProperty tv (toLowerCase e.1) = true
    · rw [if_pos h, keys_setProp_of_has _ _ _ h]
    · rw [if_neg h]

theorem hasOwnProperty_congr {α : Type} (a b : List (String × α)) (k : String)
    (h : a.map Prod.fst = b.map Prod.fst) : hasOwnProperty a k = hasOwnProperty b k := by
  rw [Bool.eq_iff_iff, hasOwnProperty_iff, hasOwnProperty_iff, h]

theorem getProp_of_not_has {α : Type} (obj : List (String × α)) (k : String)
    (h : ¬ hasOwnProperty obj k = true) : getProp obj k = none := by
  rw [getProp_eq_none_iff]
  exact Bool.eq_false_iff.mpr h

theorem getProp_populateTraits (m : List (String × Int)) :
    ∀ (tv : List (String × Int)) (k : String),
      getProp (populateTraits m tv) k =
        if hasOwnProperty tv k then
          match getProp (m.map (fun e => (toLowerCase e.1, e.2))).reverse k with
          | some r => some r
          | none => getProp tv k
        else none := by
  induction m with
  | nil =>
    intro tv k
    by_cases h : hasOwnProperty tv k = true
    · simp [populateTraits, h, getProp]
    · simp [populateTraits, h, getProp_of_not_has tv k h]
  | cons e m ih =>
    intro tv k
    rw [populateTraits_cons, ih]
    simp only [List.map_cons, List.reverse_cons, getProp_append]
    by_cases hl : hasOwnProperty tv (toLowerCase e.1) = true
    · rw [if_pos hl, hasOwnProperty_congr _ tv k (keys_setProp_of_has _ _ _ hl)]
      by_cases hk : hasOwnProperty tv k = true
      · simp only [hk, if_true]
        cases hr : getProp (m.map (fun e => (toLowerCase e.1, e.2))).reverse k with
        | some r => rfl
        | none =>
          simp only [getProp_setProp, getProp_cons]
          by_cases hek : toLowerCase e.1 = k
          · simp [hek]
          · simp [hek, getProp]
      · simp [hk]
    · rw [if_neg hl]
      by_cases hk : hasOwnProperty tv k = true
      · simp only [hk, if_true]
        cases hr : getProp (m.map (fun e => (toLowerCase e.1, e.2))).reverse k with
        | some r => rfl
        | none =>
          simp only [getProp_cons]
          have hek : toLowerCase e.1 ≠ k := by
            intro he
            rw [he] at hl
            exact hl hk
          simp [hek, getProp]
      · simp [hk]

theorem populateTraits_append (m1 m2 tv : List (String × Int)) :
    populateTraits (m1 ++ m2) tv = populateTraits m2 (populateTraits m1 tv) := by
  simp [populateTraits, List.foldl_append]

theorem populateEntries_ok (m : List (String × RecordRating)) :
    ∀ values : List (String × Entry), (∀ e ∈ m, e.2 ≠ RecordRating.null) →
      ∃ v, populateEntries m values = .ok v := by
  induction m with
  | nil => intro values _; exact ⟨values, rfl⟩
  | cons e m ih =>
    intro values h
    obtain ⟨name, rating⟩ := e
    have hm : ∀ x ∈ m, x.2 ≠ RecordRating.null := fun x hx => h x (List.mem_cons_of_mem _ hx)
    have hr : rating ≠ RecordRating.null := h (name, rating) (List.mem_cons_self _ _)
    cases rating with
    | number n => exact ih _ hm
    | object value fields =>
      cases value with
      | none => exact ih _ hm
      | some v => exact ih _ hm
    | null => exact absurd rfl hr
    | other => exact ih _ hm

theorem getProp_none_of_no_key {α : Type} (obj : List (String × α)) (k : String)
    (h : ∀ e ∈ obj, e.1 ≠ k) : getProp obj k = none := by
  rw [getProp_eq_none_iff, List.any_eq_false]
  intro e he
  simpa using h e he

/-- C22: loading a stored character keeps the key set of `traitValues`; a key of the
ledger ends at the rating the record gives last for a name that lower-cases to it and is
unchanged when the record has no such name; names that do not lower-case to a key are
ignored; and a record without `attributes` and `skills` leaves `traitValues` as it was
and does not make the function fail. -/
theorem load_skips_unknown_traits (page : Page) (s : State) (data : CharacterData) :
    (populatedState page s data).traitValues.map Prod.fst = s.traitValues.map Prod.fst ∧
    (∀ k, getProp (populatedState page s data).traitValues k =
        if hasOwnProperty s.traitValues k then
          match getProp (recordTraits data).reverse k with
          | some r => some r
          | none => getProp s.traitValues k
        else none) ∧
    (∀ k, (∀ e ∈ recordTraits data, e.1 ≠ k) →
        getProp (populatedState page s data).traitValues k = getProp s.traitValues k) ∧
    (data.attributes = none → data.skills = none →
      (populatedState page s data).traitValues = s.traitValues ∧
      ((∀ e ∈ data.advantages.getD [] ++ data.flaws.getD [], e.2 ≠ RecordRating.null) →
        ∃ s2, populateFormFromCharacterData page s data = .ok s2)) := by
  have htv : (populatedState page s data).traitValues =
      populateTraits (data.attributes.getD [] ++ data.skills.getD []) s.traitValues := by
    rw [(populatedState_ratings page s data).1, populateTraits_append]
  have hall : ∀ k, getProp (populatedState page s data).traitValues k =
      if hasOwnProperty s.traitValues k then
        match getProp (recordTraits data).reverse k with
        | some r => some r
        | none => getProp s.traitValues k
      else none := by
    intro k
    rw [htv, getProp_populateTraits]
    rfl
  refine ⟨?_, hall, ?_, ?_⟩
  · rw [htv, keys_populateTraits]
  · intro k hk
    rw [hall k]
    have hn : getProp (recordTraits data).reverse k = none :=
      getProp_none_of_no_key _ _ (fun e he => hk e (List.mem_reverse.mp he))
    rw [hn]
    by_cases h : hasOwnProperty s.traitValues k = true
    · simp [h]
    · simp [h, getProp_of_not_has _ _ h]
  · intro ha hs
    refine ⟨?_, ?_⟩
    · rw [htv, ha, hs]
      rfl
    · intro hnull
      simp only [populateFormFromCharacterData, populateAdvantagesAndFlaws]
      obtain ⟨av, hav⟩ := populateEntries_ok (data.advantages.getD [])
        (populateRatings (populateSelectFields page (populateBioFields s data) data)
          data).advantageValues
        (fun e he => hnull e (List.mem_append_left _ he))
      rw [hav]
      obtain ⟨fv, hfv⟩ := populateEntries_ok (data.flaws.getD [])
        (populateRatings (populateSelectFields page (populateBioFields s data) data)
          data).flawValues
        (fun e he => hnull e (List.mem_append_right _ he))
      simp only [hfv]
      exact ⟨_, rfl⟩

/-- C22 at the record `uncataloguedRecord` loaded into `freshState`: dexterity, which the
record does not name, keeps its rating, and the key set is the one of `freshState`; an
empty record leaves the ledger alone. -/
theorem load_skips_unknown_traits_witness :
    (∀ e ∈ recordTraits uncataloguedRecord, e.1 ≠ "dexterity") ∧
    getProp (populatedState examplePage freshState uncataloguedRecord).traitValues
      "dexterity" = getProp freshState.traitValues "dexterity" ∧
    (populatedState examplePage freshState uncataloguedRecord).traitValues.map Prod.fst =
      freshState.traitValues.map Prod.fst ∧
    (populatedState examplePage freshState {}).traitValues = freshState.traitValues :=
  ⟨by decide,
    (load_skips_unknown_traits examplePage freshState uncataloguedRecord).2.2.1 "dexterity"
      (by decide),
    (load_skips_unknown_traits examplePage freshState uncataloguedRecord).1,
    ((load_skips_unknown_traits examplePage freshState {}).2.2.2 rfl rfl).1⟩

/-- C23 at the record `uncataloguedRecord` loaded into `freshState`, whose catalog lists
neither the discipline Thaumaturgy nor the advantage Haven nor the flaw Hunted: the
function stores all three, they count in the totals, and the discipline is part of the
submitted disciplines; the unknown attribute `Cooking` of the same record is skipped. -/
theorem uncatalogued_entries_are_loaded :
    getProp freshState.disciplineValues "Thaumaturgy" = none ∧
    getProp freshState.advantageValues "Haven" = none ∧
    getProp freshState.flawValues "Hunted" = none ∧
    getProp (populatedState examplePage freshState uncataloguedRecord).disciplineValues
      "Thaumaturgy" = some 3 ∧
    getProp (populatedState examplePage freshState uncataloguedRecord).advantageValues
      "Haven" = some ⟨2, []⟩ ∧
    getProp (populatedState examplePage freshState uncataloguedRecord).flawValues
      "Hunted" = some ⟨1, []⟩ ∧
    disciplinesSpent (populatedState examplePage freshState uncataloguedRecord).disciplineValues
      = 3 ∧
    entriesSpent (populatedState examplePage freshState uncataloguedRecord).advantageValues
      = 2 ∧
    entriesSpent (populatedState examplePage freshState uncataloguedRecord).flawValues = 1 ∧
    getProp (submittedDisciplines
      (populatedState examplePage freshState uncataloguedRecord).disciplineValues)
      "Thaumaturgy" = some 3 ∧
    getProp (populatedState examplePage freshState uncataloguedRecord).traitValues
      "cooking" = none := by
  decide

/-! ## C24: a draft restores the ledger it was saved from -/

theorem setProp_of_not_has {α : Type} (obj : List (String × α)) (k : String) (v : α)
    (h : ¬ hasOwnProperty obj k = true) : setProp obj k v = obj ++ [(k, v)] := by
  have h2 : obj.any (fun e => e.1 == k) = false := Bool.eq_false_iff.mpr h
  simp [setProp, h2]

theorem nodup_keys_setProp {α : Type} (obj : List (String × α)) (k : String) (v : α)
    (h : (obj.map Prod.fst).Nodup) : ((setProp obj k v).map Prod.fst).Nodup := by
  by_cases hk : hasOwnProperty obj k = true
  · rw [keys_setProp_of_has obj k v hk]
    exact h
  · rw [setProp_of_not_has obj k v hk, List.map_append, List.nodup_append]
    refine ⟨h, by simp, ?_⟩
    intro a ha hb
    simp only [List.map_cons, List.map_nil, List.mem_singleton] at hb
    subst hb
    exact hk ((hasOwnProperty_iff obj _).mpr ha)

theorem subset_keys_setProp {α : Type} (obj : List (String × α)) (k : String) (v : α) :
    ∀ x ∈ obj.map Prod.fst, x ∈ (setProp obj k v).map Prod.fst := by
  intro x hx
  by_cases hk : hasOwnProperty obj k = true
  · rw [keys_setProp_of_has obj k v hk]
    exact hx
  · rw [setProp_of_not_has obj k v hk, List.map_append]
    exact List.mem_append_left _ hx

theorem key_mem_setProp {α : Type} (obj : List (String × α)) (k : String) (v : α) :
    k ∈ (setProp obj k v).map Prod.fst := by
  by_cases hk : hasOwnProperty obj k = true
  · rw [keys_setProp_of_has obj k v hk]
    exact (hasOwnProperty_iff obj k).mp hk
  · rw [setProp_of_not_has obj k v hk, List.map_append]
    exact List.mem_append_right _ (by simp)

/-- The ledger a trait catalog leaves: keys without repetition, every name of the catalog
among them, and the keys that were there before. -/
theorem catalog_keys {α : Type} (g : List (String × α) → String → α) (catalog : List String) :
    ∀ obj : List (String × α), (obj.map Prod.fst).Nodup →
      ((catalog.foldl (fun o t => setProp o t (g o t)) obj).map Prod.fst).Nodup ∧
      (∀ t ∈ catalog, t ∈ (catalog.foldl (fun o t => setProp o t (g o t)) obj).map Prod.fst) ∧
      (∀ x ∈ obj.map Prod.fst,
        x ∈ (catalog.foldl (fun o t => setProp o t (g o t)) obj).map Prod.fst) := by
  induction catalog with
  | nil => intro obj h; exact ⟨h, by simp, fun x hx => hx⟩
  | cons t ts ih =>
    intro obj h
    rw [List.foldl_cons]
    obtain ⟨h1, h2, h3⟩ := ih (setProp obj t (g obj t)) (nodup_keys_setProp _ _ _ h)
    refine ⟨h1, ?_, ?_⟩
    · intro u hu
      rcases List.mem_cons.mp hu with rfl | hu
      · exact h3 _ (key_mem_setProp _ _ _)
      · exact h2 u hu
    · intro x hx
      exact h3 x (subset_keys_setProp _ _ _ x hx)

/-- A catalog whose names are all keys already leaves the keys as they are. -/
theorem catalog_keys_of_subset {α : Type} (g : List (String × α) → String → α)
    (catalog : List String) :
    ∀ obj : List (String × α), (∀ t ∈ catalog, t ∈ obj.map Prod.fst) →
      (catalog.foldl (fun o t => setProp o t (g o t)) obj).map Prod.fst = obj.map Prod.fst := by
  induction catalog with
  | nil => intro obj _; rfl
  | cons t ts ih =>
    intro obj h
    rw [List.foldl_cons]
    have ht : hasOwnProperty obj t = true :=
      (hasOwnProperty_iff obj t).mpr (h t (List.mem_cons_self _ _))
    have hk := keys_setProp_of_has obj t (g obj t) ht
    rw [ih (setProp obj t (g obj t)) (fun u hu => by
      rw [hk]; exact h u (List.mem_cons_of_mem _ hu)), hk]

/-- Two objects with the same keys in the same order, none repeated, and the same value
under every key are equal. -/
theorem object_ext {α : Type} :
    ∀ (a b : List (String × α)), a.map Prod.fst = b.map Prod.fst → (a.map Prod.fst).Nodup →
      (∀ k, getProp a k = getProp b k) → a = b
  | [], [], _, _, _ => rfl
  | [], _ :: _, h, _, _ => by simp at h
  | _ :: _, [], h, _, _ => by simp at h
  | x :: a, y :: b, h, hnd, hv => by
    simp only [List.map_cons, List.cons.injEq] at h
    obtain ⟨hxy, hab⟩ := h
    have hna : x.1 ∉ a.map Prod.fst := (List.nodup_cons.mp hnd).1
    have hnb : y.1 ∉ b.map Prod.fst := by rw [← hab, ← hxy]; exact hna
    have hx : x = y := by
      have := hv x.1
      simp only [getProp_cons, if_true, hxy] at this
      simp only [Option.some.injEq] at this
      exact Prod.ext hxy this
    have htail : a = b := by
      apply object_ext a b hab (List.nodup_cons.mp hnd).2
      intro k
      have := hv k
      simp only [getProp_cons] at this
      by_cases hk : x.1 = k
      · have ha : getProp a k = none := by
          apply getProp_none_of_no_key
          intro e he hek
          exact hna (hk ▸ hek ▸ List.mem_map_of_mem Prod.fst he)
        have hb : getProp b k = none := by
          apply getProp_none_of_no_key
          intro e he hek
          exact hnb (hxy ▸ hk ▸ hek ▸ List.mem_map_of_mem Prod.fst he)
        rw [ha, hb]
      · have hk2 : ¬ y.1 = k := by rw [← hxy]; exact hk
        simpa [hk, hk2] using this
    rw [hx, htail]

theorem restoreValues_cons {α : Type} (e : String × α) (saved values : List (String × α)) :
    restoreValues (e :: saved) values = restoreValues saved (setProp values e.1 e.2) := rfl

theorem keys_restoreValues {α : Type} (saved : List (String × α)) :
    ∀ values : List (String × α), (∀ e ∈ saved, e.1 ∈ values.map Prod.fst) →
      (restoreValues saved values).map Prod.fst = values.map Prod.fst := by
  induction saved with
  | nil => intro values _; rfl
  | cons e saved ih =>
    intro values h
    have he : hasOwnProperty values e.1 = true :=
      (hasOwnProperty_iff values e.1).mpr (h e (List.mem_cons_self _ _))
    have hk := keys_setProp_of_has values e.1 e.2 he
    rw [restoreValues_cons, ih _ (fun x hx => by
      rw [hk]; exact h x (List.mem_cons_of_mem _ hx)), hk]

/-- Restoring a saved object over an object with the same keys gives the saved object. -/
theorem restoreValues_same_keys {α : Type} (saved values : List (String × α))
    (hk : values.map Prod.fst = saved.map Prod.fst) (hnd : (saved.map Prod.fst).Nodup) :
    restoreValues saved values = saved := by
  have hkeys : (restoreValues saved values).map Prod.fst = saved.map Prod.fst := by
    rw [keys_restoreValues saved values (fun e he => by
      rw [hk]; exact List.mem_map_of_mem Prod.fst he), hk]
  apply object_ext _ _ hkeys (hkeys ▸ hnd)
  intro k
  rw [getProp_restoreValues, getProp_reverse saved k hnd]
  cases hs : getProp saved k with
  | some r => rfl
  | none =>
    simp only
    apply getProp_none_of_no_key
    intro e he hek
    have hmem : k ∈ saved.map Prod.fst := by
      rw [← hk, ← hek]; exact List.mem_map_of_mem Prod.fst he
    obtain ⟨x, hx⟩ := getProp_of_key saved k hmem
    rw [hx] at hs
    cases hs

/-- Restoring a saved object over objects that share no key with it appends it. -/
theorem restoreValues_append {α : Type} (saved : List (String × α)) :
    ∀ values : List (String × α), ((values ++ saved).map Prod.fst).Nodup →
      restoreValues saved values = values ++ saved := by
  induction saved with
  | nil => intro values _; simp [restoreValues]
  | cons e saved ih =>
    intro values hnd
    have hne : ¬ hasOwnProperty values e.1 = true := by
      intro hh
      have hmem := (hasOwnProperty_iff values e.1).mp hh
      rw [List.map_append, List.nodup_append] at hnd
      exact hnd.2.2 hmem (by simp)
    rw [restoreValues_cons, setProp_of_not_has values e.1 e.2 hne, ih]
    · simp
    · simpa using hnd

theorem restoreSelects_frame (page : Page) (s : State) (draft : Draft) :
    (restoreSelects page s draft).advantageValues = s.advantageValues ∧
    (restoreSelects page s draft).flawValues = s.flawValues ∧
    (restoreSelects page s draft).attributePriorities = s.attributePriorities ∧
    (restoreSelects page s draft).skillPriorities = s.skillPriorities := by
  unfold restoreSelects
  (repeat' split) <;>
    simp [(clanChanged_frame page _).2.1, (clanChanged_frame page _).2.2.1,
      (clanChanged_frame page _).2.2.2.1, (clanChanged_frame page _).2.2.2.2]

theorem clanChanged_disciplineValues (page : Page) (s : State) :
    (clanChanged page s).disciplineValues = s.disciplineValues ∨
    (clanChanged page s).disciplineValues =
      renderDisciplines page.disciplinesData s.disciplineValues := by
  unfold clanChanged
  split
  · split
    · exact Or.inr rfl
    · exact Or.inl rfl
  · exact Or.inl rfl

theorem restoreSelects_disciplineValues (page : Page) (s : State) (draft : Draft) :
    (restoreSelects page s draft).disciplineValues = s.disciplineValues ∨
    (restoreSelects page s draft).disciplineValues =
      renderDisciplines page.disciplinesData s.disciplineValues := by
  have hd : (restoreSelects page s draft).disciplineValues =
      if truthy draft.clan then
        (clanChanged page
          { s with clan := selectValue page.clanOptions (draft.clan.getD "") }).disciplineValues
      else s.disciplineValues := by
    unfold restoreSelects
    (repeat' split) <;> simp_all
  rw [hd]
  split
  · exact clanChanged_disciplineValues page _
  · exact Or.inl rfl

theorem applyDraftToForm_entries (page : Page) (s : State) (draft : Draft) :
    (applyDraftToForm page s draft).advantageValues =
      restoreValues (draft.advantageValues.getD []) s.advantageValues ∧
    (applyDraftToForm page s draft).flawValues =
      restoreValues (draft.flawValues.getD []) s.flawValues := by
  have h := restoreSelects_frame page (restoreFormFields s draft) draft
  have e1 : ∀ t : State, (restoreDraftPriorities t draft).advantageValues = t.advantageValues ∧
      (restoreDraftPriorities t draft).flawValues = t.flawValues := by
    intro t
    unfold restoreDraftPriorities
    cases draft.attributePriorities <;> cases draft.skillPriorities <;> exact ⟨rfl, rfl⟩
  simp only [applyDraftToForm, restoreLedger, (e1 _).1, (e1 _).2, h.1, h.2.1]
  exact ⟨rfl, rfl⟩

theorem applyDraftToForm_priorities (page : Page) (s : State) (draft : Draft)
    (pa ps : Priorities) (ha : draft.attributePriorities = some pa)
    (hs : draft.skillPriorities = some ps) :
    (applyDraftToForm page s draft).attributePriorities =
      restorePriorities s.attributePriorities pa ∧
    (applyDraftToForm page s draft).skillPriorities =
      restorePriorities s.skillPriorities ps := by
  have h := restoreSelects_frame page (restoreFormFields s draft) draft
  simp only [applyDraftToForm, restoreLedger, restoreDraftPriorities, ha, hs, h.2.2.1, h.2.2.2]
  exact ⟨rfl, rfl⟩

theorem restorePriorities_fresh (p : Priorities) (h : p.noEmptyLevel) :
    restorePriorities ⟨none, none, none⟩ p = p := by
  obtain ⟨a, b, c⟩ := p
  obtain ⟨h1, h2, h3⟩ := h
  simp only at h1 h2 h3
  have t : ∀ x : Option String, x ≠ some "" → (if truthy x = true then x else none) = x := by
    intro x hx
    cases x with
    | none => simp [truthy]
    | some v =>
      have hv : v ≠ "" := fun hv => hx (by rw [hv])
      simp [truthy, hv]
  simp only [restorePriorities, t a h1, t b h2, t c h3]

theorem orNull_ne (category : String) : orNull category ≠ some "" := by
  unfold orNull
  by_cases h : category = ""
  · simp [h]
  · simp [h]

theorem noEmptyLevel_set (p : Priorities) (level : Level) (category : String)
    (h : p.noEmptyLevel) : (p.set level (orNull category)).noEmptyLevel := by
  obtain ⟨h1, h2, h3⟩ := h
  cases level
  · exact ⟨orNull_ne category, h2, h3⟩
  · exact ⟨h1, orNull_ne category, h3⟩
  · exact ⟨h1, h2, orNull_ne category⟩

theorem initialState_keys (d a f : List String) :
    ((initialState d a f).traitValues.map Prod.fst = TRAIT_CONTAINERS.map Prod.fst ∧
      ((initialState d a f).traitValues.map Prod.fst).Nodup) ∧
    (((initialState d a f).disciplineValues.map Prod.fst).Nodup ∧
      ∀ t ∈ d, t ∈ (initialState d a f).disciplineValues.map Prod.fst) ∧
    ((initialState d a f).advantageValues.map Prod.fst).Nodup ∧
    ((initialState d a f).flawValues.map Prod.fst).Nodup := by
  have htv : (initialState d a f).traitValues = initializeDots TRAIT_CONTAINERS [] := rfl
  have hk : (initializeDots TRAIT_CONTAINERS []).map Prod.fst = TRAIT_CONTAINERS.map Prod.fst := by
    decide
  have hd := catalog_keys (fun (o : List (String × Int)) t => (getProp o t).getD 0) d []
    (by simp)
  have ha := catalog_keys (fun (o : List (String × Entry)) t => (getProp o t).getD ⟨0, []⟩) a []
    (by simp)
  have hf := catalog_keys (fun (o : List (String × Entry)) t => (getProp o t).getD ⟨0, []⟩) f []
    (by simp)
  refine ⟨⟨?_, ?_⟩, ⟨hd.1, hd.2.1⟩, ha.1, hf.1⟩
  · rw [htv, hk]
  · rw [htv, hk]
    decide

theorem has_of_getProp {α : Type} (obj : List (String × α)) (k : String) (v : α)
    (h : getProp obj k = some v) : hasOwnProperty obj k = true := by
  by_contra hn
  rw [getProp_of_not_has obj k hn] at h
  cases h

theorem keys_clickEntryDot (t : String) (v : Int) (values : List (String × Entry)) :
    ((clickEntryDot t v values).getD values).map Prod.fst = values.map Prod.fst := by
  unfold clickEntryDot
  cases hg : getProp values t with
  | none => rfl
  | some entry =>
    have hh := has_of_getProp values t entry hg
    simp only
    split <;> simp only [Option.getD_some] <;> exact keys_setProp_of_has _ _ _ hh

theorem keys_clickDisciplineDot (t : String) (v : Int) (dv : List (String × Int))
    (h : t ∈ dv.map Prod.fst) :
    (clickDisciplineDot t v dv).map Prod.fst = dv.map Prod.fst := by
  have hh := (hasOwnProperty_iff dv t).mpr h
  unfold clickDisciplineDot
  simp only
  split <;> exact keys_setProp_of_has _ _ _ hh

/-- An interaction the page offers keeps the keys of the four ledger objects and stores
no empty text as a priority. -/
theorem interaction_keeps_shape (page : Page) (d a f : List String)
    (hpage : page.disciplinesData = d) (e : Interaction) (he : e.offered d a f = true)
    (s : State)
    (h : ledgerKeys s = ledgerKeys (initialState d a f) ∧
      s.attributePriorities.noEmptyLevel ∧ s.skillPriorities.noEmptyLevel) :
    ledgerKeys (e.apply page s) = ledgerKeys (initialState d a f) ∧
      (e.apply page s).attributePriorities.noEmptyLevel ∧
      (e.apply page s).skillPriorities.noEmptyLevel := by
  obtain ⟨hk, hpa, hps⟩ := h
  simp only [ledgerKeys, Prod.mk.injEq] at hk ⊢
  obtain ⟨k1, k2, k3, k4⟩ := hk
  obtain ⟨⟨i1, -⟩, ⟨-, i2⟩, -, -⟩ := initialState_keys d a f
  cases e with
  | click c =>
    simp only [Interaction.offered] at he
    have hs : s.traitValues.map Prod.fst = TRAIT_CONTAINERS.map Prod.fst := by rw [k1, i1]
    have hc := click_keys d a f s c he hs
    simp only [Interaction.apply]
    cases c with
    | trait t cat v => exact ⟨⟨by rw [hc, i1], k2, k3, k4⟩, hpa, hps⟩
    | discipline t v =>
      simp only [Click.offered, Bool.and_eq_true, decide_eq_true_eq] at he
      have ht : t ∈ s.disciplineValues.map Prod.fst := by rw [k2]; exact i2 t he.1.1
      exact ⟨⟨k1, by simp only [Click.apply]; rw [keys_clickDisciplineDot t v _ ht, k2],
        k3, k4⟩, hpa, hps⟩
    | advantage t v =>
      exact ⟨⟨k1, k2, by simp only [Click.apply]; rw [keys_clickEntryDot, k3], k4⟩, hpa, hps⟩
    | flaw t v =>
      exact ⟨⟨k1, k2, k3, by simp only [Click.apply]; rw [keys_clickEntryDot, k4]⟩, hpa, hps⟩
  | attributePriority level category =>
    exact ⟨⟨k1, k2, k3, k4⟩, noEmptyLevel_set _ level category hpa, hps⟩
  | skillPriority level category =>
    exact ⟨⟨k1, k2, k3, k4⟩, hpa, noEmptyLevel_set _ level category hps⟩
  | clan value =>
    simp only [Interaction.apply]
    obtain ⟨f1, f2, f3, f4, f5⟩ := clanChanged_frame page { s with clan := value }
    rw [f1, f2, f3, f4, f5]
    refine ⟨⟨k1, ?_, k3, k4⟩, hpa, hps⟩
    rcases clanChanged_disciplineValues page { s with clan := value } with h | h
    · rw [h]; exact k2
    · rw [h, hpage]
      simp only [renderDisciplines]
      rw [catalog_keys_of_subset (fun (o : List (String × Int)) t => (getProp o t).getD 0) d
        _ (fun t ht => by rw [k2]; exact i2 t ht)]
      exact k2
  | generation value => exact ⟨⟨k1, k2, k3, k4⟩, hpa, hps⟩
  | predatorType value => exact ⟨⟨k1, k2, k3, k4⟩, hpa, hps⟩
  | text field value =>
    cases field <;> exact ⟨⟨k1, k2, k3, k4⟩, hpa, hps⟩

theorem reached_shape (page : Page) (d a f : List String)
    (hpage : page.disciplinesData = d) (events : List Interaction) :
    ∀ s : State, (∀ e ∈ events, e.offered d a f = true) →
      (ledgerKeys s = ledgerKeys (initialState d a f) ∧
        s.attributePriorities.noEmptyLevel ∧ s.skillPriorities.noEmptyLevel) →
      (ledgerKeys (events.foldl (Interaction.apply page) s) = ledgerKeys (initialState d a f) ∧
        (events.foldl (Interaction.apply page) s).attributePriorities.noEmptyLevel ∧
        (events.foldl (Interaction.apply page) s).skillPriorities.noEmptyLevel) := by
  induction events with
  | nil => intro s _ h; exact h
  | cons e es ih =>
    intro s hoff h
    rw [List.foldl_cons]
    apply ih
    · intro x hx
      exact hoff x (List.mem_cons_of_mem _ hx)
    · exact interaction_keeps_shape page d a f hpage e (hoff e (List.mem_cons_self _ _)) s h

/-- C24: for every state `s` that interactions reach from the initial state of the page,
the draft saved from `s` and applied with `applyDraftToForm` to a freshly initialised
wizard (its trait catalogs loaded as before, or still empty as they are when `loadDraft`
runs) restores `traitValues`, `disciplineValues`, `advantageValues`, `flawValues`,
`attributePriorities` and `skillPriorities` to exactly their values in `s`. -/
theorem draft_round_trip (page loadPage : Page) (d a f : List String)
    (events : List Interaction) (now : Int) (fresh : State)
    (hpage : page.disciplinesData = d) (hoff : ∀ e ∈ events, e.offered d a f = true)
    (hfresh : (fresh = initialState d a f ∧ loadPage.disciplinesData = d) ∨
      (fresh = initialState [] [] [] ∧ loadPage.disciplinesData = [])) :
    ledger (applyDraftToForm loadPage fresh (saveDraft (reached page d a f events) now)) =
      ledger (reached page d a f events) := by
  obtain ⟨⟨i1, n1⟩, ⟨n2, i2⟩, n3, n4⟩ := initialState_keys d a f
  have hinit : ledgerKeys (initialState d a f) = ledgerKeys (initialState d a f) ∧
      (initialState d a f).attributePriorities.noEmptyLevel ∧
      (initialState d a f).skillPriorities.noEmptyLevel :=
    ⟨rfl, show (Priorities.mk none none none).noEmptyLevel from by decide,
      show (Priorities.mk none none none).noEmptyLevel from by decide⟩
  obtain ⟨hk, hpa, hps⟩ := reached_shape page d a f hpage events (initialState d a f) hoff hinit
  have hs : events.foldl (Interaction.apply page) (initialState d a f) =
      reached page d a f events := rfl
  rw [hs] at hk hpa hps
  generalize reached page d a f events = s at hk hpa hps
  simp only [ledgerKeys, Prod.mk.injEq] at hk
  obtain ⟨k1, k2, k3, k4⟩ := hk
  have r := applyDraftToForm_ratings loadPage fresh (saveDraft s now)
  have en := applyDraftToForm_entries loadPage fresh (saveDraft s now)
  have pr := applyDraftToForm_priorities loadPage fresh (saveDraft s now)
    s.attributePriorities s.skillPriorities rfl rfl
  have hsel := restoreSelects_disciplineValues loadPage
    (restoreFormFields fresh (saveDraft s now)) (saveDraft s now)
  have hff : (restoreFormFields fresh (saveDraft s now)).disciplineValues =
      fresh.disciplineValues := rfl
  rw [hff] at hsel
  simp only [ledger, Prod.mk.injEq]
  rw [r.1, r.2, en.1, en.2, pr.1, pr.2]
  have d1 : (saveDraft s now).traitValues.getD [] = s.traitValues := rfl
  have d2 : (saveDraft s now).disciplineValues.getD [] = s.disciplineValues := rfl
  have d3 : (saveDraft s now).advantageValues.getD [] = s.advantageValues := rfl
  have d4 : (saveDraft s now).flawValues.getD [] = s.flawValues := rfl
  rw [d1, d2, d3, d4]
  rcases hfresh with ⟨hf, hl⟩ | ⟨hf, hl⟩
  · -- the catalogs are loaded as before
    subst hf
    have hX : (restoreSelects loadPage (restoreFormFields (initialState d a f)
        (saveDraft s now)) (saveDraft s now)).disciplineValues.map Prod.fst =
          s.disciplineValues.map Prod.fst := by
      rcases hsel with h | h
      · rw [h, k2]
      · rw [h, hl]
        simp only [renderDisciplines]
        rw [catalog_keys_of_subset (fun (o : List (String × Int)) t => (getProp o t).getD 0) d
          _ i2, k2]
    refine ⟨?_, ?_, ?_, ?_, ?_, ?_⟩
    · exact restoreValues_same_keys _ _ k1.symm (k1 ▸ n1)
    · exact restoreValues_same_keys _ _ hX (k2 ▸ n2)
    · exact restoreValues_same_keys _ _ k3.symm (k3 ▸ n3)
    · exact restoreValues_same_keys _ _ k4.symm (k4 ▸ n4)
    · exact restorePriorities_fresh _ hpa
    · exact restorePriorities_fresh _ hps
  · -- the catalogs are still empty
    subst hf
    have hX : (restoreSelects loadPage (restoreFormFields (initialState [] [] [])
        (saveDraft s now)) (saveDraft s now)).disciplineValues = [] := by
      rcases hsel with h | h
      · rw [h]; rfl
      · rw [h, hl]; rfl
    have e1 : (initialState [] [] []).traitValues.map Prod.fst = s.traitValues.map Prod.fst := by
      rw [k1]; rfl
    have e3 : (initialState [] [] []).advantageValues = [] := rfl
    have e4 : (initialState [] [] []).flawValues = [] := rfl
    rw [hX, e3, e4]
    refine ⟨?_, ?_, ?_, ?_, ?_, ?_⟩
    · exact restoreValues_same_keys _ _ e1 (k1 ▸ n1)
    · rw [restoreValues_append _ _ (by simpa using (k2 ▸ n2))]; rfl
    · rw [restoreValues_append _ _ (by simpa using (k3 ▸ n3))]; rfl
    · rw [restoreValues_append _ _ (by simpa using (k4 ▸ n4))]; rfl
    · exact restorePriorities_fresh _ hpa
    · exact restorePriorities_fresh _ hps

/-- C24 for the interactions of `exampleSession` on `examplePage`, the draft being applied
while the catalogs of the fresh wizard are still empty. -/
theorem draft_round_trip_witness :
    (∀ e ∈ exampleSession,
      e.offered ["Animalism", "Celerity", "Potence"] ["Allies", "Resources"] ["Enemy"] = true) ∧
    ledger (applyDraftToForm { examplePage with disciplinesData := [] } (initialState [] [] [])
      (saveDraft (reached examplePage ["Animalism", "Celerity", "Potence"]
        ["Allies", "Resources"] ["Enemy"] exampleSession) 0)) =
      ledger (reached examplePage ["Animalism", "Celerity", "Potence"]
        ["Allies", "Resources"] ["Enemy"] exampleSession) :=
  ⟨by decide,
    draft_round_trip examplePage { examplePage with disciplinesData := [] }
      ["Animalism", "Celerity", "Potence"] ["Allies", "Resources"] ["Enemy"] exampleSession 0
      (initialState [] [] []) rfl (by decide) (Or.inr ⟨rfl, rfl⟩)⟩

end Chargen

namespace CharacterSheet

/-! ## C27: the ranking that `validateAttributes` infers -/

theorem assignPriorities_spec (p o m : Int) (t : List (String × Option String)) :
    priorityOf (assignPriorities [("physical", p), ("social", o), ("mental", m)] t) "physical" =
      priorityOfRank (rankPhysical p o m) ∧
    priorityOf (assignPriorities [("physical", p), ("social", o), ("mental", m)] t) "social" =
      priorityOfRank (rankSocial p o m) ∧
    priorityOf (assignPriorities [("physical", p), ("social", o), ("mental", m)] t) "mental" =
      priorityOfRank (rankMental p o m) := by
  have e1 : ¬ ("physical" = "social") := by decide
  have e2 : ¬ ("physical" = "mental") := by decide
  have e3 : ¬ ("social" = "mental") := by decide
  have e4 : ¬ ("social" = "physical") := by decide
  have e5 : ¬ ("mental" = "physical") := by decide
  have e6 : ¬ ("mental" = "social") := by decide
  by_cases h1 : o < m <;> by_cases h2 : p < m <;> by_cases h3 : p < o <;>
    simp only [assignPriorities, sortDescending, insertDescending, h1, h2, h3, if_true, if_false,
      List.map_cons, List.map_nil, priorityOf, Chargen.getProp_setProp, e1, e2, e3, e4, e5, e6,
      Option.join, rankPhysical, rankSocial, rankMental, priorityOfRank] <;>
    (try (exfalso; omega)) <;>
    (refine ⟨?_, ?_, ?_⟩ <;> first | rfl | (split_ifs <;> first | rfl | (exfalso; omega)))

theorem withinLimits_iff (t : List (String × Option String)) (p o m : Int)
    (limits : PriorityDots) :
    withinLimits t p o m limits = true ↔
      (exceedsLimit (priorityOf t "physical") p limits = false ∧
        exceedsLimit (priorityOf t "social") o limits = false ∧
        exceedsLimit (priorityOf t "mental") m limits = false) := by
  simp only [withinLimits]
  cases exceedsLimit (priorityOf t "physical") p limits <;>
    cases exceedsLimit (priorityOf t "social") o limits <;>
    cases exceedsLimit (priorityOf t "mental") m limits <;> simp

theorem exceedsLimit_rank (r : Nat) (d : Int) (limits : PriorityDots) :
    exceedsLimit (priorityOfRank r) d limits = false ↔ d ≤ capOfRank limits r := by
  have e1 : ¬ ("high" = "medium") := by decide
  have e2 : ¬ ("high" = "low") := by decide
  have e3 : ¬ ("medium" = "low") := by decide
  have e4 : ¬ ("medium" = "high") := by decide
  have e5 : ¬ ("low" = "high") := by decide
  have e6 : ¬ ("low" = "medium") := by decide
  rcases r with _ | _ | r <;>
    simp [exceedsLimit, priorityOfRank, capOfRank, e1, e2, e3, e4, e5, e6]

/-- C27: `validateAttributes` gives each category the priority of its place in the ranking
by total dots in descending order (ties keeping the order physical, social, mental), the
first place being high, the second medium and the third low; it returns true exactly when
no category exceeds the cap of its place, which is exactly when the three totals sorted in
descending order are at most 4, 3 and 2; totals below the caps are accepted; and it
changes nothing but the inferred priorities. -/
theorem validateAttributes_ranks_by_dots (s : Sheet) (p o m : Int)
    (hp : dots s.character.attributes.physical = p)
    (ho : dots s.character.attributes.social = o)
    (hm : dots s.character.attributes.mental = m) :
    (priorityOf (validateAttributes s).2.priorityTracking.attributes "physical" =
        priorityOfRank (rankPhysical p o m) ∧
      priorityOf (validateAttributes s).2.priorityTracking.attributes "social" =
        priorityOfRank (rankSocial p o m) ∧
      priorityOf (validateAttributes s).2.priorityTracking.attributes "mental" =
        priorityOfRank (rankMental p o m)) ∧
    ((validateAttributes s).1 = true ↔
      (p ≤ capOfRank validationRules.attributes.priorityDots (rankPhysical p o m) ∧
        o ≤ capOfRank validationRules.attributes.priorityDots (rankSocial p o m) ∧
        m ≤ capOfRank validationRules.attributes.priorityDots (rankMental p o m))) ∧
    ((validateAttributes s).1 = true ↔ withinCaps (sortedTotals p o m) [4, 3, 2] = true) ∧
    (p ≤ 2 → o ≤ 2 → m ≤ 2 → (validateAttributes s).1 = true) ∧
    (validateAttributes s).2.character = s.character ∧
    (validateAttributes s).2.pointTrackers = s.pointTrackers ∧
    (validateAttributes s).2.priorityTracking.skills = s.priorityTracking.skills := by
  have hspec := assignPriorities_spec p o m s.priorityTracking.attributes
  have hcat : categoryDots s.character.attributes =
      [("physical", p), ("social", o), ("mental", m)] := by
    simp only [categoryDots, hp, ho, hm]
  have hvalid : (validateAttributes s).1 = true ↔
      (p ≤ capOfRank validationRules.attributes.priorityDots (rankPhysical p o m) ∧
        o ≤ capOfRank validationRules.attributes.priorityDots (rankSocial p o m) ∧
        m ≤ capOfRank validationRules.attributes.priorityDots (rankMental p o m)) := by
    simp only [validateAttributes, hcat, hp, ho, hm]
    rw [withinLimits_iff, hspec.1, hspec.2.1, hspec.2.2, exceedsLimit_rank, exceedsLimit_rank,
      exceedsLimit_rank]
  have hcaps : (p ≤ capOfRank validationRules.attributes.priorityDots (rankPhysical p o m) ∧
        o ≤ capOfRank validationRules.attributes.priorityDots (rankSocial p o m) ∧
        m ≤ capOfRank validationRules.attributes.priorityDots (rankMental p o m)) ↔
      withinCaps (sortedTotals p o m) [4, 3, 2] = true := by
    by_cases h1 : o < m <;> by_cases h2 : p < m <;> by_cases h3 : p < o <;>
      by_cases h4 : m ≤ o <;> by_cases h5 : m ≤ p <;> by_cases h6 : o ≤ p <;>
      (try (exfalso; omega)) <;>
      simp [rankPhysical, rankSocial, rankMental, capOfRank,
        validationRules.attributes.priorityDots, withinCaps, sortedTotals, List.insertionSort,
        List.orderedInsert, h1, h2, h3, h4, h5, h6] <;>
      omega
  refine ⟨?_, hvalid, hvalid.trans hcaps, ?_, rfl, rfl, rfl⟩
  · simp only [validateAttributes, hcat]
    exact hspec
  · intro h1 h2 h3
    rw [hvalid]
    have hc : ∀ r, (2 : Int) ≤ capOfRank validationRules.attributes.priorityDots r := by
      intro r
      rcases r with _ | _ | r <;> simp [capOfRank, validationRules.attributes.priorityDots]
    exact ⟨le_trans h1 (hc _), le_trans h2 (hc _), le_trans h3 (hc _)⟩

/-- C27 at `rankedSheet`, whose totals are 3, 4 and 2: social is ranked first, and the
sheet is valid. -/
theorem validateAttributes_ranks_by_dots_witness :
    dots rankedSheet.character.attributes.social = 4 ∧
    priorityOf (validateAttributes rankedSheet).2.priorityTracking.attributes "social" =
      some "high" ∧
    priorityOf (validateAttributes rankedSheet).2.priorityTracking.attributes "physical" =
      some "medium" ∧
    (validateAttributes rankedSheet).1 = true :=
  ⟨rfl,
    (validateAttributes_ranks_by_dots rankedSheet 3 4 2 rfl rfl rfl).1.2.1,
    (validateAttributes_ranks_by_dots rankedSheet 3 4 2 rfl rfl rfl).1.1,
    ((validateAttributes_ranks_by_dots rankedSheet 3 4 2 rfl rfl rfl).2.2.1).mpr (by decide)⟩

/-! ## C25: inferred priorities change with later clicks -/

/-- C25: there is a state that clicks reach from the initial sheet, and one click on a dot
of another category, after which `validateAttributes` has given a category whose own
ratings did not change a different priority. After one click on the first dot of strength
the social category is medium; a click on the first dot of intelligence makes it low. -/
theorem priority_reassigned_retroactively :
    ∃ (events : List SheetEvent) (category trait : String) (index : Nat) (other : String),
      allOffered true Sheet.initial events = true ∧
      (SheetEvent.attributeDot category trait index).offered (run true Sheet.initial events)
        = true ∧
      other ≠ category ∧
      ((SheetEvent.attributeDot category trait index).apply true
          (run true Sheet.initial events)).character.attributes.get other =
        (run true Sheet.initial events).character.attributes.get other ∧
      priorityOf (run true Sheet.initial events).priorityTracking.attributes other =
        some "medium" ∧
      priorityOf ((SheetEvent.attributeDot category trait index).apply true
          (run true Sheet.initial events)).priorityTracking.attributes other = some "low" ∧
      priorityOf (validateAttributes ((SheetEvent.attributeDot category trait index).apply true
          (run true Sheet.initial events))).2.priorityTracking.attributes other = some "low" := by
  refine ⟨[.attributeDot "physical" "strength" 0], "mental", "intelligence", 0, "social", ?_⟩
  decide

/-! ## C26: `validateBackgrounds` reads a property the character does not have -/

/-- C26 fails on the code: `validateBackgrounds` throws in every state, so
`validateCharacter` returns true in none; for `legalSheet`, whose name, concept and clan
are set and whose attribute, skill and discipline dots pass their validators, it throws. -/
theorem validateBackgrounds_always_throws :
    (∀ s : Sheet, validateBackgrounds s =
      .error "TypeError: Cannot convert undefined or null to object") ∧
    (∀ s : Sheet, validateCharacter s ≠ .ok true) ∧
    ((validateAttributes legalSheet).1 = true ∧ (validateSkills legalSheet).1 = true ∧
      validateDisciplines legalSheet = true ∧
      validateCharacter legalSheet =
        .error "TypeError: Cannot convert undefined or null to object") := by
  refine ⟨fun s => rfl, ?_, by decide, by decide, by decide, by decide⟩
  intro s
  simp only [validateCharacter, validateBackgrounds, Character.backgrounds]
  split_ifs <;> simp

/-! ## C30: the point trackers follow the ratings -/

theorem dots_eq_sum (obj : List (String × Int)) : dots obj = (obj.map Prod.snd).sum := by
  simp only [dots]
  rw [Chargen.foldl_add_eq_sum (fun e : String × Int => e.2) obj 0]
  simp

theorem dots_cons (e : String × Int) (obj : List (String × Int)) :
    dots (e :: obj) = e.2 + dots obj := by
  simp [dots_eq_sum]

theorem map_replace_of_no_key (obj : List (String × Int)) (k : String) (v : Int)
    (h : k ∉ obj.map Prod.fst) :
    obj.map (fun e => if e.1 == k then (k, v) else e) = obj := by
  induction obj with
  | nil => rfl
  | cons e obj ih =>
    simp only [List.map_cons, List.mem_cons, not_or] at h
    have he : (e.1 == k) = false := by
      simp only [beq_eq_false_iff_ne, ne_eq]
      exact fun hh => h.1 hh.symm
    simp only [List.map_cons, he, Bool.false_eq_true, if_false, ih h.2]

/-- Writing a rating under a key an object has changes the sum of its ratings by the
difference to the old rating. -/
theorem dots_setProp (obj : List (String × Int)) (k : String) (v old : Int)
    (hnd : (obj.map Prod.fst).Nodup) (h : Chargen.getProp obj k = some old) :
    dots (Chargen.setProp obj k v) = dots obj - old + v := by
  have hhas : obj.any (fun e => e.1 == k) = true :=
    Chargen.has_of_getProp obj k old h
  simp only [Chargen.setProp, hhas, if_true]
  induction obj with
  | nil => simp [Chargen.getProp] at h
  | cons e obj ih =>
    obtain ⟨hne, hnd2⟩ := List.nodup_cons.mp hnd
    rw [Chargen.getProp_cons] at h
    by_cases hk : e.1 = k
    · simp only [hk, if_true, Option.some.injEq] at h
      have hno : k ∉ obj.map Prod.fst := hk ▸ hne
      simp only [List.map_cons, hk, beq_self_eq_true, if_true,
        map_replace_of_no_key obj k v hno, dots_cons]
      omega
    · simp only [hk, if_false] at h
      have hb : (e.1 == k) = false := by simpa using hk
      have hhas2 : obj.any (fun e => e.1 == k) = true := Chargen.has_of_getProp obj k old h
      simp only [List.map_cons, hb, Bool.false_eq_true, if_false, dots_cons, ih hnd2 h hhas2]
      omega

theorem Categories.get_cases (c : Categories) (category : String) (r : List (String × Int))
    (h : c.get category = some r) :
    (category = "physical" ∧ r = c.physical) ∨ (category = "social" ∧ r = c.social) ∨
      (category = "mental" ∧ r = c.mental) := by
  unfold Categories.get at h
  split_ifs at h with h1 h2 h3
  · exact Or.inl ⟨h1, (Option.some.inj h).symm⟩
  · exact Or.inr (Or.inl ⟨h2, (Option.some.inj h).symm⟩)
  · exact Or.inr (Or.inr ⟨h3, (Option.some.inj h).symm⟩)

/-- Writing a rating into the object of a category: the group total changes by the
difference to the old rating, the keys stay distinct, and the container shows the new
rating. -/
theorem Categories.set_rating (c : Categories) (category trait : String)
    (r : List (String × Int)) (v old : Int) (hget : c.get category = some r)
    (hold : Chargen.getProp r trait = some old) (hnd : c.distinctKeys) :
    (c.set category (Chargen.setProp r trait v)).total = c.total - old + v ∧
    (c.set category (Chargen.setProp r trait v)).distinctKeys ∧
    (c.set category (Chargen.setProp r trait v)).rating category trait = some v := by
  obtain ⟨n1, n2, n3⟩ := hnd
  have e1 : ¬ ("social" = "physical") := by decide
  have e2 : ¬ ("mental" = "physical") := by decide
  have e3 : ¬ ("mental" = "social") := by decide
  rcases Categories.get_cases c category r hget with ⟨hc, hr⟩ | ⟨hc, hr⟩ | ⟨hc, hr⟩ <;>
    subst hc <;> subst hr
  · refine ⟨?_, ⟨Chargen.nodup_keys_setProp _ _ _ n1, n2, n3⟩, ?_⟩
    · simp only [Categories.set, Categories.total, if_true, dots_setProp _ _ v old n1 hold]
      omega
    · simp [Categories.set, Categories.rating, Categories.get, Chargen.getProp_setProp]
  · refine ⟨?_, ⟨n1, Chargen.nodup_keys_setProp _ _ _ n2, n3⟩, ?_⟩
    · simp only [Categories.set, Categories.total, e1, if_true, if_false,
        dots_setProp _ _ v old n2 hold]
      omega
    · simp [Categories.set, Categories.rating, Categories.get, Chargen.getProp_setProp, e1]
  · refine ⟨?_, ⟨n1, n2, Chargen.nodup_keys_setProp _ _ _ n3⟩, ?_⟩
    · simp only [Categories.set, Categories.total, e2, e3, if_true, if_false,
        dots_setProp _ _ v old n3 hold]
      omega
    · simp [Categories.set, Categories.rating, Categories.get, Chargen.getProp_setProp, e2, e3]

/-- What a handler computes from a tracker that agrees with the ratings: the test for
too few points, and the tracker after the change. -/
theorem Tracker.spend_agrees (t : Tracker) (total spent old new : Int)
    (h : t.agrees total spent) :
    (t.remaining.sub ((JSNumber.int new).sub (JSNumber.ofRating (some old)))).negative =
      decide (total - spent - (new - old) < 0) ∧
    (¬ (total - spent - (new - old) < 0) →
      (t.spend ((JSNumber.int new).sub (JSNumber.ofRating (some old)))).agrees total
        (spent - old + new)) := by
  obtain ⟨h1, h2, h3, h4⟩ := h
  refine ⟨?_, ?_⟩
  · simp [h3, JSNumber.sub, JSNumber.ofRating, JSNumber.negative]
  · intro hn
    simp only [Tracker.agrees, Tracker.spend, h1, h2, JSNumber.sub, JSNumber.ofRating,
      JSNumber.add, JSNumber.int.injEq, true_and]
    refine ⟨by omega, by omega, by omega⟩

theorem Categories.rating_eq_some (c : Categories) (category trait : String) (old : Int)
    (h : c.rating category trait = some old) :
    ∃ r, c.get category = some r ∧ Chargen.getProp r trait = some old := by
  simpa [Categories.rating, Option.bind_eq_some] using h

/-- One run of an attribute listener on a consistent sheet whose container shows a
rating: the sheet stays consistent, the container still shows a rating, and when the
points do not suffice nothing changes. -/
theorem clickAttributeDot_consistent (category trait : String) (index : Nat) (s : Sheet)
    (old : Int) (hinv : s.consistent)
    (hold : s.character.attributes.rating category trait = some old) :
    (clickAttributeDot category trait index s).consistent ∧
    (∃ old2, (clickAttributeDot category trait index s).character.attributes.rating
      category trait = some old2) ∧
    (clickAttributeDot category trait index s).listeners = s.listeners ∧
    (exceedsRemaining 9 s.character.attributes.total (some old) index = true →
      clickAttributeDot category trait index s = s) := by
  obtain ⟨r, hget, hr⟩ := Categories.rating_eq_some _ _ _ _ hold
  obtain ⟨⟨ha, hs, hd⟩, na, ns, nd⟩ := hinv
  obtain ⟨htest, hspend⟩ := Tracker.spend_agrees s.pointTrackers.attributes 9
    s.character.attributes.total old (toggledValue (some old) index) ha
  by_cases hb : 9 - s.character.attributes.total - (toggledValue (some old) index - old) < 0
  · have hsame : clickAttributeDot category trait index s = s := by
      simp only [clickAttributeDot, hget, hr, htest, hb, decide_True, if_true]
    rw [hsame]
    exact ⟨⟨⟨ha, hs, hd⟩, na, ns, nd⟩, ⟨old, hold⟩, rfl, fun _ => rfl⟩
  · obtain ⟨h1, h2, h3⟩ := Categories.set_rating s.character.attributes category trait r
      (toggledValue (some old) index) old hget hr na
    have hnew : clickAttributeDot category trait index s =
        (validateAttributes
          { s with
            character := { s.character with
              attributes := s.character.attributes.set category
                (Chargen.setProp r trait (toggledValue (some old) index)) }
            pointTrackers := { s.pointTrackers with
              attributes := s.pointTrackers.attributes.spend
                ((JSNumber.int (toggledValue (some old) index)).sub
                  (JSNumber.ofRating (some old))) } }).2 := by
      simp only [clickAttributeDot, hget, hr, htest, hb, decide_False, Bool.false_eq_true,
        if_false]
    rw [hnew]
    refine ⟨⟨⟨?_, hs, hd⟩, h2, ns, nd⟩, ⟨_, h3⟩, rfl, ?_⟩
    · have := hspend hb
      simp only [validateAttributes]
      rw [h1]
      exact this
    · intro hex
      simp only [exceedsRemaining, decide_eq_true_eq] at hex
      exact absurd hex hb

/-- One run of a skill listener on a consistent sheet whose container shows a rating. -/
theorem clickSkillDot_consistent (category skill : String) (index : Nat) (s : Sheet)
    (old : Int) (hinv : s.consistent)
    (hold : s.character.skills.rating category skill = some old) :
    (clickSkillDot category skill index s).consistent ∧
    (∃ old2, (clickSkillDot category skill index s).character.skills.rating
      category skill = some old2) ∧
    (clickSkillDot category skill index s).listeners = s.listeners ∧
    (exceedsRemaining 27 s.character.skills.total (some old) index = true →
      clickSkillDot category skill index s = s) := by
  obtain ⟨r, hget, hr⟩ := Categories.rating_eq_some _ _ _ _ hold
  obtain ⟨⟨ha, hs, hd⟩, na, ns, nd⟩ := hinv
  obtain ⟨htest, hspend⟩ := Tracker.spend_agrees s.pointTrackers.skills 27
    s.character.skills.total old (toggledValue (some old) index) hs
  by_cases hb : 27 - s.character.skills.total - (toggledValue (some old) index - old) < 0
  · have hsame : clickSkillDot category skill index s = s := by
      simp only [clickSkillDot, hget, hr, htest, hb, decide_True, if_true]
    rw [hsame]
    exact ⟨⟨⟨ha, hs, hd⟩, na, ns, nd⟩, ⟨old, hold⟩, rfl, fun _ => rfl⟩
  · by_cases hmax : toggledValue (some old) index > validationRules.skills.maxAtCreation
    · have hsame : clickSkillDot category skill index s = s := by
        simp only [clickSkillDot, hget, hr, htest, hb, decide_False, Bool.false_eq_true,
          if_false, hmax, if_true]
      rw [hsame]
      exact ⟨⟨⟨ha, hs, hd⟩, na, ns, nd⟩, ⟨old, hold⟩, rfl, fun _ => rfl⟩
    · obtain ⟨h1, h2, h3⟩ := Categories.set_rating s.character.skills category skill r
        (toggledValue (some old) index) old hget hr ns
      have hnew : clickSkillDot category skill index s =
          (validateSkills
            { s with
              character := { s.character with
                skills := s.character.skills.set category
                  (Chargen.setProp r skill (toggledValue (some old) index)) }
              pointTrackers := { s.pointTrackers with
                skills := s.pointTrackers.skills.spend
                  ((JSNumber.int (toggledValue (some old) index)).sub
                    (JSNumber.ofRating (some old))) } }).2 := by
        simp only [clickSkillDot, hget, hr, htest, hb, decide_False, Bool.false_eq_true,
          if_false, hmax]
      rw [hnew]
      refine ⟨⟨⟨ha, ?_, hd⟩, na, h2, nd⟩, ⟨_, h3⟩, rfl, ?_⟩
      · have := hspend hb
        simp only [validateSkills]
        rw [h1]
        exact this
      · intro hex
        simp only [exceedsRemaining, decide_eq_true_eq] at hex
        exact absurd hex hb

/-- The run of a discipline listener on a consistent sheet whose container shows a
rating. -/
theorem clickDisciplineDot_consistent (discipline : String) (index : Nat) (s : Sheet)
    (old : Int) (hinv : s.consistent)
    (hold : Chargen.getProp s.character.disciplines discipline = some old) :
    (clickDisciplineDot discipline index s).consistent ∧
    (exceedsRemaining 3 (dots s.character.disciplines) (some old) index = true →
      clickDisciplineDot discipline index s = s) := by
  obtain ⟨⟨ha, hs, hd⟩, na, ns, nd⟩ := hinv
  obtain ⟨htest, hspend⟩ := Tracker.spend_agrees s.pointTrackers.disciplines 3
    (dots s.character.disciplines) old (toggledValue (some old) index) hd
  by_cases hb : 3 - dots s.character.disciplines - (toggledValue (some old) index - old) < 0
  · have hsame : clickDisciplineDot discipline index s = s := by
      simp only [clickDisciplineDot, hold, htest, hb, decide_True, if_true]
    rw [hsame]
    exact ⟨⟨⟨ha, hs, hd⟩, na, ns, nd⟩, fun _ => rfl⟩
  · by_cases hmax : toggledValue (some old) index > validationRules.disciplines.maxAtCreation
    · have hsame : clickDisciplineDot discipline index s = s := by
        simp only [clickDisciplineDot, hold, htest, hb, decide_False, Bool.false_eq_true,
          if_false, hmax, if_true]
      rw [hsame]
      exact ⟨⟨⟨ha, hs, hd⟩, na, ns, nd⟩, fun _ => rfl⟩
    · have hnew : clickDisciplineDot discipline index s =
          { s with
            character := { s.character with
              disciplines := Chargen.setProp s.character.disciplines discipline
                (toggledValue (some old) index) }
            pointTrackers := { s.pointTrackers with
              disciplines := s.pointTrackers.disciplines.spend
                ((JSNumber.int (toggledValue (some old) index)).sub
                  (JSNumber.ofRating (some old))) } } := by
        simp only [clickDisciplineDot, hold, htest, hb, decide_False, Bool.false_eq_true,
          if_false, hmax]
      rw [hnew]
      refine ⟨⟨⟨ha, hs, ?_⟩, na, ns, Chargen.nodup_keys_setProp _ _ _ nd⟩, ?_⟩
      · have := hspend hb
        simp only
        rw [dots_setProp _ _ _ old nd hold]
        exact this
      · intro hex
        simp only [exceedsRemaining, decide_eq_true_eq] at hex
        exact absurd hex hb

theorem iterate_keeps {α : Type} (f : α → α) (P : α → Prop) (hP : ∀ x, P x → P (f x)) :
    ∀ (n : Nat) (x : α), P x → P (Nat.iterate f n x) := by
  intro n
  induction n with
  | zero => intro x hx; exact hx
  | succ n ih => intro x hx; exact ih (f x) (hP x hx)

theorem iterate_of_fixed {α : Type} (f : α → α) (x : α) (h : f x = x) :
    ∀ n : Nat, Nat.iterate f n x = x := by
  intro n
  induction n with
  | zero => rfl
  | succ n ih =>
    show Nat.iterate f n (f x) = x
    rw [h, ih]

theorem dots_clan_disciplines (clanDisciplines : List String) :
    ∀ d : List (String × Int), (d.map Prod.fst).Nodup → (∀ e ∈ d, e.2 = 0) →
      ((clanDisciplines.foldl (fun d discipline => Chargen.setProp d discipline 0) d).map
          Prod.fst).Nodup ∧
      dots (clanDisciplines.foldl (fun d discipline => Chargen.setProp d discipline 0) d) = 0 := by
  induction clanDisciplines with
  | nil =>
    intro d hnd hz
    exact ⟨hnd, Chargen.disciplinesSpent_of_zero d hz⟩
  | cons x xs ih =>
    intro d hnd hz
    rw [List.foldl_cons]
    exact ih _ (Chargen.nodup_keys_setProp _ _ _ hnd)
      (Chargen.setProp_forall (fun v : Int => v = 0) d x 0 hz rfl)

/-- The listener of the clan select keeps a consistent sheet consistent. -/
theorem clanChanged_consistent (disciplinesContainer : Bool) (selectedClan : String)
    (s : Sheet) (hinv : s.consistent) :
    (clanChanged disciplinesContainer selectedClan s).consistent := by
  obtain ⟨⟨ha, hs, hd⟩, na, ns, nd⟩ := hinv
  have t1 := hd.1
  have hreset : ({ s.pointTrackers.disciplines with
      used := JSNumber.int 0
      remaining := JSNumber.int s.pointTrackers.disciplines.total } : Tracker).agrees 3 0 := by
    simp [Tracker.agrees, t1]
  unfold clanChanged
  cases hentry : clanEntry selectedClan with
  | none => exact ⟨⟨ha, hs, hd⟩, na, ns, nd⟩
  | some l =>
    simp only [updateDisciplines]
    cases disciplinesContainer with
    | false =>
      simp only [Bool.not_false, if_true]
      exact ⟨⟨ha, hs, hreset⟩, na, ns, by simp⟩
    | true =>
      simp only [Bool.not_true, Bool.false_eq_true, if_false, hentry]
      obtain ⟨k1, k2⟩ := dots_clan_disciplines l [] (by simp) (by simp)
      refine ⟨⟨ha, hs, ?_⟩, na, ns, k1⟩
      simp only
      rw [k2]
      exact hreset

/-- An offered event keeps a consistent sheet consistent, and an offered click that would
make `remaining` negative changes nothing. -/
theorem event_consistent (disciplinesContainer : Bool) (s : Sheet) (e : SheetEvent)
    (hinv : s.consistent) (hoff : e.offered s = true) :
    (e.apply disciplinesContainer s).consistent ∧
    (e.overspends s = true → e.apply disciplinesContainer s = s) := by
  cases e with
  | attributeDot category trait index =>
    simp only [SheetEvent.offered, Option.isSome_iff_exists] at hoff
    obtain ⟨old, hold⟩ := hoff
    have hold2 : s.character.attributes.rating category trait = some old := hold
    refine ⟨?_, ?_⟩
    · exact (iterate_keeps (clickAttributeDot category trait index)
        (fun x => x.consistent ∧ ∃ o, x.character.attributes.rating category trait = some o)
        (fun x hx => by
          obtain ⟨h1, o, h2⟩ := hx
          obtain ⟨k1, k2, -, -⟩ := clickAttributeDot_consistent category trait index x o h1 h2
          exact ⟨k1, k2⟩)
        s.listeners s ⟨hinv, old, hold2⟩).1
    · intro hover
      simp only [SheetEvent.overspends, hold2] at hover
      exact iterate_of_fixed _ s
        ((clickAttributeDot_consistent category trait index s old hinv hold2).2.2.2 hover) _
  | skillDot category skill index =>
    simp only [SheetEvent.offered, Option.isSome_iff_exists] at hoff
    obtain ⟨old, hold⟩ := hoff
    have hold2 : s.character.skills.rating category skill = some old := hold
    refine ⟨?_, ?_⟩
    · exact (iterate_keeps (clickSkillDot category skill index)
        (fun x => x.consistent ∧ ∃ o, x.character.skills.rating category skill = some o)
        (fun x hx => by
          obtain ⟨h1, o, h2⟩ := hx
          obtain ⟨k1, k2, -, -⟩ := clickSkillDot_consistent category skill index x o h1 h2
          exact ⟨k1, k2⟩)
        s.listeners s ⟨hinv, old, hold2⟩).1
    · intro hover
      simp only [SheetEvent.overspends, hold2] at hover
      exact iterate_of_fixed _ s
        ((clickSkillDot_consistent category skill index s old hinv hold2).2.2.2 hover) _
  | disciplineDot discipline index =>
    simp only [SheetEvent.offered, Option.isSome_iff_exists] at hoff
    obtain ⟨old, hold⟩ := hoff
    obtain ⟨k1, k2⟩ := clickDisciplineDot_consistent discipline index s old hinv hold
    refine ⟨k1, ?_⟩
    intro hover
    simp only [SheetEvent.overspends, hold] at hover
    exact k2 hover
  | clanChange selectedClan =>
    refine ⟨clanChanged_consistent disciplinesContainer selectedClan s hinv, ?_⟩
    intro hover
    simp [SheetEvent.overspends] at hover

theorem run_consistent (disciplinesContainer : Bool) (events : List SheetEvent) :
    ∀ s : Sheet, s.consistent → allOffered disciplinesContainer s events = true →
      (run disciplinesContainer s events).consistent := by
  induction events with
  | nil => intro s h _; exact h
  | cons e es ih =>
    intro s h hoff
    simp only [allOffered, Bool.and_eq_true] at hoff
    exact ih _ (event_consistent disciplinesContainer s e h hoff.1).1 hoff.2

/-- C30: after any sequence of attribute, skill and discipline dot clicks and clan changes
on the initial sheet, each tracker's `used` is the sum of the current ratings of its
group and its `remaining` is `total - used` and not negative, so that attribute dots
total at most 9, skill dots at most 27 and discipline dots at most 3; and a click that
would make `remaining` negative leaves the whole state as it is. -/
theorem trackers_follow_ratings (disciplinesContainer : Bool) (events : List SheetEvent)
    (hoff : allOffered disciplinesContainer Sheet.initial events = true) :
    trackersAgree (run disciplinesContainer Sheet.initial events) ∧
    ((run disciplinesContainer Sheet.initial events).character.attributes.total ≤ 9 ∧
      (run disciplinesContainer Sheet.initial events).character.skills.total ≤ 27 ∧
      dots (run disciplinesContainer Sheet.initial events).character.disciplines ≤ 3) ∧
    (∀ e : SheetEvent, e.offered (run disciplinesContainer Sheet.initial events) = true →
      e.overspends (run disciplinesContainer Sheet.initial events) = true →
      e.apply disciplinesContainer (run disciplinesContainer Sheet.initial events) =
        run disciplinesContainer Sheet.initial events) := by
  have hinit : Sheet.initial.consistent := by decide
  have hrun := run_consistent disciplinesContainer events Sheet.initial hinit hoff
  obtain ⟨⟨ha, hs, hd⟩, -⟩ := id hrun
  refine ⟨⟨ha, hs, hd⟩, ⟨?_, ?_, ?_⟩, ?_⟩
  · have := ha.2.2.2; omega
  · have := hs.2.2.2; omega
  · have := hd.2.2.2; omega
  · intro e he hover
    exact (event_consistent disciplinesContainer _ e hrun he).2 hover

/-- C30 for the events of `sheetSession`: the trackers agree with the ratings afterwards,
and a click on the fifth dot of dexterity, for which the remaining attribute points do
not suffice, changes nothing. -/
theorem trackers_follow_ratings_witness :
    allOffered true Sheet.initial sheetSession = true ∧
    trackersAgree (run true Sheet.initial sheetSession) ∧
    (SheetEvent.attributeDot "physical" "dexterity" 4).overspends
      (run true Sheet.initial sheetSession) = true ∧
    (SheetEvent.attributeDot "physical" "dexterity" 4).apply true
      (run true Sheet.initial sheetSession) = run true Sheet.initial sheetSession :=
  ⟨by decide, (trackers_follow_ratings true sheetSession (by decide)).1, by decide,
    (trackers_follow_ratings true sheetSession (by decide)).2.2
      (.attributeDot "physical" "dexterity" 4) (by decide) (by decide)⟩

end CharacterSheet
